import Mathlib

/-!
# Order placement with stock reconciliation

A shallow embedding of the order workflow of the inventory backend, in its two
variants:

* `src/NoSQL/server.js`  (Mongoose document store),
* `src/SQL/server2.js`   (MySQL, with transactions around multi-statement writes).

The handlers embedded are those of `POST /api/orders`, `GET /api/orders`,
`PUT /api/orders/:id/status`, `POST /api/items`, `PUT /api/items/:id`,
`DELETE /api/items/:id`, `DELETE /api/users/:id` and `DELETE /api/admins/:id`.
A last part embeds `validateAndNormalizeSize` and `PUT /items/:id` of the
file-backed item API of `src/api_server/api.js`.

Conventions of the embedding

* Identifiers (`_id`, `item_id`, `req.user.id`) are strings; a request field
  that is absent is `none`.  JavaScript truthiness is spelled out: `!itemId`
  holds for an absent or empty identifier, `!quantity` for an absent or zero
  quantity.
* Quantities and stock counts are integers, prices are rationals.  The source
  computes `totalAmount` with JavaScript numbers, IEEE 754 doubles, whose
  rounding is not modelled: the total is carried along as a rational, and no
  property below is about its value.
* A handler is a function from the store before the request to the store after
  it and the response.  Calls into the store library (`findById`, `save`,
  `create`, `execute`, ...) have their documented effect, or throw: whether the
  next call throws is read off `Env.faults`, one entry per call, in call order
  (an exhausted list means that no further call throws).  A thrown error
  reaches the handler's `catch` block.  What the library or the database
  rejects on its own grounds (an identifier it cannot cast, a schema validator,
  a constraint of a table) is such a throw.
-/

namespace Inventory

/-! ## Requests, responses, environment -/

/-- The payload `req.user` that `authenticateToken` attaches: `{ id, role, type }`. -/
structure Caller where
  id : String
  role : String
  type : String
deriving DecidableEq

/-- One entry of `req.body.items`: `{ itemId, quantity }`, either field possibly absent. -/
structure Line where
  itemId : Option String
  quantity : Option Int
deriving DecidableEq

/-- The request body of `POST /api/orders`: `{ items }`, possibly absent. -/
structure Body where
  items : Option (List Line)
deriving DecidableEq

/-- What the handler does not control: the clock (`Date.now`), the identifier the
document store gives to a created document, and which store calls throw. -/
structure Env where
  now : Nat
  newId : String
  faults : List Bool
deriving DecidableEq

/-- The answer `res.status(status).json({ message, ... })`. -/
structure Response (α : Type) where
  status : Nat
  message : String
  payload : Option α
deriving DecidableEq

/-- Does the next store call throw? -/
def throws (faults : List Bool) : Bool :=
  faults.head?.getD false

/-- The line-item snapshot `{ itemId, name, price, quantity }` pushed on
`processedItems` (and, in the document store, embedded in the order by
`OrderItemSchema`). -/
structure OrderItem where
  itemId : String
  name : String
  price : ℚ
  quantity : Int
deriving DecidableEq

/-- The guard `!itemId || !quantity || quantity <= 0` of both handlers. -/
def invalidLine (l : Line) : Bool :=
  (match l.itemId with
    | none => true
    | some s => decide (s = ""))
  || (match l.quantity with
    | none => true
    | some q => decide (q = 0))
  || (match l.quantity with
    | none => false
    | some q => decide (q ≤ 0))

/-- The role gate `req.user.role !== 'user' || req.user.type !== 'user'`. -/
def notRegularUser (user : Caller) : Bool :=
  decide (user.role ≠ "user") || decide (user.type ≠ "user")

/-- The guard `!orderItems || orderItems.length === 0`. -/
def noItems (body : Body) : Bool :=
  match body.items with
  | none => true
  | some ls => decide (ls.length = 0)

def msgDenied : String := "Access denied: Only regular users can place orders"
def msgEmpty : String := "Order must contain at least one item."
def msgInvalidLine : String := "Each order item must have a valid itemId and quantity (> 0)."
def msgFailed : String := "Failed to place order"
def msgPlaced : String := "Order placed successfully"

/-- The template `Item with ID ${itemId} not found.` -/
def msgNotFound (itemId : String) : String :=
  "Item with ID " ++ itemId ++ " not found."

/-- The template `Insufficient stock for item: ${item.name}. Available: ${item.stockQuantity}`. -/
def msgInsufficient (name : String) (stock : Int) : String :=
  "Insufficient stock for item: " ++ name ++ ". Available: " ++ toString stock

/-! ## Document-store variant (`src/NoSQL/server.js`) -/

namespace NoSQL

/-- A document of `ItemSchema`. -/
structure Item where
  _id : String
  name : String
  price : ℚ
  size : String
  categoryId : String
  stockQuantity : Int
  createdByAdminId : Option String
deriving DecidableEq

/-- A document of `OrderSchema`. -/
structure Order where
  _id : String
  userId : String
  orderDate : Nat
  totalAmount : ℚ
  status : String
  approvedByAdminId : Option String
  approvedAt : Option Nat
  items : List OrderItem
  createdAt : Nat
  updatedAt : Nat
deriving DecidableEq

/-- The collections the order workflow reads and writes. -/
structure Store where
  items : List Item
  orders : List Order
deriving DecidableEq

/-- The lookup `Item.findById(itemId)`. -/
def findById (items : List Item) (itemId : String) : Option Item :=
  items.find? (fun i => decide (i._id = itemId))

/-- The write `item.save()` after `item.stockQuantity -= quantity`: the one
document with the identifier of `doc` gets the modified path `stockQuantity`. -/
def save : List Item → Item → List Item
  | [], _ => []
  | i :: rest, doc =>
    if i._id = doc._id then { i with stockQuantity := doc.stockQuantity } :: rest
    else i :: save rest doc

/-- The outcome of the `for (const orderItem of orderItems)` loop: it ran to the
end, or it left the handler with a response (`return res.status(..)` or a
throw caught by `catch`).  Either way the item collection is as the loop left it. -/
inductive Loop where
  | finished (items : List Item) (totalAmount : ℚ) (processedItems : List OrderItem)
      (faults : List Bool)
  | aborted (items : List Item) (status : Nat) (message : String)
deriving DecidableEq

/-- The body of the loop over `orderItems`, in caller order. -/
def processLines : List Line → List Item → ℚ → List OrderItem → List Bool → Loop
  | [], items, totalAmount, processedItems, faults =>
    .finished items totalAmount processedItems faults
  | orderItem :: rest, items, totalAmount, processedItems, faults =>
    if invalidLine orderItem then .aborted items 400 msgInvalidLine
    else
      let itemId := orderItem.itemId.getD ""
      let quantity := orderItem.quantity.getD 0
      -- const item = await Item.findById(itemId)
      if throws faults then .aborted items 500 msgFailed
      else
        match findById items itemId with
        | none => .aborted items 404 (msgNotFound itemId)
        | some item =>
          if item.stockQuantity < quantity then
            .aborted items 400 (msgInsufficient item.name item.stockQuantity)
          else
            -- item.stockQuantity -= quantity; await item.save()
            let item := { item with stockQuantity := item.stockQuantity - quantity }
            if throws faults.tail then .aborted items 500 msgFailed
            else
              processLines rest (save items item)
                (totalAmount + item.price * quantity)
                (processedItems ++
                  [{ itemId := item._id, name := item.name, price := item.price,
                     quantity := quantity }])
                faults.tail.tail

/-- The document `Order.create({ userId, totalAmount, status: 'pending', items })`
stores: the schema defaults fill `orderDate`, `createdAt`, `updatedAt`; the
approval fields stay unset. -/
def newOrder (env : Env) (user : Caller) (totalAmount : ℚ) (processedItems : List OrderItem) :
    Order :=
  { _id := env.newId, userId := user.id, orderDate := env.now, totalAmount := totalAmount,
    status := "pending", approvedByAdminId := none, approvedAt := none,
    items := processedItems, createdAt := env.now, updatedAt := env.now }

/-- The handler `app.post('/api/orders', authenticateToken, ...)`. -/
def placeOrder (env : Env) (st : Store) (user : Caller) (body : Body) :
    Store × Response Order :=
  if notRegularUser user then (st, ⟨403, msgDenied, none⟩)
  else if noItems body then (st, ⟨400, msgEmpty, none⟩)
  else
    match processLines (body.items.getD []) st.items 0 [] env.faults with
    | .aborted items status message => ({ st with items := items }, ⟨status, message, none⟩)
    | .finished items totalAmount processedItems faults =>
      -- const newOrder = await Order.create({...})
      if throws faults then ({ st with items := items }, ⟨500, msgFailed, none⟩)
      else
        let order := newOrder env user totalAmount processedItems
        ({ items := items, orders := st.orders ++ [order] }, ⟨201, msgPlaced, some order⟩)

end NoSQL

/-! ## Relational variant (`src/SQL/server2.js`) -/

namespace SQL

/-- A row of `Items`, with the columns the queries of the server name. -/
structure ItemRow where
  item_id : String
  name : String
  price : ℚ
  size : String
  category_id : String
  stock_quantity : Int
  created_by : Option String
deriving DecidableEq

/-- A row of `Orders`, with the columns the queries of the server name. -/
structure OrderRow where
  order_id : Nat
  user_id : String
  order_date : Nat
  total_amount : ℚ
  status : String
  approved_by : Option String
  approved_at : Option Nat
  updated_at : Nat
deriving DecidableEq

/-- A row of the junction table `Order_Items`. -/
structure OrderItemRow where
  order_id : Nat
  item_id : String
  quantity : Int
  price_at_order : ℚ
deriving DecidableEq

/-- The tables the order workflow reads and writes, and the auto-increment
counter that yields `insertId` for `Orders`. -/
structure Db where
  Items : List ItemRow
  Orders : List OrderRow
  Order_Items : List OrderItemRow
  nextOrderId : Nat
deriving DecidableEq

/-- The body of the `201` answer: `{ order_id, total_amount, items: processedItems }`. -/
structure Receipt where
  order_id : Nat
  total_amount : ℚ
  items : List OrderItem
deriving DecidableEq

/-- The effect of `connection.rollback()`: the tables are again those of the
snapshot taken by `beginTransaction`; the auto-increment counter is not part of
the transaction. -/
def rollback (snapshot db : Db) : Db :=
  { snapshot with nextOrderId := db.nextOrderId }

/-- The query `SELECT item_id, name, price, stock_quantity FROM Items WHERE item_id = ?`. -/
def selectItem (db : Db) (itemId : String) : List ItemRow :=
  db.Items.filter (fun r => decide (r.item_id = itemId))

/-- The statement `UPDATE Items SET stock_quantity = stock_quantity - ? WHERE item_id = ?`. -/
def updateStock (db : Db) (quantity : Int) (itemId : String) : Db :=
  { db with Items := db.Items.map (fun r =>
      if r.item_id = itemId then { r with stock_quantity := r.stock_quantity - quantity } else r) }

/-- Modelled from the spec: the `CREATE TABLE Orders` declaration is not in the
source.  The statement `INSERT INTO Orders (user_id, total_amount, status)` names
three columns; the others take their defaults: the order date is the time of
the insert and the approver and approval timestamp are null until a status
change (spec, data model of Order). -/
def insertOrder (env : Env) (db : Db) (userId : String) (totalAmount : ℚ) (status : String) :
    Db :=
  { db with
    Orders := db.Orders ++
      [{ order_id := db.nextOrderId, user_id := userId, order_date := env.now,
         total_amount := totalAmount, status := status, approved_by := none,
         approved_at := none, updated_at := env.now }]
    nextOrderId := db.nextOrderId + 1 }

/-- The statement
`INSERT INTO Order_Items (order_id, item_id, quantity, price_at_order)`. -/
def insertOrderItem (db : Db) (orderId : Nat) (pItem : OrderItem) : Db :=
  { db with Order_Items := db.Order_Items ++
      [{ order_id := orderId, item_id := pItem.itemId, quantity := pItem.quantity,
         price_at_order := pItem.price }] }

/-- The outcome of the loop over `orderItems`: it ran to the end inside the open
transaction, or it left the handler with a response, after `connection.rollback()`. -/
inductive Loop where
  | finished (db : Db) (totalAmount : ℚ) (processedItems : List OrderItem)
      (faults : List Bool)
  | aborted (db : Db) (status : Nat) (message : String)
deriving DecidableEq

/-- The body of the loop over `orderItems`; `snapshot` is the state at
`beginTransaction`. -/
def processLines (snapshot : Db) : List Line → Db → ℚ → List OrderItem → List Bool → Loop
  | [], db, totalAmount, processedItems, faults =>
    .finished db totalAmount processedItems faults
  | orderItem :: rest, db, totalAmount, processedItems, faults =>
    if invalidLine orderItem then .aborted (rollback snapshot db) 400 msgInvalidLine
    else
      let itemId := orderItem.itemId.getD ""
      let quantity := orderItem.quantity.getD 0
      -- const [items] = await connection.execute('SELECT ...'); const item = items[0]
      if throws faults then .aborted (rollback snapshot db) 500 msgFailed
      else
        match (selectItem db itemId).head? with
        | none => .aborted (rollback snapshot db) 404 (msgNotFound itemId)
        | some item =>
          if item.stock_quantity < quantity then
            .aborted (rollback snapshot db) 400 (msgInsufficient item.name item.stock_quantity)
          -- await connection.execute('UPDATE Items SET stock_quantity = ...')
          else if throws faults.tail then .aborted (rollback snapshot db) 500 msgFailed
          else
            processLines snapshot rest (updateStock db quantity itemId)
              (totalAmount + item.price * quantity)
              (processedItems ++
                [{ itemId := item.item_id, name := item.name, price := item.price,
                   quantity := quantity }])
              faults.tail.tail

/-- The loop `for (const pItem of processedItems)` that fills `Order_Items`;
`none` when one of the inserts throws. -/
def insertOrderItems (orderId : Nat) : List OrderItem → Db → List Bool → Option (Db × List Bool)
  | [], db, faults => some (db, faults)
  | pItem :: rest, db, faults =>
    if throws faults then none
    else insertOrderItems orderId rest (insertOrderItem db orderId pItem) faults.tail

/-- The handler `app.post('/api/orders', authenticateToken, ...)`. -/
def placeOrder (env : Env) (db : Db) (user : Caller) (body : Body) :
    Db × Response Receipt :=
  if notRegularUser user then (db, ⟨403, msgDenied, none⟩)
  else if noItems body then (db, ⟨400, msgEmpty, none⟩)
  -- connection = await pool.getConnection(): on a throw there is no connection to roll back
  else if throws env.faults then (db, ⟨500, msgFailed, none⟩)
  -- await connection.beginTransaction()
  else if throws env.faults.tail then (rollback db db, ⟨500, msgFailed, none⟩)
  else
    match processLines db (body.items.getD []) db 0 [] env.faults.tail.tail with
    | .aborted db1 status message => (db1, ⟨status, message, none⟩)
    | .finished db1 totalAmount processedItems faults =>
      -- const [orderResult] = await connection.execute('INSERT INTO Orders ...')
      if throws faults then (rollback db db1, ⟨500, msgFailed, none⟩)
      else
        let newOrderId := db1.nextOrderId
        let db2 := insertOrder env db1 user.id totalAmount "pending"
        match insertOrderItems newOrderId processedItems db2 faults.tail with
        | none => (rollback db db2, ⟨500, msgFailed, none⟩)
        | some (db3, faults3) =>
          -- await connection.commit()
          if throws faults3 then (rollback db db3, ⟨500, msgFailed, none⟩)
          else (db3, ⟨201, msgPlaced, some ⟨newOrderId, totalAmount, processedItems⟩⟩)

end SQL

/-! ## Vocabulary of the properties -/

/-- The item collection a run of the document-store loop leaves behind. -/
def NoSQL.Loop.items : NoSQL.Loop → List NoSQL.Item
  | .finished items _ _ _ => items
  | .aborted items _ _ => items

/-- The quantity a request asks of an item: the sum of the quantities of the
lines whose `itemId` is the identifier of the item. -/
def requested (lines : List Line) (itemId : String) : Int :=
  ((lines.filter (fun l => decide (l.itemId = some itemId))).map
    (fun l => l.quantity.getD 0)).sum

/-- No store call throws. -/
def calm (faults : List Bool) : Bool :=
  faults.all (fun b => !b)

/-- The name and price the document-store catalog holds for an identifier. -/
def NoSQL.lookup (items : List NoSQL.Item) (itemId : String) : Option (String × ℚ) :=
  (NoSQL.findById items itemId).map (fun i => (i.name, i.price))

/-- The name and price the relational catalog holds for an identifier. -/
def SQL.lookup (db : SQL.Db) (itemId : String) : Option (String × ℚ) :=
  (SQL.selectItem db itemId).head?.map (fun r => (r.name, r.price))

/-- The snapshot `s` records the requested line `l`: it carries the line's item
identifier and quantity, and the name and price the catalog holds for that item. -/
def Records (catalog : String → Option (String × ℚ)) (l : Line) (s : OrderItem) : Prop :=
  l.itemId = some s.itemId ∧ l.quantity = some s.quantity
    ∧ catalog s.itemId = some (s.name, s.price)

/-! ## The scenario of the spec

Item A costs 10 and has 5 in stock; a regular user orders 3 of it. -/

def demoEnv : Env := ⟨0, "o1", []⟩

def demoUser : Caller := ⟨"u1", "user", "user"⟩

def demoAdmin : Caller := ⟨"a1", "admin", "admin"⟩

def demoBody : Body := ⟨some [⟨some "A", some 3⟩]⟩

/-- A valid line followed by a line that names an item the catalog does not hold. -/
def demoBodyMissing : Body := ⟨some [⟨some "A", some 3⟩, ⟨some "B", some 1⟩]⟩

def NoSQL.demoStore : NoSQL.Store :=
  ⟨[⟨"A", "Item A", 10, "small", "c", 5, some "a1"⟩], []⟩

def SQL.demoDb : SQL.Db :=
  ⟨[⟨"A", "Item A", 10, "small", "c", 5, some "a1"⟩], [], [], 1⟩

/-! ## Order approval, catalog maintenance, accounts and listing

The handlers below sit behind the middleware `authorizeAdmin` (the listing
behind `authenticateToken` only).  A handler is modelled as the function the
route registers; the route is the handler behind its middleware. -/

/-- The guard of `authorizeAdmin`: `req.user.role !== 'admin' || req.user.type !== 'admin'`
(`authenticateToken` has attached `req.user`). -/
def notAdmin (user : Caller) : Bool :=
  decide (user.role ≠ "admin") || decide (user.type ≠ "admin")

def msgAdminsOnly : String := "Access denied: Admins only"

/-- The middleware `authorizeAdmin` in front of a handler: it answers 403 and
leaves the store alone, or calls `next()`. -/
def authorizeAdmin {σ α : Type} (user : Caller) (st : σ) (next : σ × Response α) :
    σ × Response α :=
  if notAdmin user then (st, ⟨403, msgAdminsOnly, none⟩) else next

/-- The request body of `PUT /api/orders/:id/status`: `{ status }`, possibly absent. -/
structure StatusBody where
  status : Option String
deriving DecidableEq

/-- The guard `!status || !['approved', 'disapproved'].includes(status)`. -/
def invalidStatus (body : StatusBody) : Bool :=
  (match body.status with
    | none => true
    | some s => decide (s = ""))
  || !(match body.status with
    | none => false
    | some s => ["approved", "disapproved"].contains s)

def msgBadStatus : String := "Status must be \"approved\" or \"disapproved\"."
def msgStatusFailed : String := "Failed to update order status"
def msgOrderNotFound : String := "Order not found"

/-- The template `Order status updated to ${status} successfully`. -/
def msgStatusUpdated (status : String) : String :=
  "Order status updated to " ++ status ++ " successfully"

/-- A numeric field of a JSON body as `typeof` sees it: `undefined`, a number, or
a value of another type. -/
inductive NumField where
  | undefined
  | number (v : ℚ)
  | other
deriving DecidableEq

/-- The request body of `PUT /api/items/:id`. -/
structure ItemPatch where
  name : Option String
  price : NumField
  size : Option String
  categoryId : Option String
  stockQuantity : Option Int
  description : Option String
  imageUrl : Option String
deriving DecidableEq

/-- JavaScript truthiness of an optional string: present and not empty. -/
def truthy (v : Option String) : Bool :=
  match v with
  | none => false
  | some s => decide (s ≠ "")

/-- The guard `size && !['small', 'medium', 'large'].includes(size)`. -/
def badSize (body : ItemPatch) : Bool :=
  truthy body.size && !(["small", "medium", "large"].contains (body.size.getD ""))

def msgBadSize : String := "Size must be small, medium, or large."
def msgBadPrice : String := "Price must be a positive number."
def msgNoCategory : String := "Category not found."
def msgItemNotFound : String := "Item not found"
def msgItemUpdated : String := "Item updated successfully"
def msgItemUpdateFailed : String := "Failed to update item"
def msgItemDeleted : String := "Item deleted successfully"
def msgItemDeleteFailed : String := "Failed to delete item"

namespace NoSQL

/-- The write `Order.findByIdAndUpdate(id, { $set: ... }, { new: true })`: the
first order with the identifier is replaced by its updated version, which is
returned; `none` when no order has the identifier. -/
def findByIdAndUpdate : List Order → String → (Order → Order) → Option (List Order × Order)
  | [], _, _ => none
  | o :: rest, id, set =>
    if o._id = id then some (set o :: rest, set o)
    else (findByIdAndUpdate rest id set).map (fun r => (o :: r.1, r.2))

/-- The update `{ $set: { status, approvedByAdminId: req.user.id, approvedAt: new Date(),
updatedAt: new Date() } }`. -/
def approval (env : Env) (user : Caller) (status : String) (o : Order) : Order :=
  { o with status := status, approvedByAdminId := some user.id, approvedAt := some env.now,
           updatedAt := env.now }

/-- The handler of `app.put('/api/orders/:id/status', authenticateToken, authorizeAdmin, ...)`. -/
def setStatus (env : Env) (st : Store) (user : Caller) (id : String) (body : StatusBody) :
    Store × Response Order :=
  if invalidStatus body then (st, ⟨400, msgBadStatus, none⟩)
  else
    let status := body.status.getD ""
    -- const updatedOrder = await Order.findByIdAndUpdate(req.params.id, ...)
    if throws env.faults then (st, ⟨500, msgStatusFailed, none⟩)
    else
      match findByIdAndUpdate st.orders id (approval env user status) with
      | none => (st, ⟨404, msgOrderNotFound, none⟩)
      | some (orders, updatedOrder) =>
        ({ st with orders := orders }, ⟨200, msgStatusUpdated status, some updatedOrder⟩)

/-- The route `PUT /api/orders/:id/status`. -/
def putOrderStatus (env : Env) (st : Store) (user : Caller) (id : String) (body : StatusBody) :
    Store × Response Order :=
  authorizeAdmin user st (setStatus env st user id body)

/-- The document `updateFields` makes of an item: each field the body provides
replaces the stored one (`description`, `imageUrl` and `updatedAt` are not part
of the modelled item). -/
def applyUpdate (body : ItemPatch) (i : Item) : Item :=
  { i with
    name := if truthy body.name then body.name.getD "" else i.name
    price := match body.price with
      | .number v => v
      | _ => i.price
    size := if truthy body.size then body.size.getD "" else i.size
    stockQuantity := match body.stockQuantity with
      | some q => q
      | none => i.stockQuantity
    categoryId := if truthy body.categoryId then body.categoryId.getD "" else i.categoryId }

/-- The write `Item.findByIdAndUpdate(req.params.id, updateFields, { new: true })`. -/
def findItemAndUpdate : List Item → String → (Item → Item) → Option (List Item × Item)
  | [], _, _ => none
  | i :: rest, id, set =>
    if i._id = id then some (set i :: rest, set i)
    else (findItemAndUpdate rest id set).map (fun r => (i :: r.1, r.2))

/-- The handler of `app.put('/api/items/:id', authenticateToken, authorizeAdmin, ...)`;
`categories` holds the identifiers of the `Category` collection. -/
def updateItem (env : Env) (categories : List String) (st : Store) (id : String)
    (body : ItemPatch) : Store × Response Item :=
  if badSize body then (st, ⟨400, msgBadSize, none⟩)
  else if (match body.price with
      | .undefined => false
      | .number v => decide (v ≤ 0)
      | .other => true) then (st, ⟨400, msgBadPrice, none⟩)
  else
    -- if (categoryId) { const categoryExists = await Category.findById(categoryId) ... }
    if truthy body.categoryId && throws env.faults then (st, ⟨500, msgItemUpdateFailed, none⟩)
    else if truthy body.categoryId && !(categories.contains (body.categoryId.getD "")) then
      (st, ⟨404, msgNoCategory, none⟩)
    else
      -- const updatedItem = await Item.findByIdAndUpdate(req.params.id, updateFields, ...)
      if throws (if truthy body.categoryId then env.faults.tail else env.faults) then
        (st, ⟨500, msgItemUpdateFailed, none⟩)
      else
        match findItemAndUpdate st.items id (applyUpdate body) with
        | none => (st, ⟨404, msgItemNotFound, none⟩)
        | some (items, updatedItem) =>
          ({ st with items := items }, ⟨200, msgItemUpdated, some updatedItem⟩)

/-- The write `Item.findByIdAndDelete(req.params.id)`: the first item with the
identifier is removed and returned. -/
def findItemAndDelete : List Item → String → Option (List Item × Item)
  | [], _ => none
  | i :: rest, id =>
    if i._id = id then some (rest, i)
    else (findItemAndDelete rest id).map (fun r => (i :: r.1, r.2))

/-- The handler of `app.delete('/api/items/:id', authenticateToken, authorizeAdmin, ...)`. -/
def deleteItem (env : Env) (st : Store) (id : String) : Store × Response Item :=
  if throws env.faults then (st, ⟨500, msgItemDeleteFailed, none⟩)
  else
    match findItemAndDelete st.items id with
    | none => (st, ⟨404, msgItemNotFound, none⟩)
    | some (items, _) => ({ st with items := items }, ⟨200, msgItemDeleted, none⟩)

/-- The route `PUT /api/items/:id`. -/
def putItem (env : Env) (categories : List String) (st : Store) (user : Caller) (id : String)
    (body : ItemPatch) : Store × Response Item :=
  authorizeAdmin user st (updateItem env categories st id body)

/-- The route `DELETE /api/items/:id`. -/
def deleteItemRoute (env : Env) (st : Store) (user : Caller) (id : String) :
    Store × Response Item :=
  authorizeAdmin user st (deleteItem env st id)

end NoSQL

def msgUserNotFound : String := "User not found"
def msgUserDeleted : String := "User and associated orders deleted successfully"
def msgUserDeleteFailed : String := "Failed to delete user"
def msgLastAdmin : String := "Cannot delete the last remaining admin account."
def msgAdminNotFound : String := "Admin not found"
def msgAdminDeleted : String :=
  "Admin account and associated references updated/deleted successfully"
def msgAdminDeleteFailed : String := "Failed to delete admin"

namespace NoSQL

/-- A document of `UserSchema` or of `AdminSchema` (the password hash plays no
part in the order workflow). -/
structure Account where
  _id : String
  username : String
  email : String
deriving DecidableEq

/-- The whole document store: the collections of the order workflow and the two
account collections. -/
structure Site where
  store : Store
  users : List Account
  admins : List Account
deriving DecidableEq

/-- The write `findByIdAndDelete(id)` on an account collection: the first account
with the identifier is removed; `none` when there is none. -/
def findAccountAndDelete : List Account → String → Option (List Account)
  | [], _ => none
  | a :: rest, id =>
    if a._id = id then some rest
    else (findAccountAndDelete rest id).map (fun r => a :: r)

/-- The handler of `app.delete('/api/users/:id', authenticateToken, authorizeAdmin, ...)`. -/
def deleteUser (env : Env) (site : Site) (userId : String) : Site × Response Unit :=
  -- await Order.deleteMany({ userId: userId })
  if throws env.faults then (site, ⟨500, msgUserDeleteFailed, none⟩)
  else
    let site1 : Site :=
      { site with store := { site.store with
          orders := site.store.orders.filter (fun o => decide (o.userId ≠ userId)) } }
    -- const deletedUser = await User.findByIdAndDelete(userId)
    if throws env.faults.tail then (site1, ⟨500, msgUserDeleteFailed, none⟩)
    else
      match findAccountAndDelete site1.users userId with
      | none => (site1, ⟨404, msgUserNotFound, none⟩)
      | some users => ({ site1 with users := users }, ⟨200, msgUserDeleted, none⟩)

/-- The handler of `app.delete('/api/admins/:id', authenticateToken, authorizeAdmin, ...)`. -/
def deleteAdmin (env : Env) (site : Site) (user : Caller) (adminId : String) :
    Site × Response Unit :=
  -- const adminCount = await Admin.countDocuments()
  if throws env.faults then (site, ⟨500, msgAdminDeleteFailed, none⟩)
  else if site.admins.length = 1 ∧ user.id = adminId then (site, ⟨400, msgLastAdmin, none⟩)
  -- await Order.updateMany({ approvedByAdminId: adminId }, { $unset: ..., $set: ... })
  else if throws env.faults.tail then (site, ⟨500, msgAdminDeleteFailed, none⟩)
  else
    let site1 : Site :=
      { site with store := { site.store with
          orders := site.store.orders.map (fun o =>
            if o.approvedByAdminId = some adminId then
              { o with approvedByAdminId := none, approvedAt := none, updatedAt := env.now }
            else o) } }
    -- await Item.updateMany({ createdByAdminId: adminId }, { $unset: ..., $set: ... })
    if throws env.faults.tail.tail then (site1, ⟨500, msgAdminDeleteFailed, none⟩)
    else
      let site2 : Site :=
        { site1 with store := { site1.store with
            items := site1.store.items.map (fun i =>
              if i.createdByAdminId = some adminId then { i with createdByAdminId := none }
              else i) } }
      -- const deletedAdmin = await Admin.findByIdAndDelete(adminId)
      if throws env.faults.tail.tail.tail then (site2, ⟨500, msgAdminDeleteFailed, none⟩)
      else
        match findAccountAndDelete site2.admins adminId with
        | none => (site2, ⟨404, msgAdminNotFound, none⟩)
        | some admins => ({ site2 with admins := admins }, ⟨200, msgAdminDeleted, none⟩)

/-- A request to one of the four routes that write orders. -/
inductive Action where
  | placeOrder (env : Env) (user : Caller) (body : Body)
  | setStatus (env : Env) (user : Caller) (id : String) (body : StatusBody)
  | deleteAdmin (env : Env) (user : Caller) (adminId : String)
  | deleteUser (env : Env) (user : Caller) (userId : String)

/-- The document store after the server has answered a request. -/
def step (site : Site) : Action → Site
  | .placeOrder env user body => { site with store := (placeOrder env site.store user body).1 }
  | .setStatus env user id body =>
    { site with store := (putOrderStatus env site.store user id body).1 }
  | .deleteAdmin env user adminId =>
    (authorizeAdmin user site (deleteAdmin env site user adminId)).1
  | .deleteUser env user userId =>
    (authorizeAdmin user site (deleteUser env site userId)).1

/-- The document store after the server has answered a sequence of requests. -/
def run (site : Site) (actions : List Action) : Site :=
  actions.foldl step site

end NoSQL

def msgNoFields : String := "No fields provided for update."
def msgItemNotFoundOrSame : String := "Item not found or no changes made"
def msgOrdersRetrieved : String := "Orders retrieved successfully"
def msgOrdersFailed : String := "Failed to retrieve orders"

/-- No answer is sent: a rejection outside every `try` of an `async` handler is
not caught. -/
def noAnswer {α : Type} : Response α := ⟨0, "", none⟩

namespace SQL

/-- The statement `UPDATE Orders SET status = ?, approved_by = ?,
approved_at = CURRENT_TIMESTAMP, updated_at = CURRENT_TIMESTAMP WHERE order_id = ?`. -/
def updateOrderStatus (env : Env) (db : Db) (status approvedBy : String) (orderId : Nat) : Db :=
  { db with Orders := db.Orders.map (fun r =>
      if r.order_id = orderId then
        { r with status := status, approved_by := some approvedBy, approved_at := some env.now,
                 updated_at := env.now }
      else r) }

/-- The query `SELECT * FROM Orders WHERE order_id = ?`. -/
def selectOrder (db : Db) (orderId : Nat) : List OrderRow :=
  db.Orders.filter (fun r => decide (r.order_id = orderId))

/-- The handler of `app.put('/api/orders/:id/status', authenticateToken, authorizeAdmin, ...)`;
`orderId` is the number the path parameter denotes, and `affectedRows` counts
the rows the `WHERE` clause matches.  Both statements run on the pool, outside
any transaction. -/
def setStatus (env : Env) (db : Db) (user : Caller) (orderId : Nat) (body : StatusBody) :
    Db × Response OrderRow :=
  if invalidStatus body then (db, ⟨400, msgBadStatus, none⟩)
  else
    let status := body.status.getD ""
    -- const [result] = await pool.execute('UPDATE Orders SET ...')
    if throws env.faults then (db, ⟨500, msgStatusFailed, none⟩)
    else if (selectOrder db orderId).length = 0 then (db, ⟨404, msgOrderNotFound, none⟩)
    else
      let db1 := updateOrderStatus env db status user.id orderId
      -- const [updatedOrder] = await pool.execute('SELECT * FROM Orders WHERE order_id = ?')
      if throws env.faults.tail then (db1, ⟨500, msgStatusFailed, none⟩)
      else (db1, ⟨200, msgStatusUpdated status, (selectOrder db1 orderId).head?⟩)

/-- The route `PUT /api/orders/:id/status`. -/
def putOrderStatus (env : Env) (db : Db) (user : Caller) (orderId : Nat) (body : StatusBody) :
    Db × Response OrderRow :=
  authorizeAdmin user db (setStatus env db user orderId body)

/-- The row the `SET` list built from the body makes of an item row (the columns
`description`, `image_url` and `updated_at` are not part of the modelled row). -/
def applyUpdate (body : ItemPatch) (r : ItemRow) : ItemRow :=
  { r with
    name := if truthy body.name then body.name.getD "" else r.name
    price := match body.price with
      | .number v => v
      | _ => r.price
    size := if truthy body.size then body.size.getD "" else r.size
    stock_quantity := match body.stockQuantity with
      | some q => q
      | none => r.stock_quantity
    category_id := if truthy body.categoryId then body.categoryId.getD "" else r.category_id }

/-- The check `updateFields.length === 0`: the body provides no field. -/
def noFields (body : ItemPatch) : Bool :=
  !(truthy body.name || decide (body.price ≠ .undefined) || truthy body.size
    || body.stockQuantity.isSome || truthy body.description || truthy body.imageUrl
    || truthy body.categoryId)

/-- The handler of `app.put('/api/items/:id', authenticateToken, authorizeAdmin, ...)`;
`categories` holds the `category_id`s of `Categories`.  A `price` that is not a
number is a parameter the `UPDATE` statement rejects. -/
def updateItem (env : Env) (categories : List String) (db : Db) (itemId : String)
    (body : ItemPatch) : Db × Response Unit :=
  if truthy body.size && !(["small", "medium", "large"].contains (body.size.getD "")) then
    (db, ⟨400, msgBadSize, none⟩)
  -- if (categoryId) { const [categories] = await pool.execute('SELECT ...') }: outside `try`
  else if truthy body.categoryId && throws env.faults then (db, noAnswer)
  else if truthy body.categoryId && !(categories.contains (body.categoryId.getD "")) then
    (db, ⟨404, msgNoCategory, none⟩)
  else if noFields body then (db, ⟨400, msgNoFields, none⟩)
  else
    -- const [result] = await pool.execute('UPDATE Items SET ... WHERE item_id = ?')
    if throws (if truthy body.categoryId then env.faults.tail else env.faults)
        || decide (body.price = .other) then
      (db, ⟨500, msgItemUpdateFailed, none⟩)
    else if (selectItem db itemId).length = 0 then (db, ⟨404, msgItemNotFoundOrSame, none⟩)
    else
      ({ db with Items := db.Items.map (fun r =>
          if r.item_id = itemId then applyUpdate body r else r) },
       ⟨200, msgItemUpdated, none⟩)

/-- The route `PUT /api/items/:id`. -/
def putItem (env : Env) (categories : List String) (db : Db) (user : Caller) (itemId : String)
    (body : ItemPatch) : Db × Response Unit :=
  authorizeAdmin user db (updateItem env categories db itemId body)

/-- A row of `Users` or of `Admins`, with the columns the queries of the server
name (`user_id` resp. `admin_id`, `username`, `email`). -/
structure AccountRow where
  id : String
  username : String
  email : String
deriving DecidableEq

/-- The whole database: the tables of the order workflow and the two account tables. -/
structure Site where
  db : Db
  Users : List AccountRow
  Admins : List AccountRow
deriving DecidableEq

/-- A row of the result of the `SELECT ... FROM Orders o JOIN Users u ... LEFT JOIN
Admins a ... JOIN Order_Items oi ... JOIN Items i ...` of `GET /api/orders`. -/
structure JoinedRow where
  order_id : Nat
  order_date : Nat
  total_amount : ℚ
  status : String
  approved_at : Option Nat
  customer_username : String
  customer_email : String
  approved_by_admin_username : Option String
  approved_by_admin_email : Option String
  item_id : String
  quantity : Int
  price_at_order : ℚ
  item_name : String
  item_current_price : ℚ
  item_size : String
deriving DecidableEq

/-- The rows `LEFT JOIN Admins a ON o.approved_by = a.admin_id` pairs with an
order: the matching admins, or one null-extended row when there is none. -/
def approvers (admins : List AccountRow) (approvedBy : Option String) :
    List (Option AccountRow) :=
  match admins.filter (fun a => decide (some a.id = approvedBy)) with
  | [] => [none]
  | matching => matching.map some

/-- The joined rows, before `ORDER BY`; `owner` is the parameter of
`WHERE o.user_id = ?` when the clause is added. -/
def joinRows (site : Site) (owner : Option String) : List JoinedRow :=
  (site.db.Orders.filter (fun o =>
      match owner with
      | none => true
      | some id => decide (o.user_id = id))).flatMap fun o =>
  (site.Users.filter (fun u => decide (o.user_id = u.id))).flatMap fun u =>
  (approvers site.Admins o.approved_by).flatMap fun a =>
  (site.db.Order_Items.filter (fun oi => decide (o.order_id = oi.order_id))).flatMap fun oi =>
  (site.db.Items.filter (fun i => decide (oi.item_id = i.item_id))).map fun i =>
    { order_id := o.order_id, order_date := o.order_date, total_amount := o.total_amount,
      status := o.status, approved_at := o.approved_at,
      customer_username := u.username, customer_email := u.email,
      approved_by_admin_username := a.map (fun x => x.username),
      approved_by_admin_email := a.map (fun x => x.email),
      item_id := oi.item_id, quantity := oi.quantity, price_at_order := oi.price_at_order,
      item_name := i.name, item_current_price := i.price, item_size := i.size }

/-- The order of `ORDER BY o.order_date DESC, o.order_id, i.name`; `nameLe` is the
collation of `Items.name`, which the source does not fix. -/
def rowLe (nameLe : String → String → Bool) (r s : JoinedRow) : Bool :=
  decide (s.order_date < r.order_date)
  || (decide (r.order_date = s.order_date)
      && (decide (r.order_id < s.order_id)
          || (decide (r.order_id = s.order_id) && nameLe r.item_name s.item_name)))

/-- An entry of `items` in a listed order. -/
structure LineView where
  item_id : String
  name : String
  quantity : Int
  price_at_order : ℚ
  item_current_price : ℚ
  item_size : String
deriving DecidableEq

/-- The `{ username, email }` of a listed order's customer or approving admin. -/
structure Person where
  username : Option String
  email : Option String
deriving DecidableEq

/-- A listed order: a value of `ordersMap`. -/
structure OrderView where
  order_id : Nat
  order_date : Nat
  total_amount : ℚ
  status : String
  approved_at : Option Nat
  customer : Person
  approvedByAdmin : Option Person
  items : List LineView
deriving DecidableEq

/-- The entry `ordersMap.set(row.order_id, { ..., items: [] })` made of the first
row of an order. -/
def entryOf (row : JoinedRow) : OrderView :=
  { order_id := row.order_id, order_date := row.order_date, total_amount := row.total_amount,
    status := row.status, approved_at := row.approved_at,
    customer := ⟨some row.customer_username, some row.customer_email⟩,
    approvedByAdmin :=
      if truthy row.approved_by_admin_username then
        some ⟨row.approved_by_admin_username, row.approved_by_admin_email⟩
      else none,
    items := [] }

/-- The line `{ item_id, name: row.item_name, quantity, price_at_order,
item_current_price, item_size }` pushed for a row. -/
def lineOf (row : JoinedRow) : LineView :=
  { item_id := row.item_id, name := row.item_name, quantity := row.quantity,
    price_at_order := row.price_at_order, item_current_price := row.item_current_price,
    item_size := row.item_size }

/-- The body of `rows.forEach(row => ...)`: `ordersMap` is kept as the list of its
values in insertion order. -/
def pushRow (ordersMap : List OrderView) (row : JoinedRow) : List OrderView :=
  (if ordersMap.any (fun v => decide (v.order_id = row.order_id)) then ordersMap
   else ordersMap ++ [entryOf row]).map fun v =>
    if v.order_id = row.order_id then { v with items := v.items ++ [lineOf row] } else v

/-- The grouping `rows.forEach(...)` followed by `Array.from(ordersMap.values())`. -/
def groupRows (rows : List JoinedRow) : List OrderView :=
  rows.foldl pushRow []

/-- The handler of `app.get('/api/orders', authenticateToken, ...)`: a read; rows
that compare equal under `ORDER BY` keep the order of the join. -/
def listOrders (env : Env) (nameLe : String → String → Bool) (site : Site) (user : Caller) :
    Response (List OrderView) :=
  -- const [rows] = await pool.execute(sql, params)
  if throws env.faults then ⟨500, msgOrdersFailed, none⟩
  else
    let rows := List.insertionSort (fun r s => rowLe nameLe r s = true)
      (joinRows site (if user.role = "user" then some user.id else none))
    ⟨200, msgOrdersRetrieved, some (groupRows rows)⟩

end SQL

namespace SQL

/-- The effect of `connection.rollback()` on the whole database: every table is
again that of the snapshot taken by `beginTransaction`. -/
def rollbackSite (snapshot site : Site) : Site :=
  { snapshot with db := rollback snapshot.db site.db }

/-- The handler of `app.delete('/api/users/:id', authenticateToken, authorizeAdmin, ...)`. -/
def deleteUser (env : Env) (site : Site) (userId : String) : Site × Response Unit :=
  -- connection = await pool.getConnection()
  if throws env.faults then (site, ⟨500, msgUserDeleteFailed, none⟩)
  -- await connection.beginTransaction()
  else if throws env.faults.tail then (rollbackSite site site, ⟨500, msgUserDeleteFailed, none⟩)
  -- DELETE FROM Order_Items WHERE order_id IN (SELECT order_id FROM Orders WHERE user_id = ?)
  else if throws env.faults.tail.tail then
    (rollbackSite site site, ⟨500, msgUserDeleteFailed, none⟩)
  else
    let site1 : Site :=
      { site with db := { site.db with
          Order_Items := site.db.Order_Items.filter (fun oi =>
            !(site.db.Orders.any (fun o =>
                decide (o.user_id = userId) && decide (o.order_id = oi.order_id)))) } }
    -- DELETE FROM Orders WHERE user_id = ?
    if throws env.faults.tail.tail.tail then
      (rollbackSite site site1, ⟨500, msgUserDeleteFailed, none⟩)
    else
      let site2 : Site :=
        { site1 with db := { site1.db with
            Orders := site1.db.Orders.filter (fun o => decide (o.user_id ≠ userId)) } }
      -- DELETE FROM Users WHERE user_id = ?
      if throws env.faults.tail.tail.tail.tail then
        (rollbackSite site site2, ⟨500, msgUserDeleteFailed, none⟩)
      else if (site2.Users.filter (fun u => decide (u.id = userId))).length = 0 then
        (rollbackSite site site2, ⟨404, msgUserNotFound, none⟩)
      else
        let site3 : Site :=
          { site2 with Users := site2.Users.filter (fun u => decide (u.id ≠ userId)) }
        -- await connection.commit()
        if throws env.faults.tail.tail.tail.tail.tail then
          (rollbackSite site site3, ⟨500, msgUserDeleteFailed, none⟩)
        else (site3, ⟨200, msgUserDeleted, none⟩)

/-- The handler of `app.delete('/api/admins/:id', authenticateToken, authorizeAdmin, ...)`. -/
def deleteAdmin (env : Env) (site : Site) (user : Caller) (adminId : String) :
    Site × Response Unit :=
  -- connection = await pool.getConnection()
  if throws env.faults then (site, ⟨500, msgAdminDeleteFailed, none⟩)
  -- await connection.beginTransaction()
  else if throws env.faults.tail then
    (rollbackSite site site, ⟨500, msgAdminDeleteFailed, none⟩)
  -- SELECT COUNT(*) AS count FROM Admins
  else if throws env.faults.tail.tail then
    (rollbackSite site site, ⟨500, msgAdminDeleteFailed, none⟩)
  else if site.Admins.length = 1 ∧ user.id = adminId then
    (rollbackSite site site, ⟨400, msgLastAdmin, none⟩)
  -- UPDATE Orders SET approved_by = NULL, approved_at = NULL, ... WHERE approved_by = ?
  else if throws env.faults.tail.tail.tail then
    (rollbackSite site site, ⟨500, msgAdminDeleteFailed, none⟩)
  else
    let site1 : Site :=
      { site with db := { site.db with
          Orders := site.db.Orders.map (fun o =>
            if o.approved_by = some adminId then
              { o with approved_by := none, approved_at := none, updated_at := env.now }
            else o) } }
    -- UPDATE Items SET created_by = NULL, ... WHERE created_by = ?
    if throws env.faults.tail.tail.tail.tail then
      (rollbackSite site site1, ⟨500, msgAdminDeleteFailed, none⟩)
    else
      let site2 : Site :=
        { site1 with db := { site1.db with
            Items := site1.db.Items.map (fun i =>
              if i.created_by = some adminId then { i with created_by := none } else i) } }
      -- DELETE FROM Admins WHERE admin_id = ?
      if throws env.faults.tail.tail.tail.tail.tail then
        (rollbackSite site site2, ⟨500, msgAdminDeleteFailed, none⟩)
      else if (site2.Admins.filter (fun a => decide (a.id = adminId))).length = 0 then
        (rollbackSite site site2, ⟨404, msgAdminNotFound, none⟩)
      else
        let site3 : Site :=
          { site2 with Admins := site2.Admins.filter (fun a => decide (a.id ≠ adminId)) }
        -- await connection.commit()
        if throws env.faults.tail.tail.tail.tail.tail.tail then
          (rollbackSite site site3, ⟨500, msgAdminDeleteFailed, none⟩)
        else (site3, ⟨200, msgAdminDeleted, none⟩)

/-- A request to one of the four routes that write orders. -/
inductive Action where
  | placeOrder (env : Env) (user : Caller) (body : Body)
  | setStatus (env : Env) (user : Caller) (orderId : Nat) (body : StatusBody)
  | deleteAdmin (env : Env) (user : Caller) (adminId : String)
  | deleteUser (env : Env) (user : Caller) (userId : String)

/-- The database after the server has answered a request. -/
def step (site : Site) : Action → Site
  | .placeOrder env user body => { site with db := (placeOrder env site.db user body).1 }
  | .setStatus env user orderId body =>
    { site with db := (putOrderStatus env site.db user orderId body).1 }
  | .deleteAdmin env user adminId =>
    (authorizeAdmin user site (deleteAdmin env site user adminId)).1
  | .deleteUser env user userId =>
    (authorizeAdmin user site (deleteUser env site userId)).1

/-- The database after the server has answered a sequence of requests. -/
def run (site : Site) (actions : List Action) : Site :=
  actions.foldl step site

end SQL

/-! ## Vocabulary of the listing properties -/

/-- The lines listed for an order: the `items` of the entry with its identifier. -/
def SQL.itemsAt (views : List SQL.OrderView) (orderId : Nat) : List SQL.LineView :=
  match views.find? (fun v => decide (v.order_id = orderId)) with
  | none => []
  | some v => v.items

/-- What a listed line holds of the order itself: item identifier, quantity and
`price_at_order`. -/
def SQL.LineView.captured (l : SQL.LineView) : String × Int × ℚ :=
  (l.item_id, l.quantity, l.price_at_order)

/-- The captured parts of the lines an answer of `GET /api/orders` lists for an order. -/
def SQL.capturedLines (answer : Response (List SQL.OrderView)) (orderId : Nat) :
    List (String × Int × ℚ) :=
  (SQL.itemsAt (answer.payload.getD []) orderId).map SQL.LineView.captured

/-- The names an answer of `GET /api/orders` lists for the lines of an order. -/
def SQL.listedNames (answer : Response (List SQL.OrderView)) (orderId : Nat) : List String :=
  (SQL.itemsAt (answer.payload.getD []) orderId).map (fun l => l.name)

/-- A joined row without the columns read from `Items`. -/
def SQL.JoinedRow.core (r : SQL.JoinedRow) : SQL.JoinedRow :=
  { r with item_name := "", item_current_price := 0, item_size := "" }

/-- A binary collation: names compare as their character sequences. -/
def binaryLe (a b : String) : Bool :=
  decide (a.data ≤ b.data)

/-- The spec scenario in the relational store after the order was placed, with
the accounts of the customer and of an administrator. -/
def SQL.demoSite : SQL.Site :=
  ⟨(SQL.placeOrder demoEnv SQL.demoDb demoUser demoBody).1,
   [⟨"u1", "ada", "ada@example.org"⟩], [⟨"a1", "root", "root@example.org"⟩]⟩

/-- A body of `PUT /api/items/:id` that renames the item. -/
def demoRename : ItemPatch :=
  ⟨some "Renamed", .undefined, none, none, none, none, none⟩

/-! ## Vocabulary of the approval properties -/

/-- The order the document store holds under an identifier. -/
def NoSQL.orderAt (orders : List NoSQL.Order) (id : String) : Option NoSQL.Order :=
  orders.find? (fun o => decide (o._id = id))

/-- The row `Orders` holds under an `order_id`. -/
def SQL.orderAt (db : SQL.Db) (orderId : Nat) : Option SQL.OrderRow :=
  (SQL.selectOrder db orderId).head?

/-- The row a status update makes of a row of `Orders`. -/
def SQL.approval (env : Env) (user : Caller) (status : String) (r : SQL.OrderRow) :
    SQL.OrderRow :=
  { r with status := status, approved_by := some user.id, approved_at := some env.now,
           updated_at := env.now }

/-- One request to `PUT /api/orders/:id/status`: when and with which store faults
it runs, who sends it, and the status it asks for. -/
structure StatusCall where
  env : Env
  user : Caller
  status : String

/-- An administrator asks for `approved` or `disapproved` and no store call throws. -/
def StatusCall.succeeds (c : StatusCall) : Prop :=
  (c.user.role = "admin" ∧ c.user.type = "admin")
    ∧ (c.status = "approved" ∨ c.status = "disapproved") ∧ calm c.env.faults = true

/-- The document store after a sequence of status requests for one order. -/
def NoSQL.setStatusAll (st : NoSQL.Store) (id : String) (calls : List StatusCall) :
    NoSQL.Store :=
  calls.foldl (fun s c => (NoSQL.putOrderStatus c.env s c.user id ⟨some c.status⟩).1) st

/-- The database after a sequence of status requests for one order. -/
def SQL.setStatusAll (db : SQL.Db) (orderId : Nat) (calls : List StatusCall) : SQL.Db :=
  calls.foldl (fun s c => (SQL.putOrderStatus c.env s c.user orderId ⟨some c.status⟩).1) db

/-- Every pending order of the document store has no approver and no approval
timestamp. -/
def NoSQL.PendingUnapproved (orders : List NoSQL.Order) : Prop :=
  ∀ o ∈ orders, o.status = "pending" → o.approvedByAdminId = none ∧ o.approvedAt = none

/-- Every pending row of `Orders` has no approver and no approval timestamp. -/
def SQL.PendingUnapproved (rows : List SQL.OrderRow) : Prop :=
  ∀ r ∈ rows, r.status = "pending" → r.approved_by = none ∧ r.approved_at = none

/-- The spec scenario in the document store after the order was placed. -/
def NoSQL.demoPlaced : NoSQL.Store :=
  (NoSQL.placeOrder demoEnv NoSQL.demoStore demoUser demoBody).1

/-- A later moment at which no store call throws. -/
def demoLater : Env := ⟨7, "o2", []⟩

/-! ## Vocabulary of the frame of a status request -/

/-- An order after a status request for `id`, next to the order before it: the
same order, or the target with its owner, lines, total and order date as before. -/
def NoSQL.SameBut (id : String) (o o1 : NoSQL.Order) : Prop :=
  o1 = o ∨ (o._id = id ∧ o1._id = o._id ∧ o1.userId = o.userId ∧ o1.items = o.items
    ∧ o1.totalAmount = o.totalAmount ∧ o1.orderDate = o.orderDate)

/-- A row of `Orders` after a status request for `orderId`, next to the row before
it: the same row, or a target row with its owner, total and order date as before
(the lines of an order are the rows of `Order_Items`). -/
def SQL.SameBut (orderId : Nat) (r r1 : SQL.OrderRow) : Prop :=
  r1 = r ∨ (r.order_id = orderId ∧ r1.order_id = r.order_id ∧ r1.user_id = r.user_id
    ∧ r1.total_amount = r.total_amount ∧ r1.order_date = r.order_date)

/-! ## The grouping of the listing, as the spec words it -/

/-- The distinct values of a list, in order of first occurrence. -/
def distinctInOrder : List Nat → List Nat
  | [] => []
  | k :: ks => k :: (distinctInOrder ks).filter (fun j => decide (j ≠ k))

/-- The first row of each order: the rows whose `order_id` no earlier row has. -/
def SQL.firstRows : List SQL.JoinedRow → List SQL.JoinedRow
  | [] => []
  | r :: rs => r :: (SQL.firstRows rs).filter (fun s => decide (s.order_id ≠ r.order_id))

/-- The rows of an order, in row order. -/
def SQL.rowsOf (rows : List SQL.JoinedRow) (orderId : Nat) : List SQL.JoinedRow :=
  rows.filter (fun r => decide (r.order_id = orderId))

/-- The grouping as the spec words it: one entry per distinct `order_id` in order
of first occurrence, made of the first row of the order, with one line per row
of the order in row order. -/
def SQL.groupSpec (rows : List SQL.JoinedRow) : List SQL.OrderView :=
  (SQL.firstRows rows).map fun first =>
    { SQL.entryOf first with items := (SQL.rowsOf rows first.order_id).map SQL.lineOf }

/-! ## The scenario with two administrators -/

/-- An identity with the administrator role whose own account is not, or no
longer, among the admin accounts: the token of the deleted administrator `a2`. -/
def demoFormerAdmin : Caller := ⟨"a2", "admin", "admin"⟩

/-- The document store of the spec scenario with two administrators, `a1` and `a2`. -/
def NoSQL.demoTwoAdmins : NoSQL.Site :=
  ⟨NoSQL.demoStore, [⟨"u1", "ada", "ada@example.org"⟩],
   [⟨"a1", "root", "root@example.org"⟩, ⟨"a2", "eve", "eve@example.org"⟩]⟩

/-- The database of the spec scenario with two administrators, `a1` and `a2`. -/
def SQL.demoTwoAdmins : SQL.Site :=
  ⟨SQL.demoDb, [⟨"u1", "ada", "ada@example.org"⟩],
   [⟨"a1", "root", "root@example.org"⟩, ⟨"a2", "eve", "eve@example.org"⟩]⟩

/-! ## Listing of orders in the document store, and vocabulary of the listing claim -/

namespace NoSQL

/-- An order as `GET /api/orders` returns it: the order with `userId` and
`approvedByAdminId` populated by the `username` and `email` of the account they
name (`null` when the collection holds no such account). -/
structure ListedOrder where
  _id : String
  userId : Option Account
  orderDate : Nat
  totalAmount : ℚ
  status : String
  approvedByAdminId : Option Account
  approvedAt : Option Nat
  items : List OrderItem
  createdAt : Nat
  updatedAt : Nat
deriving DecidableEq

/-- The effect of `.populate('userId', 'username email')
.populate('approvedByAdminId', 'username email')` on one order. -/
def populate (site : Site) (o : Order) : ListedOrder :=
  { _id := o._id
    userId := site.users.find? (fun u => decide (u._id = o.userId))
    orderDate := o.orderDate
    totalAmount := o.totalAmount
    status := o.status
    approvedByAdminId := o.approvedByAdminId.bind fun id =>
      site.admins.find? (fun a => decide (a._id = id))
    approvedAt := o.approvedAt
    items := o.items
    createdAt := o.createdAt
    updatedAt := o.updatedAt }

/-- The handler of `app.get('/api/orders', authenticateToken, ...)`: a read, with
`query = { userId: req.user.id }` when `req.user.role === 'user'` and `{}` otherwise. -/
def listOrders (env : Env) (site : Site) (user : Caller) : Response (List ListedOrder) :=
  -- const orders = await Order.find(query).populate(...).populate(...)
  if throws env.faults then ⟨500, msgOrdersFailed, none⟩
  else
    ⟨200, msgOrdersRetrieved,
      some ((site.store.orders.filter (fun o =>
        if user.role = "user" then decide (o.userId = user.id) else true)).map (populate site))⟩

end NoSQL

/-- The orders of the document store an identity may see: its own when its role
is `user`, all of them otherwise. -/
def NoSQL.visibleTo (user : Caller) (orders : List NoSQL.Order) : List NoSQL.Order :=
  if user.role = "user" then orders.filter (fun o => decide (o.userId = user.id)) else orders

/-- The rows of `Orders` an identity may see: its own when its role is `user`,
all of them otherwise. -/
def SQL.visibleTo (user : Caller) (rows : List SQL.OrderRow) : List SQL.OrderRow :=
  if user.role = "user" then rows.filter (fun o => decide (o.user_id = user.id)) else rows

/-- Referential integrity of the orders of the database: the owner of every order
is a row of `Users`, and every order has a line whose item is a row of `Items`. -/
def SQL.Joined (site : SQL.Site) : Prop :=
  ∀ o ∈ site.db.Orders,
    (∃ u ∈ site.Users, o.user_id = u.id)
    ∧ ∃ oi ∈ site.db.Order_Items, o.order_id = oi.order_id
        ∧ ∃ i ∈ site.db.Items, oi.item_id = i.item_id

instance (site : SQL.Site) : Decidable (SQL.Joined site) := by
  unfold SQL.Joined; infer_instance

/-! ## The condition for a placement to succeed -/

/-- What the spec asks of a request for the placement to succeed: the line list
is there and not empty, every line has an item identifier and a quantity of at
least 1, every referenced item exists, and the lines that reference an item ask
together for no more than its stock; `stocks` lists the identifier and the stock
quantity of every item before the request. -/
def Orderable (stocks : List (String × Int)) (body : Body) : Prop :=
  ∃ lines, body.items = some lines ∧ lines ≠ []
    ∧ (∀ l ∈ lines, ∃ itemId quantity,
        l.itemId = some itemId ∧ itemId ≠ "" ∧ l.quantity = some quantity ∧ 1 ≤ quantity)
    ∧ (∀ l ∈ lines, ∀ itemId, l.itemId = some itemId → ∃ s ∈ stocks, s.1 = itemId)
    ∧ (∀ s ∈ stocks, (∃ l ∈ lines, l.itemId = some s.1) → requested lines s.1 ≤ s.2)

/-- The same condition with the bound on the requested quantity asked of every
item, referenced or not. -/
def OrderableAll (stocks : List (String × Int)) (body : Body) : Prop :=
  ∃ lines, body.items = some lines ∧ lines ≠ []
    ∧ (∀ l ∈ lines, ∃ itemId quantity,
        l.itemId = some itemId ∧ itemId ≠ "" ∧ l.quantity = some quantity ∧ 1 ≤ quantity)
    ∧ (∀ l ∈ lines, ∀ itemId, l.itemId = some itemId → ∃ s ∈ stocks, s.1 = itemId)
    ∧ (∀ s ∈ stocks, requested lines s.1 ≤ s.2)

/-- Identifier and stock quantity of every item of the document store. -/
def NoSQL.stocks (st : NoSQL.Store) : List (String × Int) :=
  st.items.map (fun i => (i._id, i.stockQuantity))

/-- Identifier and stock quantity of every row of `Items`. -/
def SQL.stocks (db : SQL.Db) : List (String × Int) :=
  db.Items.map (fun r => (r.item_id, r.stock_quantity))

/-! ## Item creation and deletion, and vocabulary of the stock claim -/

def msgItemFieldsRequired : String := "Name, price, size, and categoryId are required."
def msgItemCreated : String := "Item created successfully"
def msgItemCreateFailed : String := "Failed to create item"
def msgItemReferenced : String :=
  "Cannot delete item because it is referenced by existing orders."

/-- The test `!price` of `POST /api/items`: the field is absent or the number 0.  A
`price` of another type is taken to be a truthy value that the store cannot cast
to a number. -/
def noPrice (price : NumField) : Bool :=
  match price with
  | .undefined => true
  | .number v => decide (v = 0)
  | .other => false

/-- The guard `!name || !price || !size || !categoryId` of `POST /api/items`. -/
def missingItemFields (body : ItemPatch) : Bool :=
  !(truthy body.name) || noPrice body.price || !(truthy body.size) || !(truthy body.categoryId)

namespace NoSQL

/-- The document `Item.create({ name, price, size, categoryId,
stockQuantity: stockQuantity || 0, ..., createdByAdminId: req.user.id })` stores;
`env.newId` is the identifier the store gives it. -/
def newItem (env : Env) (user : Caller) (body : ItemPatch) : Item :=
  { _id := env.newId
    name := body.name.getD ""
    price := match body.price with
      | .number v => v
      | _ => 0
    size := body.size.getD ""
    categoryId := body.categoryId.getD ""
    stockQuantity := body.stockQuantity.getD 0
    createdByAdminId := some user.id }

/-- The handler of `app.post('/api/items', authenticateToken, authorizeAdmin, ...)`;
`categories` holds the identifiers of the `Category` collection. -/
def createItem (env : Env) (categories : List String) (st : Store) (user : Caller)
    (body : ItemPatch) : Store × Response Item :=
  if missingItemFields body then (st, ⟨400, msgItemFieldsRequired, none⟩)
  else if !(["small", "medium", "large"].contains (body.size.getD "")) then
    (st, ⟨400, msgBadSize, none⟩)
  -- const categoryExists = await Category.findById(categoryId)
  else if throws env.faults then (st, ⟨500, msgItemCreateFailed, none⟩)
  else if !(categories.contains (body.categoryId.getD "")) then (st, ⟨404, msgNoCategory, none⟩)
  -- const newItem = await Item.create({...})
  else if throws env.faults.tail || decide (body.price = .other) then
    (st, ⟨500, msgItemCreateFailed, none⟩)
  else
    ({ st with items := st.items ++ [newItem env user body] },
     ⟨201, msgItemCreated, some (newItem env user body)⟩)

/-- The route `POST /api/items`. -/
def postItem (env : Env) (categories : List String) (st : Store) (user : Caller)
    (body : ItemPatch) : Store × Response Item :=
  authorizeAdmin user st (createItem env categories st user body)

end NoSQL

namespace SQL

/-- The row `INSERT INTO Items (name, price, size, category_id, stock_quantity,
description, image_url, created_by) VALUES (...)` adds, with `stockQuantity || 0`
for the stock; `env.newId` is the `item_id` the database gives it. -/
def newItem (env : Env) (user : Caller) (body : ItemPatch) : ItemRow :=
  { item_id := env.newId
    name := body.name.getD ""
    price := match body.price with
      | .number v => v
      | _ => 0
    size := body.size.getD ""
    category_id := body.categoryId.getD ""
    stock_quantity := body.stockQuantity.getD 0
    created_by := some user.id }

/-- The handler of `app.post('/api/items', authenticateToken, authorizeAdmin, ...)`;
`categories` holds the `category_id`s of `Categories`. -/
def createItem (env : Env) (categories : List String) (db : Db) (user : Caller)
    (body : ItemPatch) : Db × Response ItemRow :=
  if missingItemFields body then (db, ⟨400, msgItemFieldsRequired, none⟩)
  else if !(["small", "medium", "large"].contains (body.size.getD "")) then
    (db, ⟨400, msgBadSize, none⟩)
  -- const [categories] = await pool.execute('SELECT category_id FROM Categories ...')
  else if throws env.faults then (db, ⟨500, msgItemCreateFailed, none⟩)
  else if !(categories.contains (body.categoryId.getD "")) then (db, ⟨404, msgNoCategory, none⟩)
  -- const [result] = await pool.execute('INSERT INTO Items (...) VALUES (...)')
  else if throws env.faults.tail || decide (body.price = .other) then
    (db, ⟨500, msgItemCreateFailed, none⟩)
  else
    ({ db with Items := db.Items ++ [newItem env user body] },
     ⟨201, msgItemCreated, some (newItem env user body)⟩)

/-- The route `POST /api/items`. -/
def postItem (env : Env) (categories : List String) (db : Db) (user : Caller)
    (body : ItemPatch) : Db × Response ItemRow :=
  authorizeAdmin user db (createItem env categories db user body)

/-- The handler of `app.delete('/api/items/:id', authenticateToken, authorizeAdmin, ...)`.
When the statement throws, the handler answers 400 for the error code
`ER_ROW_IS_REFERENCED_2`, taken here to be the error of a delete that a row of
`Order_Items` forbids, and 500 otherwise. -/
def deleteItem (env : Env) (db : Db) (itemId : String) : Db × Response Unit :=
  -- const [result] = await pool.execute('DELETE FROM Items WHERE item_id = ?')
  if throws env.faults then
    if db.Order_Items.any (fun oi => decide (oi.item_id = itemId)) then
      (db, ⟨400, msgItemReferenced, none⟩)
    else (db, ⟨500, msgItemDeleteFailed, none⟩)
  else if (selectItem db itemId).length = 0 then (db, ⟨404, msgItemNotFound, none⟩)
  else
    ({ db with Items := db.Items.filter (fun r => decide (r.item_id ≠ itemId)) },
     ⟨200, msgItemDeleted, none⟩)

/-- The route `DELETE /api/items/:id`. -/
def deleteItemRoute (env : Env) (db : Db) (user : Caller) (itemId : String) :
    Db × Response Unit :=
  authorizeAdmin user db (deleteItem env db itemId)

end SQL

/-- No stock is higher than before: the items are the same, in the same order,
and each has at most the stock it had. -/
def NotRaised (before after : List (String × Int)) : Prop :=
  List.Forall₂ (fun s t => t.1 = s.1 ∧ t.2 ≤ s.2) before after

/-- The stock list after an update of the item `itemId` that carries the stock
quantity `q`: every entry is as before, or is an entry of that item and now
holds `q`. -/
def SetTo (itemId : String) (q : Int) (before after : List (String × Int)) : Prop :=
  List.Forall₂ (fun s t => t = s ∨ (s.1 = itemId ∧ t = (itemId, q))) before after

/-- A body of `PUT /api/items/:id` that sets the stock to 50. -/
def demoRestock : ItemPatch :=
  ⟨none, .undefined, none, none, some 50, none, none⟩

/-! ## The file-backed item API (`src/api_server`) -/

/-! The item API of `src/api_server/api.js` keeps its items in the file
`items.json`, read and written whole by `src/api_server/data.js`. -/

namespace FileApi

/-- A member of a `size` input as `typeof` sees it: a string, or a value of
another type. -/
inductive SizeValue where
  | string (s : String)
  | other
deriving DecidableEq

/-- The argument of `validateAndNormalizeSize`: `undefined`, `null`, an array, or
a value that is not an array. -/
inductive SizeInput where
  | undefined
  | null
  | array (values : List SizeValue)
  | value (v : SizeValue)
deriving DecidableEq

/-- The object `validateAndNormalizeSize` returns: `{ isValid, normalizedSize }` or
`{ isValid, message }`. -/
structure SizeCheck where
  isValid : Bool
  normalizedSize : Option (List String)
  message : Option String
deriving DecidableEq

/-- The effect of `toLowerCase()` on a character: the letters `A` to `Z` become `a`
to `z`.  Other characters are left as they are: the case mapping of Unicode
sends no other character to `s`, `m` or `l`, so whether the lowercased string is
a valid size, and which, is as in JavaScript. -/
def lowerChar (c : Char) : Char :=
  if 65 ≤ c.toNat ∧ c.toNat ≤ 90 then Char.ofNat (c.toNat + 32) else c

/-- The method `String.prototype.toLowerCase`. -/
def toLowerCase (s : String) : String :=
  String.mk (s.data.map lowerChar)

/-- The characters `trim()` removes: the white space and line terminators of
ECMAScript. -/
def isWhiteSpace (c : Char) : Bool :=
  [0x09, 0x0A, 0x0B, 0x0C, 0x0D, 0x20, 0xA0, 0x1680, 0x2000, 0x2001, 0x2002, 0x2003, 0x2004,
    0x2005, 0x2006, 0x2007, 0x2008, 0x2009, 0x200A, 0x2028, 0x2029, 0x202F, 0x205F, 0x3000,
    0xFEFF].contains c.toNat

/-- The method `String.prototype.trim`. -/
def trim (s : String) : String :=
  String.mk ((s.data.dropWhile isWhiteSpace).reverse.dropWhile isWhiteSpace).reverse

/-- The constant `validSizes`. -/
def validSizes : List String := ["s", "m", "l"]

def msgNotString : String := "Each size value must be a string."
def msgEmptySizes : String := "Size cannot be an empty array."

/-- The template `Invalid size value: ${s}. Allowed values are s, m, l.` -/
def msgInvalidSize (s : String) : String :=
  "Invalid size value: " ++ s ++ ". Allowed values are s, m, l."

/-- The loop `for (const s of sizesArray)`: it returns the message of the element
it stops at, or `normalizedSizes` after the last element. -/
def collectSizes : List SizeValue → List String → Except String (List String)
  | [], normalizedSizes => .ok normalizedSizes
  | .other :: _, _ => .error msgNotString
  | .string s :: rest, normalizedSizes =>
    let lowerCaseSize := trim (toLowerCase s)
    if !(validSizes.contains lowerCaseSize) then .error (msgInvalidSize s)
    else collectSizes rest (normalizedSizes ++ [lowerCaseSize])

/-- The elements of `[...new Set(values)]`: the distinct values in order of first
insertion. -/
def unique (values : List String) : List String :=
  values.foldl (fun set v => if set.contains v then set else set ++ [v]) []

/-- The order of code units on character sequences; for the characters of the
Basic Multilingual Plane, the valid sizes among them, code units are code points. -/
def leChars : List Char → List Char → Bool
  | [], _ => true
  | _ :: _, [] => false
  | a :: as, b :: bs =>
    decide (a.toNat < b.toNat) || (decide (a.toNat = b.toNat) && leChars as bs)

/-- The default order of `Array.prototype.sort` on strings. -/
def sortLe (a b : String) : Prop :=
  leChars a.data b.data = true

instance : DecidableRel sortLe := fun a b => by
  unfold sortLe; infer_instance

/-- The method `Array.prototype.sort` without comparator, on strings. -/
def sort (values : List String) : List String :=
  List.insertionSort sortLe values

/-- The array `sizesArray = Array.isArray(sizeInput) ? sizeInput : [sizeInput]`. -/
def sizesArray : SizeInput → List SizeValue
  | .array values => values
  | .value v => [v]
  | _ => []

/-- The function `validateAndNormalizeSize` of `api.js`. -/
def validateAndNormalizeSize (sizeInput : SizeInput) : SizeCheck :=
  match sizeInput with
  | .undefined => { isValid := true, normalizedSize := none, message := none }
  | .null => { isValid := true, normalizedSize := none, message := none }
  | sizeInput =>
    match collectSizes (sizesArray sizeInput) [] with
    | .error message => { isValid := false, normalizedSize := none, message := some message }
    | .ok normalizedSizes =>
      if normalizedSizes.length = 0 then
        { isValid := false, normalizedSize := none, message := some msgEmptySizes }
      else
        { isValid := true, normalizedSize := some (sort (unique normalizedSizes)),
          message := none }

end FileApi

namespace FileApi

/-- An element of the array in `items.json`: the members the API names, and the
other members of the object, each with its value as JSON text. -/
structure Item where
  id : String
  name : String
  price : ℚ
  size : Option (List String)
  others : List (String × String)
deriving DecidableEq

/-- The members of the body of `PUT /items/:id` that the handler looks at; `name`
holds the member as JSON text when the body has one. -/
structure UpdatedFields where
  name : Option String
  price : NumField
  size : SizeInput
deriving DecidableEq

/-- What `parseRequestBody` passes to its callback: an error, the value `null`, or
a value with the members of `UpdatedFields` (an empty body, and a body that is not
an object, have none of them). -/
inductive ParsedBody where
  | invalid
  | null
  | fields (updatedFields : UpdatedFields)
deriving DecidableEq

def msgIdRequired : String := "Item ID is required in URL."
def msgInvalidJson : String := "Invalid JSON in request body."
def msgNameFixed : String := "Updating \"name\" field is not allowed via PUT."
def msgPricePositive : String := "Price must be a positive number."
def msgNothingToUpdate : String :=
  "No valid fields provided for update (only price and size are updatable)."
def msgUpdateFailed : String := "Failed to update item."

/-- The template `Item with ID ${itemId} updated successfully.` -/
def msgUpdated (itemId : String) : String :=
  "Item with ID " ++ itemId ++ " updated successfully."

/-- The array `items` after the assignments to `existingItem = items[index]`, for
`index = items.findIndex(i => i.id === itemId)`: the first item with the
identifier is the modified one. -/
def assign : List Item → String → Item → List Item
  | [], _, _ => []
  | i :: rest, itemId, existingItem =>
    if i.id = itemId then existingItem :: rest else i :: assign rest itemId existingItem

/-- The step `await dataHandler.writeItems(items)` and the answer after it; a
write that throws is taken to leave the file as it was. -/
def writeBack (env : Env) (items : List Item) (itemId : String) (existingItem : Item) :
    List Item × Response Item :=
  if throws env.faults.tail then (items, ⟨500, msgUpdateFailed, none⟩)
  else (assign items itemId existingItem, ⟨200, msgUpdated itemId, some existingItem⟩)

/-- The handler of `PUT /items/:id`; `items` is the array `readItems()` yields for
`items.json`, `itemId` the path segment `pathname.split('/')[2]`. -/
def putItem (env : Env) (items : List Item) (itemId : String) (body : ParsedBody) :
    List Item × Response Item :=
  if itemId = "" then (items, ⟨400, msgIdRequired, none⟩)
  else
    match body with
    | .invalid => (items, ⟨400, msgInvalidJson, none⟩)
    -- `updatedFields.name` of `null` throws outside the `try`
    | .null => (items, noAnswer)
    | .fields updatedFields =>
      if updatedFields.name.isSome then (items, ⟨400, msgNameFixed, none⟩)
      else if (match updatedFields.price with
          | .undefined => false
          | .number v => decide (v ≤ 0)
          | .other => true) then (items, ⟨400, msgPricePositive, none⟩)
      -- let items = await dataHandler.readItems()
      else if throws env.faults then (items, ⟨500, msgUpdateFailed, none⟩)
      else
        match items.find? (fun i => decide (i.id = itemId)) with
        | none => (items, ⟨404, msgNotFound itemId, none⟩)
        | some existingItem =>
          let priced : Item :=
            match updatedFields.price with
            | .number v => { existingItem with price := v }
            | _ => existingItem
          match updatedFields.size with
          | .undefined =>
            if updatedFields.price = .undefined then
              (items, ⟨200, msgNothingToUpdate, some existingItem⟩)
            else writeBack env items itemId priced
          | size =>
            let sizeValidation := validateAndNormalizeSize size
            if !sizeValidation.isValid then
              (items, ⟨400, sizeValidation.message.getD "", none⟩)
            else writeBack env items itemId { priced with size := sizeValidation.normalizedSize }

end FileApi

/-- An item after `PUT /items/:id` for `itemId`, next to the item before it: the
same item, or an item with that identifier whose identifier, name and other
members are as before. -/
def FileApi.SameBut (itemId : String) (i j : FileApi.Item) : Prop :=
  j = i ∨ (i.id = itemId ∧ j.id = i.id ∧ j.name = i.name ∧ j.others = i.others)

/-- A stored item of the file-backed API. -/
def FileApi.demoItem : FileApi.Item := ⟨"i1", "Shirt", 20, some ["m"], [("color", "\"red\"")]⟩

/-- The message `validateAndNormalizeSize` has for an element that it does not
accept, `none` for the others. -/
def FileApi.offence : FileApi.SizeValue → Option String
  | .other => some FileApi.msgNotString
  | .string s =>
    if FileApi.validSizes.contains (FileApi.trim (FileApi.toLowerCase s)) then none
    else some (FileApi.msgInvalidSize s)

/-- The lowercased, trimmed forms of the strings among the elements of an input. -/
def FileApi.normalized (values : List FileApi.SizeValue) : List String :=
  values.filterMap fun v =>
    match v with
    | .string s => some (FileApi.trim (FileApi.toLowerCase s))
    | .other => none

/-- Strictly ascending in the order of `sort`. -/
def FileApi.Ascending (values : List String) : Prop :=
  values.Pairwise (fun a b => FileApi.sortLe a b ∧ a ≠ b)

/-! ## Identifiers that the document store cannot cast -/

/-- A moment at which the next store call throws.  In the document store this is
what a lookup by an identifier that is not an `ObjectId` does: Mongoose cannot
cast the identifier and rejects the query with a `CastError`. -/
def demoCastError : Env := ⟨7, "o2", [true]⟩

/-- A well-formed request for one unit under an identifier that is no `ObjectId`
and that no item of the catalog has. -/
def demoBodyUncastable : Body := ⟨some [⟨some "no-such-item", some 1⟩]⟩

/-! ## Properties of order placement -/

section Placement

/-! ### Atomicity -/

/-- Every way out of the relational loop other than its normal end has gone
through `connection.rollback()`: the tables are those of the snapshot. -/
theorem SQL.processLines_aborted_rel (snapshot : Db) (lines : List Line) :
    ∀ (db : Db) (totalAmount : ℚ) (processedItems : List OrderItem) (faults : List Bool)
      (db1 : Db) (status : Nat) (message : String),
      processLines snapshot lines db totalAmount processedItems faults
        = .aborted db1 status message →
      db1.Items = snapshot.Items ∧ db1.Orders = snapshot.Orders
        ∧ db1.Order_Items = snapshot.Order_Items ∧ status ≠ 201 := by
  induction lines with
  | nil => intro db t p f db1 status message h; simp [processLines] at h
  | cons l rest ih =>
    intro db t p f db1 status message h
    simp only [processLines] at h
    split at h
    · injection h with h1 h2 h3; subst h1 h2; simp [rollback]
    · split at h
      · injection h with h1 h2 h3; subst h1 h2; simp [rollback]
      · split at h
        · injection h with h1 h2 h3; subst h1 h2; simp [rollback]
        · split at h
          · injection h with h1 h2 h3; subst h1 h2; simp [rollback]
          · split at h
            · injection h with h1 h2 h3; subst h1 h2; simp [rollback]
            · exact ih _ _ _ _ _ _ _ h

/-- C1, document store: a request whose first line is valid and whose second
line names an item that does not exist is answered with 404 and creates no
order, yet the stock of the first line's item stays decremented (5 becomes 2):
the handler leaves a failed placement half applied. -/
theorem nosql_placeOrder_failure_keeps_decrement :
    (NoSQL.placeOrder ⟨0, "o1", []⟩
        ⟨[⟨"A", "Item A", 10, "small", "c", 5, some "adm"⟩], []⟩
        ⟨"u1", "user", "user"⟩
        ⟨some [⟨some "A", some 3⟩, ⟨some "B", some 1⟩]⟩)
      = (⟨[⟨"A", "Item A", 10, "small", "c", 2, some "adm"⟩], []⟩,
         ⟨404, "Item with ID B not found.", none⟩) := by
  decide

/-- The two ways the relational handler ends: without 201, the tables being
those before the request; or with 201, after the loop, the insert into `Orders`,
the inserts into `Order_Items` and the commit all went through. -/
theorem SQL.placeOrder_cases_rel (env : Env) (db : Db) (user : Caller) (body : Body) :
    ((placeOrder env db user body).2.status ≠ 201
      ∧ (placeOrder env db user body).2.payload = none
      ∧ (placeOrder env db user body).1.Items = db.Items
      ∧ (placeOrder env db user body).1.Orders = db.Orders
      ∧ (placeOrder env db user body).1.Order_Items = db.Order_Items)
    ∨ ∃ db1 totalAmount processedItems faults db3 faults3,
        notRegularUser user = false ∧ noItems body = false
        ∧ processLines db (body.items.getD []) db 0 [] env.faults.tail.tail
            = .finished db1 totalAmount processedItems faults
        ∧ insertOrderItems db1.nextOrderId processedItems
            (insertOrder env db1 user.id totalAmount "pending") faults.tail = some (db3, faults3)
        ∧ placeOrder env db user body
            = (db3, ⟨201, msgPlaced, some ⟨db1.nextOrderId, totalAmount, processedItems⟩⟩) := by
  by_cases h1 : notRegularUser user = true
  · left; simp [placeOrder, h1]
  by_cases h2 : noItems body = true
  · left; simp [placeOrder, h1, h2]
  by_cases h3 : throws env.faults = true
  · left; simp [placeOrder, h1, h2, h3]
  by_cases h4 : throws env.faults.tail = true
  · left; simp [placeOrder, h1, h2, h3, h4, rollback]
  cases hl : processLines db (body.items.getD []) db 0 [] env.faults.tail.tail with
  | aborted db1 status message =>
    obtain ⟨e1, e2, e3, e4⟩ := processLines_aborted_rel _ _ _ _ _ _ _ _ _ hl
    left; simp [placeOrder, h1, h2, h3, h4, hl, e1, e2, e3, e4]
  | finished db1 totalAmount processedItems faults =>
    by_cases h5 : throws faults = true
    · left; simp [placeOrder, h1, h2, h3, h4, hl, h5, rollback]
    cases hi : insertOrderItems db1.nextOrderId processedItems
        (insertOrder env db1 user.id totalAmount "pending") faults.tail with
    | none => left; simp [placeOrder, h1, h2, h3, h4, hl, h5, hi, rollback]
    | some p =>
      obtain ⟨db3, faults3⟩ := p
      by_cases h6 : throws faults3 = true
      · left; simp [placeOrder, h1, h2, h3, h4, hl, h5, hi, h6, rollback]
      · right
        refine ⟨db1, totalAmount, processedItems, faults, db3, faults3, ?_, ?_, rfl, hi, ?_⟩
        · simpa using h1
        · simpa using h2
        · simp [placeOrder, h1, h2, h3, h4, hl, h5, hi, h6]

/-- C2, relational store: whenever `placeOrder` does not answer 201, the rows of
`Items` (hence every `stock_quantity`), of `Orders` and of `Order_Items` are
exactly those before the request, whichever line failed and whichever store
call threw. -/
theorem sql_placeOrder_failure_rolls_back (env : Env) (db : SQL.Db) (user : Caller)
    (body : Body) (h : (SQL.placeOrder env db user body).2.status ≠ 201) :
    (SQL.placeOrder env db user body).1.Items = db.Items
      ∧ (SQL.placeOrder env db user body).1.Orders = db.Orders
      ∧ (SQL.placeOrder env db user body).1.Order_Items = db.Order_Items := by
  rcases SQL.placeOrder_cases_rel env db user body with hf | ⟨_, _, _, _, _, _, _, _, _, _, hs⟩
  · exact hf.2.2
  · rw [hs] at h; exact absurd rfl h

/-- A failed relational placement whose first line had already decremented the
stock: the rollback restores it. -/
theorem sql_placeOrder_failure_rolls_back_witness :
    (SQL.placeOrder ⟨0, "o1", []⟩
        ⟨[⟨"A", "Item A", 10, "small", "c", 5, some "adm"⟩], [], [], 1⟩
        ⟨"u1", "user", "user"⟩
        ⟨some [⟨some "A", some 3⟩, ⟨some "B", some 1⟩]⟩).2.status = 404
    ∧ (SQL.placeOrder ⟨0, "o1", []⟩
        ⟨[⟨"A", "Item A", 10, "small", "c", 5, some "adm"⟩], [], [], 1⟩
        ⟨"u1", "user", "user"⟩
        ⟨some [⟨some "A", some 3⟩, ⟨some "B", some 1⟩]⟩).1.Items
      = [⟨"A", "Item A", 10, "small", "c", 5, some "adm"⟩] :=
  ⟨by decide,
   (sql_placeOrder_failure_rolls_back ⟨0, "o1", []⟩
      ⟨[⟨"A", "Item A", 10, "small", "c", 5, some "adm"⟩], [], [], 1⟩
      ⟨"u1", "user", "user"⟩
      ⟨some [⟨some "A", some 3⟩, ⟨some "B", some 1⟩]⟩ (by decide)).1⟩

/-- The document-store loop never leaves with status 201. -/
theorem NoSQL.processLines_aborted_doc (lines : List Line) :
    ∀ (items : List Item) (totalAmount : ℚ) (processedItems : List OrderItem)
      (faults : List Bool) (items1 : List Item) (status : Nat) (message : String),
      processLines lines items totalAmount processedItems faults
        = .aborted items1 status message → status ≠ 201 := by
  induction lines with
  | nil => intro items t p f items1 status message h; simp [processLines] at h
  | cons l rest ih =>
    intro items t p f items1 status message h
    simp only [processLines] at h
    split at h
    · injection h with h1 h2 h3; subst h2; decide
    · split at h
      · injection h with h1 h2 h3; subst h2; decide
      · split at h
        · injection h with h1 h2 h3; subst h2; decide
        · split at h
          · injection h with h1 h2 h3; subst h2; decide
          · split at h
            · injection h with h1 h2 h3; subst h2; decide
            · exact ih _ _ _ _ _ _ _ h

/-- The two ways the document-store handler ends: without 201, no order being
added and the items being those before the request or those the loop left; or
with 201, after the loop and `Order.create` went through. -/
theorem NoSQL.placeOrder_cases_doc (env : Env) (st : Store) (user : Caller) (body : Body) :
    ((placeOrder env st user body).2.status ≠ 201
      ∧ (placeOrder env st user body).2.payload = none
      ∧ (placeOrder env st user body).1.orders = st.orders
      ∧ ((placeOrder env st user body).1.items = st.items
        ∨ (placeOrder env st user body).1.items
            = (processLines (body.items.getD []) st.items 0 [] env.faults).items))
    ∨ ∃ items totalAmount processedItems faults,
        notRegularUser user = false ∧ noItems body = false
        ∧ processLines (body.items.getD []) st.items 0 [] env.faults
            = .finished items totalAmount processedItems faults
        ∧ placeOrder env st user body
            = (⟨items, st.orders ++ [newOrder env user totalAmount processedItems]⟩,
               ⟨201, msgPlaced, some (newOrder env user totalAmount processedItems)⟩) := by
  by_cases h1 : notRegularUser user = true
  · left; simp [placeOrder, h1]
  by_cases h2 : noItems body = true
  · left; simp [placeOrder, h1, h2]
  cases hl : processLines (body.items.getD []) st.items 0 [] env.faults with
  | aborted items status message =>
    have e := processLines_aborted_doc _ _ _ _ _ _ _ _ hl
    left; simp [placeOrder, h1, h2, hl, e, Loop.items]
  | finished items totalAmount processedItems faults =>
    by_cases h3 : throws faults = true
    · left; simp [placeOrder, h1, h2, hl, h3, Loop.items]
    · right
      refine ⟨items, totalAmount, processedItems, faults, ?_, ?_, rfl, ?_⟩
      · simpa using h1
      · simpa using h2
      · simp [placeOrder, h1, h2, hl, h3]

/-! ### What the relational loop and the inserts leave alone -/

/-- The relational loop touches neither `Orders`, `Order_Items` nor the counter. -/
theorem SQL.processLines_frame_rel (snapshot : Db) (lines : List Line) :
    ∀ (db : Db) (totalAmount : ℚ) (processedItems : List OrderItem)
      (faults : List Bool) (db1 : Db) (total1 : ℚ) (processed1 : List OrderItem)
      (faults1 : List Bool),
      processLines snapshot lines db totalAmount processedItems faults
        = .finished db1 total1 processed1 faults1 →
      db1.Orders = db.Orders ∧ db1.Order_Items = db.Order_Items
      ∧ db1.nextOrderId = db.nextOrderId := by
  induction lines with
  | nil =>
    intro db t p f db1 t1 p1 f1 h
    simp only [processLines] at h
    injection h with e1 e2 e3 e4
    subst e1; exact ⟨rfl, rfl, rfl⟩
  | cons l rest ih =>
    intro db t p f db1 t1 p1 f1 h
    simp only [processLines] at h
    split at h
    · exact absurd h (by simp)
    · split at h
      · exact absurd h (by simp)
      · split at h
        · exact absurd h (by simp)
        · split at h
          · exact absurd h (by simp)
          · split at h
            · exact absurd h (by simp)
            · obtain ⟨b, c, d⟩ := ih _ _ _ _ _ _ _ _ h
              refine ⟨?_, ?_, ?_⟩
              · rw [b]; rfl
              · rw [c]; rfl
              · rw [d]; rfl

/-- The inserts into `Order_Items` append one row per snapshot, in order, all
under the new order's identifier, and touch nothing else. -/
theorem SQL.insertOrderItems_spec_rel (orderId : Nat) (ps : List OrderItem) :
    ∀ (db : Db) (faults : List Bool) (db3 : Db) (faults3 : List Bool),
      insertOrderItems orderId ps db faults = some (db3, faults3) →
      db3.Items = db.Items ∧ db3.Orders = db.Orders ∧ db3.nextOrderId = db.nextOrderId
      ∧ db3.Order_Items = db.Order_Items ++
          ps.map (fun p => ⟨orderId, p.itemId, p.quantity, p.price⟩) := by
  induction ps with
  | nil =>
    intro db f db3 f3 h
    simp only [insertOrderItems] at h
    injection h with h; injection h with e1 e2
    subst e1; simp
  | cons p rest ih =>
    intro db f db3 f3 h
    simp only [insertOrderItems] at h
    split at h
    · exact absurd h (by simp)
    · obtain ⟨a, b, c, d⟩ := ih _ _ _ _ h
      refine ⟨by rw [a]; rfl, by rw [b]; rfl, by rw [c]; rfl, ?_⟩
      rw [d]; simp [insertOrderItem]

/-! ### The role gate -/

/-- C7: a caller whose role or type is not `'user'` is answered 403 by both
handlers whatever the body, and the store is returned untouched: no line is
looked at, no stock changes and no order is created. -/
theorem placeOrder_rejects_other_roles (env : Env) (st : NoSQL.Store) (db : SQL.Db)
    (user : Caller) (body : Body) (h : user.role ≠ "user" ∨ user.type ≠ "user") :
    NoSQL.placeOrder env st user body = (st, ⟨403, msgDenied, none⟩)
      ∧ SQL.placeOrder env db user body = (db, ⟨403, msgDenied, none⟩) := by
  have hg : notRegularUser user = true := by
    simpa [notRegularUser] using h
  simp [NoSQL.placeOrder, SQL.placeOrder, hg]

/-- An administrator who sends the request of the spec scenario is answered 403
and nothing changes. -/
theorem placeOrder_rejects_other_roles_witness :
    NoSQL.placeOrder demoEnv NoSQL.demoStore demoAdmin demoBody
        = (NoSQL.demoStore, ⟨403, msgDenied, none⟩)
      ∧ SQL.placeOrder demoEnv SQL.demoDb demoAdmin demoBody
        = (SQL.demoDb, ⟨403, msgDenied, none⟩) :=
  placeOrder_rejects_other_roles demoEnv NoSQL.demoStore SQL.demoDb demoAdmin demoBody
    (Or.inl (by decide))

/-! ### Stock never goes negative -/

theorem NoSQL.findById_some_doc {items : List Item} {itemId : String} {item : Item}
    (h : findById items itemId = some item) : item ∈ items ∧ item._id = itemId := by
  unfold findById at h
  exact ⟨List.mem_of_find?_eq_some h, by simpa using List.find?_some h⟩

theorem NoSQL.save_nonneg_doc (doc : Item) (hd : 0 ≤ doc.stockQuantity) :
    ∀ (items : List Item), (∀ i ∈ items, 0 ≤ i.stockQuantity) →
      ∀ i ∈ save items doc, 0 ≤ i.stockQuantity := by
  intro items
  induction items with
  | nil => intro _ i hi; simp [save] at hi
  | cons a rest ih =>
    intro h i hi
    simp only [save] at hi
    split at hi
    · rcases List.mem_cons.mp hi with rfl | hi
      · exact hd
      · exact h i (List.mem_cons_of_mem _ hi)
    · rcases List.mem_cons.mp hi with rfl | hi
      · exact h _ (List.mem_cons_self _ _)
      · exact ih (fun j hj => h j (List.mem_cons_of_mem _ hj)) i hi

/-- However the document-store loop ends, it leaves no negative stock behind. -/
theorem NoSQL.processLines_nonneg_doc (lines : List Line) :
    ∀ (items : List Item) (totalAmount : ℚ) (processedItems : List OrderItem)
      (faults : List Bool), (∀ i ∈ items, 0 ≤ i.stockQuantity) →
      ∀ i ∈ (processLines lines items totalAmount processedItems faults).items,
        0 ≤ i.stockQuantity := by
  induction lines with
  | nil => intro items t p f h; simpa [processLines, Loop.items] using h
  | cons l rest ih =>
    intro items t p f h
    simp only [processLines]
    split
    · simpa [Loop.items] using h
    · split
      · simpa [Loop.items] using h
      · split
        · simpa [Loop.items] using h
        · split
          · simpa [Loop.items] using h
          · split
            · simpa [Loop.items] using h
            · rename_i hlt _
              refine ih _ _ _ _ (save_nonneg_doc _ ?_ _ h)
              simp only
              omega

theorem SQL.selectItem_head_rel {db : Db} {itemId : String} {item : ItemRow}
    (h : (selectItem db itemId).head? = some item) :
    item ∈ db.Items ∧ item.item_id = itemId := by
  have hm : item ∈ selectItem db itemId := List.mem_of_mem_head? h
  simpa [selectItem] using hm

theorem SQL.updateStock_ids_rel (db : Db) (quantity : Int) (itemId : String) :
    (updateStock db quantity itemId).Items.map (fun r => r.item_id)
      = db.Items.map (fun r => r.item_id) := by
  simp only [updateStock, List.map_map]
  apply List.map_congr_left
  intro r _
  simp only [Function.comp]
  split <;> rfl

/-- With `item_id` a key of `Items`, a run of the relational loop to the end
leaves no negative stock. -/
theorem SQL.processLines_nonneg_rel (snapshot : Db) (lines : List Line) :
    ∀ (db : Db) (totalAmount : ℚ) (processedItems : List OrderItem)
      (faults : List Bool) (db1 : Db) (total1 : ℚ) (processed1 : List OrderItem)
      (faults1 : List Bool),
      processLines snapshot lines db totalAmount processedItems faults
        = .finished db1 total1 processed1 faults1 →
      (db.Items.map (fun r => r.item_id)).Nodup →
      (∀ r ∈ db.Items, 0 ≤ r.stock_quantity) →
      ∀ r ∈ db1.Items, 0 ≤ r.stock_quantity := by
  induction lines with
  | nil =>
    intro db t p f db1 t1 p1 f1 h _ hn
    simp only [processLines] at h
    injection h with e1 e2 e3 e4
    subst e1; exact hn
  | cons l rest ih =>
    intro db t p f db1 t1 p1 f1 h hk hn
    simp only [processLines] at h
    split at h
    · exact absurd h (by simp)
    · split at h
      · exact absurd h (by simp)
      · split at h
        · exact absurd h (by simp)
        · rename_i item hsel
          split at h
          · exact absurd h (by simp)
          · rename_i hlt
            split at h
            · exact absurd h (by simp)
            · obtain ⟨hmem, hid⟩ := selectItem_head_rel hsel
              refine ih _ _ _ _ _ _ _ _ h ?_ ?_
              · rw [updateStock_ids_rel]; exact hk
              · intro r hr
                simp only [updateStock, List.mem_map] at hr
                obtain ⟨r0, hr0, rfl⟩ := hr
                split
                · rename_i heq
                  have : r0 = item :=
                    List.inj_on_of_nodup_map hk hr0 hmem (by show r0.item_id = item.item_id; rw [heq, hid])
                  subst this
                  simp only
                  omega
                · exact hn r0 hr0

/-- C4: placement never makes a stock count negative.  If every item's stock is
at least 0 before the request, it is at least 0 after it, whether the handler
answered 201 or not, for any caller, any lines (several of them may name the
same item) and whichever store call threw.  In the relational store `item_id`
is the key of `Items`. -/
theorem placeOrder_keeps_stock_nonneg (env : Env) (st : NoSQL.Store) (db : SQL.Db)
    (user : Caller) (body : Body) :
    ((∀ i ∈ st.items, 0 ≤ i.stockQuantity) →
      ∀ i ∈ (NoSQL.placeOrder env st user body).1.items, 0 ≤ i.stockQuantity)
    ∧ ((db.Items.map (fun r => r.item_id)).Nodup → (∀ r ∈ db.Items, 0 ≤ r.stock_quantity) →
      ∀ r ∈ (SQL.placeOrder env db user body).1.Items, 0 ≤ r.stock_quantity) := by
  constructor
  · intro h
    have hloop := NoSQL.processLines_nonneg_doc (body.items.getD []) st.items 0 [] env.faults h
    rcases NoSQL.placeOrder_cases_doc env st user body with hf | ⟨items, t, p, f, _, _, hl, hs⟩
    · rcases hf.2.2.2 with e | e
      · rw [e]; exact h
      · rw [e]; exact hloop
    · rw [hs]; rw [hl] at hloop; exact hloop
  · intro hk h
    rcases SQL.placeOrder_cases_rel env db user body with hf | ⟨db1, t, p, f, db3, f3, _, _, hl, hi, hs⟩
    · rw [hf.2.2.1]; exact h
    · obtain ⟨e, _, _, _⟩ := SQL.insertOrderItems_spec_rel _ _ _ _ _ _ hi
      rw [hs]; simp only; rw [e]
      show ∀ r ∈ db1.Items, 0 ≤ r.stock_quantity
      exact SQL.processLines_nonneg_rel _ _ _ _ _ _ _ _ _ _ hl hk h

/-- The failing two-line request on the spec scenario: no stock is negative
afterwards, in either store. -/
theorem placeOrder_keeps_stock_nonneg_witness :
    (∀ i ∈ (NoSQL.placeOrder demoEnv NoSQL.demoStore demoUser demoBodyMissing).1.items,
        0 ≤ i.stockQuantity)
    ∧ (∀ r ∈ (SQL.placeOrder demoEnv SQL.demoDb demoUser demoBodyMissing).1.Items,
        0 ≤ r.stock_quantity) :=
  ⟨(placeOrder_keeps_stock_nonneg demoEnv NoSQL.demoStore SQL.demoDb demoUser
      demoBodyMissing).1 (by decide),
   (placeOrder_keeps_stock_nonneg demoEnv NoSQL.demoStore SQL.demoDb demoUser
      demoBodyMissing).2 (by decide) (by decide)⟩

/-! ### Stock after a successful placement -/

theorem requested_cons (l : Line) (rest : List Line) (itemId : String) :
    requested (l :: rest) itemId
      = (if l.itemId = some itemId then l.quantity.getD 0 else 0) + requested rest itemId := by
  unfold requested
  by_cases h : l.itemId = some itemId <;> simp [List.filter_cons, h]

theorem requested_of_not_referenced (lines : List Line) (itemId : String)
    (h : ∀ l ∈ lines, l.itemId ≠ some itemId) : requested lines itemId = 0 := by
  induction lines with
  | nil => rfl
  | cons l rest ih =>
    rw [requested_cons, ih (fun x hx => h x (List.mem_cons_of_mem _ hx))]
    simp [h l (List.mem_cons_self _ _)]

/-- A line that passes the guard has an identifier and a quantity. -/
theorem validLine_fields {l : Line} (h : ¬ invalidLine l = true) :
    ∃ itemId quantity, l.itemId = some itemId ∧ l.quantity = some quantity
      ∧ itemId ≠ "" ∧ 1 ≤ quantity := by
  obtain ⟨i, q⟩ := l
  cases i with
  | none => simp [invalidLine] at h
  | some i =>
    cases q with
    | none => simp [invalidLine] at h
    | some q =>
      refine ⟨i, q, rfl, rfl, ?_, ?_⟩
      · intro e; simp [invalidLine, e] at h
      · simp [invalidLine] at h; omega

theorem NoSQL.save_ids_doc (doc : Item) (items : List Item) :
    (save items doc).map (fun i => i._id) = items.map (fun i => i._id) := by
  induction items with
  | nil => rfl
  | cons a rest ih =>
    simp only [save]
    split
    · rfl
    · simp only [List.map_cons, ih]

/-- With unique identifiers, saving the document that `findById` returned, its
stock lowered by `quantity`, lowers the stock of exactly the items with that
identifier. -/
theorem NoSQL.save_eq_map_doc (itemId : String) (quantity : Int) (item : Item) :
    ∀ (items : List Item), (items.map (fun i => i._id)).Nodup →
      findById items itemId = some item →
      save items { item with stockQuantity := item.stockQuantity - quantity }
        = items.map (fun i =>
            if i._id = itemId then { i with stockQuantity := i.stockQuantity - quantity }
            else i) := by
  intro items
  induction items with
  | nil => intro _ h; simp [findById] at h
  | cons a rest ih =>
    intro hk hf
    have hid := (findById_some_doc hf).2
    simp only [List.map_cons, List.nodup_cons] at hk
    by_cases ha : a._id = itemId
    · have hitem : item = a := by
        simp [findById, List.find?_cons, ha] at hf; exact hf.symm
      subst hitem
      have hrest : rest.map (fun i =>
          if i._id = itemId then { i with stockQuantity := i.stockQuantity - quantity }
          else i) = rest := by
        conv_rhs => rw [← List.map_id rest]
        apply List.map_congr_left
        intro i hi
        have : i._id ≠ itemId := by
          intro e
          exact hk.1 (by rw [ha, ← e]; exact List.mem_map_of_mem (fun i => i._id) hi)
        simp [this]
      simp only [save, List.map_cons, ha, if_true, hrest]
    · have hf2 : findById rest itemId = some item := by
        simpa [findById, List.find?_cons, ha] using hf
      have hne : ¬ a._id = item._id := by rw [hid]; exact ha
      simp only [save, List.map_cons, hne, ha, if_false]
      rw [ih hk.2 hf2]

/-- A run of the document-store loop to the end lowers every stock by what the
lines ask of the item (identifiers being unique). -/
theorem NoSQL.processLines_stock_doc (lines : List Line) :
    ∀ (items : List Item) (totalAmount : ℚ) (processedItems : List OrderItem)
      (faults : List Bool) (items1 : List Item) (total1 : ℚ) (processed1 : List OrderItem)
      (faults1 : List Bool),
      processLines lines items totalAmount processedItems faults
        = .finished items1 total1 processed1 faults1 →
      (items.map (fun i => i._id)).Nodup →
      items1 = items.map (fun i =>
        { i with stockQuantity := i.stockQuantity - requested lines i._id }) := by
  induction lines with
  | nil =>
    intro items t p f items1 t1 p1 f1 h _
    simp only [processLines] at h
    injection h with e1 e2 e3 e4
    subst e1
    conv_lhs => rw [← List.map_id items]
    apply List.map_congr_left
    intro i _; simp [requested]
  | cons l rest ih =>
    intro items t p f items1 t1 p1 f1 h hk
    simp only [processLines] at h
    split at h
    · exact absurd h (by simp)
    · rename_i hv
      obtain ⟨itemId, quantity, hi, hq, _, _⟩ := validLine_fields hv
      split at h
      · exact absurd h (by simp)
      · split at h
        · exact absurd h (by simp)
        · rename_i item hfind
          split at h
          · exact absurd h (by simp)
          · split at h
            · exact absurd h (by simp)
            · simp only [hi, hq, Option.getD_some] at h hfind
              rw [save_eq_map_doc itemId quantity item items hk hfind] at h
              have hk2 : ((items.map (fun i =>
                  if i._id = itemId then { i with stockQuantity := i.stockQuantity - quantity }
                  else i)).map (fun i => i._id)).Nodup := by
                rw [← save_eq_map_doc itemId quantity item items hk hfind, save_ids_doc]; exact hk
              rw [ih _ _ _ _ _ _ _ _ h hk2, List.map_map]
              apply List.map_congr_left
              intro i _
              simp only [Function.comp, requested_cons, hi, hq, Option.getD_some,
                Option.some.injEq]
              by_cases e : i._id = itemId
              · simp only [e, if_true]
                congr 1; omega
              · have e2 : ¬ itemId = i._id := fun x => e x.symm
                simp only [e, e2, if_false]
                congr 1; omega

/-- A run of the relational loop to the end lowers every stock by what the lines
ask of the item. -/
theorem SQL.processLines_stock_rel (snapshot : Db) (lines : List Line) :
    ∀ (db : Db) (totalAmount : ℚ) (processedItems : List OrderItem)
      (faults : List Bool) (db1 : Db) (total1 : ℚ) (processed1 : List OrderItem)
      (faults1 : List Bool),
      processLines snapshot lines db totalAmount processedItems faults
        = .finished db1 total1 processed1 faults1 →
      db1.Items = db.Items.map (fun r =>
        { r with stock_quantity := r.stock_quantity - requested lines r.item_id }) := by
  induction lines with
  | nil =>
    intro db t p f db1 t1 p1 f1 h
    simp only [processLines] at h
    injection h with e1 e2 e3 e4
    subst e1
    conv_lhs => rw [← List.map_id db.Items]
    apply List.map_congr_left
    intro i _; simp [requested]
  | cons l rest ih =>
    intro db t p f db1 t1 p1 f1 h
    simp only [processLines] at h
    split at h
    · exact absurd h (by simp)
    · rename_i hv
      obtain ⟨itemId, quantity, hi, hq, _, _⟩ := validLine_fields hv
      split at h
      · exact absurd h (by simp)
      · split at h
        · exact absurd h (by simp)
        · split at h
          · exact absurd h (by simp)
          · split at h
            · exact absurd h (by simp)
            · simp only [hi, hq, Option.getD_some] at h
              rw [ih _ _ _ _ _ _ _ _ h]
              simp only [updateStock, List.map_map]
              apply List.map_congr_left
              intro r _
              simp only [Function.comp, requested_cons, hi, hq, Option.getD_some,
                Option.some.injEq]
              by_cases e : r.item_id = itemId
              · simp only [e, if_true]
                congr 1; omega
              · have e2 : ¬ itemId = r.item_id := fun x => e x.symm
                simp only [e, e2, if_false]
                congr 1; omega

/-- C5: after every successful placement each item's stock is its stock before
minus the sum of the quantities of the requested lines that name it; an item no
line names is asked 0 and so is unchanged.  Item identifiers are unique in the
document store. -/
theorem placeOrder_success_lowers_stock (env : Env) (st : NoSQL.Store) (db : SQL.Db)
    (user : Caller) (body : Body) :
    ((st.items.map (fun i => i._id)).Nodup →
      (NoSQL.placeOrder env st user body).2.status = 201 →
      (NoSQL.placeOrder env st user body).1.items = st.items.map (fun i =>
        { i with stockQuantity := i.stockQuantity - requested (body.items.getD []) i._id }))
    ∧ ((SQL.placeOrder env db user body).2.status = 201 →
      (SQL.placeOrder env db user body).1.Items = db.Items.map (fun r =>
        { r with stock_quantity := r.stock_quantity - requested (body.items.getD []) r.item_id }))
    ∧ (∀ itemId, (∀ l ∈ body.items.getD [], l.itemId ≠ some itemId) →
        requested (body.items.getD []) itemId = 0) := by
  refine ⟨?_, ?_, fun itemId h => requested_of_not_referenced _ _ h⟩
  · intro hk h
    rcases NoSQL.placeOrder_cases_doc env st user body with hf | ⟨items, t, p, f, _, _, hl, hs⟩
    · exact absurd h hf.1
    · rw [hs]
      exact NoSQL.processLines_stock_doc _ _ _ _ _ _ _ _ _ hl hk
  · intro h
    rcases SQL.placeOrder_cases_rel env db user body with hf | ⟨db1, t, p, f, db3, f3, _, _, hl, hi, hs⟩
    · exact absurd h hf.1
    · obtain ⟨e, _, _, _⟩ := SQL.insertOrderItems_spec_rel _ _ _ _ _ _ hi
      rw [hs]; simp only; rw [e]
      exact SQL.processLines_stock_rel _ _ _ _ _ _ db1 _ _ _ hl

/-- The spec scenario: stock 5 and one line of quantity 3 give stock 2 in both
stores; an item no line names is asked 0. -/
theorem placeOrder_success_lowers_stock_witness :
    (NoSQL.placeOrder demoEnv NoSQL.demoStore demoUser demoBody).1.items
        = [⟨"A", "Item A", 10, "small", "c", 2, some "a1"⟩]
    ∧ (SQL.placeOrder demoEnv SQL.demoDb demoUser demoBody).1.Items
        = [⟨"A", "Item A", 10, "small", "c", 2, some "a1"⟩]
    ∧ requested (demoBody.items.getD []) "B" = 0 :=
  ⟨(placeOrder_success_lowers_stock demoEnv NoSQL.demoStore SQL.demoDb demoUser demoBody).1
      (by decide) (by decide),
   (placeOrder_success_lowers_stock demoEnv NoSQL.demoStore SQL.demoDb demoUser demoBody).2.1
      (by decide),
   (placeOrder_success_lowers_stock demoEnv NoSQL.demoStore SQL.demoDb demoUser demoBody).2.2
      "B" (by decide)⟩

/-! ### Insufficient stock -/

theorem calm_throws {faults : List Bool} (h : calm faults = true) : throws faults = false := by
  cases faults with
  | nil => rfl
  | cons b rest => simp [calm] at h; simp [throws, h.1]

theorem calm_tail {faults : List Bool} (h : calm faults = true) : calm faults.tail = true := by
  cases faults with
  | nil => rfl
  | cons b rest => simp [calm] at h; simpa [calm] using h.2

theorem notRegularUser_of_user {user : Caller} (h : user.role = "user" ∧ user.type = "user") :
    notRegularUser user = false := by
  simp [notRegularUser, h.1, h.2]

theorem invalidLine_of_fields {itemId : String} {quantity : Int} (hid : itemId ≠ "")
    (hq : 1 ≤ quantity) : invalidLine ⟨some itemId, some quantity⟩ = false := by
  have h0 : ¬ quantity = 0 := by omega
  have h1 : ¬ quantity ≤ 0 := by omega
  simp [invalidLine, hid, h0, h1]

/-- C6: a regular user asks, in a single line, for more of an existing item than
its stock holds (the store answering every call).  Both handlers answer 400 with
the message `Insufficient stock for item: <name>. Available: <stock>`, built
from the item's name and its stock, and return the store as it was: the stock
is unchanged and no order is created. -/
theorem placeOrder_insufficient_stock (env : Env) (st : NoSQL.Store) (db : SQL.Db)
    (user : Caller) (itemId : String) (quantity : Int) (item : NoSQL.Item) (row : SQL.ItemRow)
    (hu : user.role = "user" ∧ user.type = "user") (hc : calm env.faults = true)
    (hid : itemId ≠ "") (hq : 1 ≤ quantity) :
    (NoSQL.findById st.items itemId = some item → item.stockQuantity < quantity →
      NoSQL.placeOrder env st user ⟨some [⟨some itemId, some quantity⟩]⟩
        = (st, ⟨400, "Insufficient stock for item: " ++ item.name ++ ". Available: "
                  ++ toString item.stockQuantity, none⟩))
    ∧ ((SQL.selectItem db itemId).head? = some row → row.stock_quantity < quantity →
      SQL.placeOrder env db user ⟨some [⟨some itemId, some quantity⟩]⟩
        = (db, ⟨400, "Insufficient stock for item: " ++ row.name ++ ". Available: "
                  ++ toString row.stock_quantity, none⟩)) := by
  have h1 := notRegularUser_of_user hu
  have h2 := invalidLine_of_fields hid hq
  have c1 := calm_throws hc
  have c2 := calm_throws (calm_tail hc)
  have c3 := calm_throws (calm_tail (calm_tail hc))
  constructor
  · intro hf hlt
    simp [NoSQL.placeOrder, h1, noItems, NoSQL.processLines, h2, c1, hf, hlt, msgInsufficient]
  · intro hf hlt
    simp [SQL.placeOrder, h1, noItems, SQL.processLines, h2, c1, c2, c3, hf, hlt,
      msgInsufficient, SQL.rollback]

/-- The spec scenario of insufficient stock: item A at stock 2, request for 3;
the answer is 400, the stock stays 2 and there is no order. -/
theorem placeOrder_insufficient_stock_witness :
    NoSQL.placeOrder ⟨0, "o1", []⟩ ⟨[⟨"A", "Item A", 10, "small", "c", 2, some "adm"⟩], []⟩
        ⟨"u1", "user", "user"⟩ ⟨some [⟨some "A", some 3⟩]⟩
      = (⟨[⟨"A", "Item A", 10, "small", "c", 2, some "adm"⟩], []⟩,
         ⟨400, "Insufficient stock for item: Item A. Available: 2", none⟩)
    ∧ SQL.placeOrder ⟨0, "o1", []⟩
        ⟨[⟨"A", "Item A", 10, "small", "c", 2, some "adm"⟩], [], [], 1⟩
        ⟨"u1", "user", "user"⟩ ⟨some [⟨some "A", some 3⟩]⟩
      = (⟨[⟨"A", "Item A", 10, "small", "c", 2, some "adm"⟩], [], [], 1⟩,
         ⟨400, "Insufficient stock for item: Item A. Available: 2", none⟩) :=
  ⟨(placeOrder_insufficient_stock ⟨0, "o1", []⟩
      ⟨[⟨"A", "Item A", 10, "small", "c", 2, some "adm"⟩], []⟩
      ⟨[⟨"A", "Item A", 10, "small", "c", 2, some "adm"⟩], [], [], 1⟩
      ⟨"u1", "user", "user"⟩ "A" 3 ⟨"A", "Item A", 10, "small", "c", 2, some "adm"⟩
      ⟨"A", "Item A", 10, "small", "c", 2, some "adm"⟩
      ⟨rfl, rfl⟩ (by decide) (by decide) (by decide)).1 (by decide) (by decide),
   (placeOrder_insufficient_stock ⟨0, "o1", []⟩
      ⟨[⟨"A", "Item A", 10, "small", "c", 2, some "adm"⟩], []⟩
      ⟨[⟨"A", "Item A", 10, "small", "c", 2, some "adm"⟩], [], [], 1⟩
      ⟨"u1", "user", "user"⟩ "A" 3 ⟨"A", "Item A", 10, "small", "c", 2, some "adm"⟩
      ⟨"A", "Item A", 10, "small", "c", 2, some "adm"⟩
      ⟨rfl, rfl⟩ (by decide) (by decide) (by decide)).2 (by decide) (by decide)⟩

/-! ### Line-item snapshots -/

/-- Saving a document changes no identifier, name or price. -/
theorem NoSQL.lookup_save_doc (doc : Item) (itemId : String) :
    ∀ (items : List Item), lookup (save items doc) itemId = lookup items itemId := by
  intro items
  induction items with
  | nil => rfl
  | cons a rest ih =>
    simp only [save]
    split
    · by_cases h : a._id = itemId <;> simp [lookup, findById, List.find?_cons, h]
    · by_cases h : a._id = itemId
      · simp [lookup, findById, List.find?_cons, h]
      · have := ih
        simp only [lookup, findById] at this
        simp [lookup, findById, List.find?_cons, h, this]

theorem SQL.head_filter_map_rel (f : ItemRow → ItemRow)
    (hf : ∀ r, (f r).item_id = r.item_id ∧ (f r).name = r.name ∧ (f r).price = r.price)
    (itemId : String) (rows : List ItemRow) :
    (((rows.map f).filter (fun r => decide (r.item_id = itemId))).head?).map
        (fun r => (r.name, r.price))
      = ((rows.filter (fun r => decide (r.item_id = itemId))).head?).map
        (fun r => (r.name, r.price)) := by
  induction rows with
  | nil => rfl
  | cons a rest ih =>
    by_cases h : a.item_id = itemId
    · have h2 : (f a).item_id = itemId := by rw [(hf a).1]; exact h
      simp [List.filter_cons, h, h2, (hf a).2.1, (hf a).2.2]
    · have h2 : ¬ (f a).item_id = itemId := by rw [(hf a).1]; exact h
      simpa [List.filter_cons, h, h2] using ih

/-- The stock update changes no identifier, name or price. -/
theorem SQL.lookup_updateStock_rel (db : Db) (quantity : Int) (target itemId : String) :
    lookup (updateStock db quantity target) itemId = lookup db itemId := by
  simp only [lookup, selectItem, updateStock]
  apply head_filter_map_rel
  intro r
  split <;> simp

/-- A run of the document-store loop to the end pushes one snapshot per line, in
order, each recording its line against the catalog; every line passed the guard
and no call threw. -/
theorem NoSQL.processLines_records_doc (lines : List Line) :
    ∀ (items : List Item) (totalAmount : ℚ) (processedItems : List OrderItem)
      (faults : List Bool) (items1 : List Item) (total1 : ℚ) (processed1 : List OrderItem)
      (faults1 : List Bool),
      processLines lines items totalAmount processedItems faults
        = .finished items1 total1 processed1 faults1 →
      ∃ added, processed1 = processedItems ++ added
        ∧ List.Forall₂ (fun l s => invalidLine l = false ∧ Records (lookup items) l s)
            lines added := by
  induction lines with
  | nil =>
    intro items t p f items1 t1 p1 f1 h
    simp only [processLines] at h
    injection h with e1 e2 e3 e4
    exact ⟨[], by simp [e3], List.Forall₂.nil⟩
  | cons l rest ih =>
    intro items t p f items1 t1 p1 f1 h
    simp only [processLines] at h
    split at h
    · exact absurd h (by simp)
    · rename_i hv
      obtain ⟨itemId, quantity, hi, hq, _, _⟩ := validLine_fields hv
      split at h
      · exact absurd h (by simp)
      · split at h
        · exact absurd h (by simp)
        · rename_i item hfind
          split at h
          · exact absurd h (by simp)
          · split at h
            · exact absurd h (by simp)
            · simp only [hi, hq, Option.getD_some] at h hfind
              obtain ⟨added, hp, hall⟩ := ih _ _ _ _ _ _ _ _ h
              have hid := (findById_some_doc hfind).2
              refine ⟨⟨item._id, item.name, item.price, quantity⟩ :: added, by rw [hp]; simp,
                List.Forall₂.cons ⟨by simpa using hv, ?_⟩ ?_⟩
              · refine ⟨by simp [hi, hid], by simp [hq], ?_⟩
                simp [lookup, hid, hfind]
              · refine hall.imp ?_
                intro a b hab
                refine ⟨hab.1, hab.2.1, hab.2.2.1, ?_⟩
                rw [← lookup_save_doc]; exact hab.2.2.2

/-- A run of the relational loop to the end pushes one snapshot per line, in
order, each recording its line against the catalog; every line passed the guard. -/
theorem SQL.processLines_records_rel (snapshot : Db) (lines : List Line) :
    ∀ (db : Db) (totalAmount : ℚ) (processedItems : List OrderItem)
      (faults : List Bool) (db1 : Db) (total1 : ℚ) (processed1 : List OrderItem)
      (faults1 : List Bool),
      processLines snapshot lines db totalAmount processedItems faults
        = .finished db1 total1 processed1 faults1 →
      ∃ added, processed1 = processedItems ++ added
        ∧ List.Forall₂ (fun l s => invalidLine l = false ∧ Records (lookup db) l s)
            lines added := by
  induction lines with
  | nil =>
    intro db t p f db1 t1 p1 f1 h
    simp only [processLines] at h
    injection h with e1 e2 e3 e4
    exact ⟨[], by simp [e3], List.Forall₂.nil⟩
  | cons l rest ih =>
    intro db t p f db1 t1 p1 f1 h
    simp only [processLines] at h
    split at h
    · exact absurd h (by simp)
    · rename_i hv
      obtain ⟨itemId, quantity, hi, hq, _, _⟩ := validLine_fields hv
      split at h
      · exact absurd h (by simp)
      · split at h
        · exact absurd h (by simp)
        · rename_i item hfind
          split at h
          · exact absurd h (by simp)
          · split at h
            · exact absurd h (by simp)
            · simp only [hi, hq, Option.getD_some] at h hfind
              obtain ⟨added, hp, hall⟩ := ih _ _ _ _ _ _ _ _ h
              have hid := (selectItem_head_rel hfind).2
              refine ⟨⟨item.item_id, item.name, item.price, quantity⟩ :: added, by rw [hp]; simp,
                List.Forall₂.cons ⟨by simpa using hv, ?_⟩ ?_⟩
              · refine ⟨by simp [hi, hid], by simp [hq], ?_⟩
                simp [lookup, hid, hfind]
              · refine hall.imp ?_
                intro a b hab
                refine ⟨hab.1, hab.2.1, hab.2.2.1, ?_⟩
                rw [← lookup_updateStock_rel]; exact hab.2.2.2

/-- C10: on every successful placement the processed line-item list answers the
requested lines one for one, in the caller's order: it has the same length, and
its i-th entry carries the item identifier and quantity of the i-th line and the
name and price the catalog holds for that item (placement changes no name and
no price, so these are also the values at the moment the line was processed).
In the document store the list is the `items` of the created order; in the
relational store it is the `items` of the answer, and the rows appended to
`Order_Items` are its entries in the same order. -/
theorem placeOrder_snapshots_follow_lines (env : Env) (st : NoSQL.Store) (db : SQL.Db)
    (user : Caller) (body : Body) :
    ((NoSQL.placeOrder env st user body).2.status = 201 →
      ∃ o, (NoSQL.placeOrder env st user body).2.payload = some o
        ∧ (NoSQL.placeOrder env st user body).1.orders = st.orders ++ [o]
        ∧ o.items.length = (body.items.getD []).length
        ∧ List.Forall₂ (Records (NoSQL.lookup st.items)) (body.items.getD []) o.items)
    ∧ ((SQL.placeOrder env db user body).2.status = 201 →
      ∃ r, (SQL.placeOrder env db user body).2.payload = some r
        ∧ (SQL.placeOrder env db user body).1.Order_Items = db.Order_Items ++
            r.items.map (fun s => ⟨r.order_id, s.itemId, s.quantity, s.price⟩)
        ∧ r.items.length = (body.items.getD []).length
        ∧ List.Forall₂ (Records (SQL.lookup db)) (body.items.getD []) r.items) := by
  constructor
  · intro h
    rcases NoSQL.placeOrder_cases_doc env st user body with hf | ⟨items, t, p, f, _, _, hl, hs⟩
    · exact absurd h hf.1
    · obtain ⟨added, hp, hall⟩ := NoSQL.processLines_records_doc _ _ _ _ _ _ _ _ _ hl
      simp only [List.nil_append] at hp
      subst hp
      have hall2 := hall.imp (fun a b hab => hab.2)
      exact ⟨NoSQL.newOrder env user t p, by rw [hs], by rw [hs], hall2.length_eq.symm, hall2⟩
  · intro h
    rcases SQL.placeOrder_cases_rel env db user body with hf | ⟨db1, t, p, f, db3, f3, _, _, hl, hi, hs⟩
    · exact absurd h hf.1
    · obtain ⟨added, hp, hall⟩ := SQL.processLines_records_rel _ _ _ _ _ _ _ _ _ _ hl
      obtain ⟨_, hoi, _⟩ := SQL.processLines_frame_rel _ _ _ _ _ _ _ _ _ _ hl
      obtain ⟨_, _, _, ioi⟩ := SQL.insertOrderItems_spec_rel _ _ _ _ _ _ hi
      simp only [List.nil_append] at hp
      subst hp
      have hall2 := hall.imp (fun a b hab => hab.2)
      refine ⟨⟨db1.nextOrderId, t, p⟩, by rw [hs], ?_, hall2.length_eq.symm, hall2⟩
      rw [hs]; simp only; rw [ioi]; simp [SQL.insertOrder, hoi]

/-- The spec scenario: the one processed entry records the one requested line. -/
theorem placeOrder_snapshots_follow_lines_witness :
    (∃ o, (NoSQL.placeOrder demoEnv NoSQL.demoStore demoUser demoBody).2.payload = some o
        ∧ (NoSQL.placeOrder demoEnv NoSQL.demoStore demoUser demoBody).1.orders
            = NoSQL.demoStore.orders ++ [o]
        ∧ o.items.length = (demoBody.items.getD []).length
        ∧ List.Forall₂ (Records (NoSQL.lookup NoSQL.demoStore.items))
            (demoBody.items.getD []) o.items)
    ∧ (∃ r, (SQL.placeOrder demoEnv SQL.demoDb demoUser demoBody).2.payload = some r
        ∧ (SQL.placeOrder demoEnv SQL.demoDb demoUser demoBody).1.Order_Items
            = SQL.demoDb.Order_Items ++
              r.items.map (fun s => ⟨r.order_id, s.itemId, s.quantity, s.price⟩)
        ∧ r.items.length = (demoBody.items.getD []).length
        ∧ List.Forall₂ (Records (SQL.lookup SQL.demoDb)) (demoBody.items.getD []) r.items) :=
  ⟨(placeOrder_snapshots_follow_lines demoEnv NoSQL.demoStore SQL.demoDb demoUser demoBody).1
      (by decide),
   (placeOrder_snapshots_follow_lines demoEnv NoSQL.demoStore SQL.demoDb demoUser demoBody).2
      (by decide)⟩

/-! ### Well-formed orders -/

theorem forall₂_right_mem {α β : Type} {R : α → β → Prop} {l₁ : List α} {l₂ : List β}
    (h : List.Forall₂ R l₁ l₂) : ∀ b ∈ l₂, ∃ a ∈ l₁, R a b := by
  induction h with
  | nil => intro b hb; simp at hb
  | cons hab _ ih =>
    intro b hb
    rcases List.mem_cons.mp hb with rfl | hb
    · exact ⟨_, List.mem_cons_self _ _, hab⟩
    · obtain ⟨a, ha, hr⟩ := ih b hb
      exact ⟨a, List.mem_cons_of_mem _ ha, hr⟩

theorem forall₂_left_mem {α β : Type} {R : α → β → Prop} {l₁ : List α} {l₂ : List β}
    (h : List.Forall₂ R l₁ l₂) : ∀ a ∈ l₁, ∃ b ∈ l₂, R a b := by
  induction h with
  | nil => intro a ha; simp at ha
  | cons hab _ ih =>
    intro a ha
    rcases List.mem_cons.mp ha with rfl | ha
    · exact ⟨_, List.mem_cons_self _ _, hab⟩
    · obtain ⟨b, hb, hr⟩ := ih a ha
      exact ⟨b, List.mem_cons_of_mem _ hb, hr⟩

/-- A line without `itemId`, without `quantity`, or with a quantity of zero or
less does not pass the guard. -/
theorem invalidLine_of_malformed {l : Line}
    (h : l.itemId = none ∨ l.quantity = none ∨ ∃ q, l.quantity = some q ∧ q ≤ 0) :
    invalidLine l = true := by
  obtain ⟨i, q⟩ := l
  rcases h with h | h | ⟨q0, h, hq⟩
  · simp only at h; subst h; simp [invalidLine]
  · simp only at h; subst h; simp [invalidLine]
  · simp only at h; subst h
    cases i <;> simp [invalidLine, hq]

/-- Snapshots that record lines which passed the guard are as many as the lines
and have quantity at least 1. -/
theorem snapshots_of_valid_lines {catalog : String → Option (String × ℚ)}
    {lines : List Line} {ps : List OrderItem}
    (h : List.Forall₂ (fun l s => invalidLine l = false ∧ Records catalog l s) lines ps) :
    ps.length = lines.length ∧ (∀ s ∈ ps, 1 ≤ s.quantity)
      ∧ (∀ l ∈ lines, invalidLine l = false) := by
  refine ⟨h.length_eq.symm, ?_, ?_⟩
  · intro s hs
    obtain ⟨l, _, hv, hr⟩ := forall₂_right_mem h s hs
    obtain ⟨_, q, _, hq, _, hq1⟩ := validLine_fields (l := l) (by simp [hv])
    have : q = s.quantity := by
      have := hr.2.1; rw [hq] at this; exact Option.some.inj this
    omega
  · intro l hl
    obtain ⟨s, _, hv, _⟩ := forall₂_left_mem h l hl
    exact hv

theorem noItems_false {body : Body} (h : noItems body = false) : body.items.getD [] ≠ [] := by
  obtain ⟨items⟩ := body
  cases items with
  | none => simp [noItems] at h
  | some ls => cases ls <;> simp_all [noItems]

theorem noItems_of_missing {body : Body} (h : body.items = none ∨ body.items = some []) :
    noItems body = true := by
  rcases h with h | h <;> simp [noItems, h]

/-- C8, as stated, fails for callers that are not regular users: an administrator
who sends an empty `items` list is answered 403 by the role gate, not 400. -/
theorem placeOrder_empty_list_other_role :
    (NoSQL.placeOrder ⟨0, "o1", []⟩ ⟨[], []⟩ ⟨"a1", "admin", "admin"⟩ ⟨some []⟩).2.status = 403
    ∧ (SQL.placeOrder ⟨0, "o1", []⟩ ⟨[], [], [], 1⟩ ⟨"a1", "admin", "admin"⟩ ⟨some []⟩).2.status
        = 403 := by
  decide

/-- C8, amended: every order `placeOrder` creates has a non-empty list of line
items, each with quantity at least 1.  A request whose `items` list is missing
or empty is answered 400 when the caller is a regular user, never answered 201,
and leaves the store as it was for every caller (any other caller is answered
403 by the role gate).  A request with a line that
lacks `itemId` or `quantity`, or whose quantity is zero or negative, is never
answered 201 and adds no order. -/
theorem placeOrder_orders_are_well_formed (env : Env) (st : NoSQL.Store) (db : SQL.Db)
    (user : Caller) (body : Body) :
    ((NoSQL.placeOrder env st user body).2.status = 201 →
      ∃ o, (NoSQL.placeOrder env st user body).2.payload = some o
        ∧ (NoSQL.placeOrder env st user body).1.orders = st.orders ++ [o]
        ∧ o.items ≠ [] ∧ ∀ s ∈ o.items, 1 ≤ s.quantity)
    ∧ ((SQL.placeOrder env db user body).2.status = 201 →
      ∃ r, (SQL.placeOrder env db user body).2.payload = some r
        ∧ (SQL.placeOrder env db user body).1.Order_Items = db.Order_Items ++
            r.items.map (fun s => ⟨r.order_id, s.itemId, s.quantity, s.price⟩)
        ∧ r.items ≠ [] ∧ ∀ s ∈ r.items, 1 ≤ s.quantity)
    ∧ ((body.items = none ∨ body.items = some []) →
        (NoSQL.placeOrder env st user body).1 = st
        ∧ (NoSQL.placeOrder env st user body).2.status ≠ 201
        ∧ (SQL.placeOrder env db user body).1 = db
        ∧ (SQL.placeOrder env db user body).2.status ≠ 201
        ∧ (user.role = "user" ∧ user.type = "user" →
            (NoSQL.placeOrder env st user body).2 = ⟨400, msgEmpty, none⟩
            ∧ (SQL.placeOrder env db user body).2 = ⟨400, msgEmpty, none⟩)
        ∧ (user.role ≠ "user" ∨ user.type ≠ "user" →
            (NoSQL.placeOrder env st user body).2 = ⟨403, msgDenied, none⟩
            ∧ (SQL.placeOrder env db user body).2 = ⟨403, msgDenied, none⟩))
    ∧ ((∃ l ∈ body.items.getD [],
          l.itemId = none ∨ l.quantity = none ∨ ∃ q, l.quantity = some q ∧ q ≤ 0) →
        (NoSQL.placeOrder env st user body).2.status ≠ 201
        ∧ (NoSQL.placeOrder env st user body).1.orders = st.orders
        ∧ (SQL.placeOrder env db user body).2.status ≠ 201
        ∧ (SQL.placeOrder env db user body).1.Orders = db.Orders
        ∧ (SQL.placeOrder env db user body).1.Order_Items = db.Order_Items) := by
  refine ⟨?_, ?_, ?_, ?_⟩
  · intro h
    rcases NoSQL.placeOrder_cases_doc env st user body with hf | ⟨items, t, p, f, _, hn, hl, hs⟩
    · exact absurd h hf.1
    · obtain ⟨added, hp, hall⟩ := NoSQL.processLines_records_doc _ _ _ _ _ _ _ _ _ hl
      simp only [List.nil_append] at hp
      subst hp
      obtain ⟨hlen, hq, _⟩ := snapshots_of_valid_lines hall
      refine ⟨NoSQL.newOrder env user t p, by rw [hs], by rw [hs], ?_, hq⟩
      intro e
      have e2 : p = [] := e
      rw [e2] at hlen
      exact noItems_false hn (List.length_eq_zero.mp hlen.symm)
  · intro h
    rcases SQL.placeOrder_cases_rel env db user body with hf | ⟨db1, t, p, f, db3, f3, _, hn, hl, hi, hs⟩
    · exact absurd h hf.1
    · obtain ⟨added, hp, hall⟩ := SQL.processLines_records_rel _ _ _ _ _ _ _ _ _ _ hl
      obtain ⟨_, hoi, _⟩ := SQL.processLines_frame_rel _ _ _ _ _ _ _ _ _ _ hl
      obtain ⟨_, _, _, ioi⟩ := SQL.insertOrderItems_spec_rel _ _ _ _ _ _ hi
      simp only [List.nil_append] at hp
      subst hp
      obtain ⟨hlen, hq, _⟩ := snapshots_of_valid_lines hall
      refine ⟨⟨db1.nextOrderId, t, p⟩, by rw [hs], ?_, ?_, hq⟩
      · rw [hs]; simp only; rw [ioi]; simp [SQL.insertOrder, hoi]
      · intro e
        have e2 : p = [] := e
        rw [e2] at hlen
        exact noItems_false hn (List.length_eq_zero.mp hlen.symm)
  · intro h
    have hn := noItems_of_missing h
    by_cases hg : notRegularUser user = true
    · refine ⟨by simp [NoSQL.placeOrder, hg], by simp [NoSQL.placeOrder, hg],
        by simp [SQL.placeOrder, hg], by simp [SQL.placeOrder, hg], ?_, ?_⟩
      · intro hu
        rw [notRegularUser_of_user hu] at hg
        exact absurd hg (by simp)
      · intro _
        exact ⟨by simp [NoSQL.placeOrder, hg], by simp [SQL.placeOrder, hg]⟩
    · refine ⟨by simp [NoSQL.placeOrder, hg, hn], by simp [NoSQL.placeOrder, hg, hn],
        by simp [SQL.placeOrder, hg, hn], by simp [SQL.placeOrder, hg, hn], ?_, ?_⟩
      · intro _
        exact ⟨by simp [NoSQL.placeOrder, hg, hn], by simp [SQL.placeOrder, hg, hn]⟩
      · intro hu
        exact absurd (by simpa [notRegularUser] using hu) hg
  · rintro ⟨l, hl, hbad⟩
    have hinv := invalidLine_of_malformed hbad
    refine ⟨?_, ?_, ?_, ?_, ?_⟩
    · intro h
      rcases NoSQL.placeOrder_cases_doc env st user body with hf | ⟨items, t, p, f, _, hn, hlp, hs⟩
      · exact hf.1 h
      · obtain ⟨added, hp, hall⟩ := NoSQL.processLines_records_doc _ _ _ _ _ _ _ _ _ hlp
        have := (snapshots_of_valid_lines hall).2.2 l hl
        rw [hinv] at this; exact absurd this (by simp)
    · rcases NoSQL.placeOrder_cases_doc env st user body with hf | ⟨items, t, p, f, _, hn, hlp, hs⟩
      · exact hf.2.2.1
      · obtain ⟨added, hp, hall⟩ := NoSQL.processLines_records_doc _ _ _ _ _ _ _ _ _ hlp
        have := (snapshots_of_valid_lines hall).2.2 l hl
        rw [hinv] at this; exact absurd this (by simp)
    all_goals
      rcases SQL.placeOrder_cases_rel env db user body with
        hf | ⟨db1, t, p, f, db3, f3, _, hn, hlp, hi, hs⟩
      · first | exact hf.1 | exact hf.2.2.2.1 | exact hf.2.2.2.2
      · obtain ⟨added, hp, hall⟩ := SQL.processLines_records_rel _ _ _ _ _ _ _ _ _ _ hlp
        have := (snapshots_of_valid_lines hall).2.2 l hl
        rw [hinv] at this; exact absurd this (by simp)

/-- Three requests on the spec scenario: the successful one, an empty list, and
a line of quantity 0. -/
theorem placeOrder_orders_are_well_formed_witness :
    (∃ o, (NoSQL.placeOrder demoEnv NoSQL.demoStore demoUser demoBody).2.payload = some o
        ∧ (NoSQL.placeOrder demoEnv NoSQL.demoStore demoUser demoBody).1.orders
            = NoSQL.demoStore.orders ++ [o]
        ∧ o.items ≠ [] ∧ ∀ s ∈ o.items, 1 ≤ s.quantity)
    ∧ (∃ r, (SQL.placeOrder demoEnv SQL.demoDb demoUser demoBody).2.payload = some r
        ∧ (SQL.placeOrder demoEnv SQL.demoDb demoUser demoBody).1.Order_Items
            = SQL.demoDb.Order_Items ++
              r.items.map (fun s => ⟨r.order_id, s.itemId, s.quantity, s.price⟩)
        ∧ r.items ≠ [] ∧ ∀ s ∈ r.items, 1 ≤ s.quantity)
    ∧ ((NoSQL.placeOrder demoEnv NoSQL.demoStore demoUser ⟨some []⟩).2
          = ⟨400, msgEmpty, none⟩
        ∧ (SQL.placeOrder demoEnv SQL.demoDb demoUser ⟨some []⟩).2 = ⟨400, msgEmpty, none⟩)
    ∧ ((NoSQL.placeOrder demoEnv NoSQL.demoStore demoUser
          ⟨some [⟨some "A", some 0⟩]⟩).2.status ≠ 201
        ∧ (SQL.placeOrder demoEnv SQL.demoDb demoUser
          ⟨some [⟨some "A", some 0⟩]⟩).2.status ≠ 201) :=
  ⟨(placeOrder_orders_are_well_formed demoEnv NoSQL.demoStore SQL.demoDb demoUser demoBody).1
      (by decide),
   (placeOrder_orders_are_well_formed demoEnv NoSQL.demoStore SQL.demoDb demoUser
      demoBody).2.1 (by decide),
   ((placeOrder_orders_are_well_formed demoEnv NoSQL.demoStore SQL.demoDb demoUser
      ⟨some []⟩).2.2.1 (Or.inr rfl)).2.2.2.2.1 ⟨rfl, rfl⟩,
   ⟨((placeOrder_orders_are_well_formed demoEnv NoSQL.demoStore SQL.demoDb demoUser
      ⟨some [⟨some "A", some 0⟩]⟩).2.2.2
        ⟨⟨some "A", some 0⟩, by decide, Or.inr (Or.inr ⟨0, rfl, by decide⟩)⟩).1,
    ((placeOrder_orders_are_well_formed demoEnv NoSQL.demoStore SQL.demoDb demoUser
      ⟨some [⟨some "A", some 0⟩]⟩).2.2.2
        ⟨⟨some "A", some 0⟩, by decide, Or.inr (Or.inr ⟨0, rfl, by decide⟩)⟩).2.2.1⟩⟩

/-! ### Missing item -/

/-- The loop over a list of lines followed by further lines: the first part runs
first, and the rest runs only when the first part ran to its end. -/
theorem NoSQL.processLines_append_doc (pre rest : List Line) :
    ∀ (items : List Item) (totalAmount : ℚ) (processedItems : List OrderItem)
      (faults : List Bool),
      processLines (pre ++ rest) items totalAmount processedItems faults
        = match processLines pre items totalAmount processedItems faults with
          | .finished items1 total1 processed1 faults1 =>
            processLines rest items1 total1 processed1 faults1
          | .aborted items1 status message => .aborted items1 status message := by
  induction pre with
  | nil => intro items t p f; simp [processLines]
  | cons l pre ih =>
    intro items t p f
    simp only [List.cons_append, processLines]
    split
    · rfl
    · split
      · rfl
      · split
        · rfl
        · split
          · rfl
          · split
            · rfl
            · exact ih _ _ _ _

theorem SQL.processLines_append_rel (snapshot : Db) (pre rest : List Line) :
    ∀ (db : Db) (totalAmount : ℚ) (processedItems : List OrderItem) (faults : List Bool),
      processLines snapshot (pre ++ rest) db totalAmount processedItems faults
        = match processLines snapshot pre db totalAmount processedItems faults with
          | .finished db1 total1 processed1 faults1 =>
            processLines snapshot rest db1 total1 processed1 faults1
          | .aborted db1 status message => .aborted db1 status message := by
  induction pre with
  | nil => intro db t p f; simp [processLines]
  | cons l pre ih =>
    intro db t p f
    simp only [List.cons_append, processLines]
    split
    · rfl
    · split
      · rfl
      · split
        · rfl
        · split
          · rfl
          · split
            · rfl
            · exact ih _ _ _ _

/-- A run of the document-store loop to the end changes no name, price or
identifier of the catalog and uses up fault entries only. -/
theorem NoSQL.processLines_keeps_doc (lines : List Line) :
    ∀ (items : List Item) (totalAmount : ℚ) (processedItems : List OrderItem)
      (faults : List Bool) (items1 : List Item) (total1 : ℚ) (processed1 : List OrderItem)
      (faults1 : List Bool),
      processLines lines items totalAmount processedItems faults
        = .finished items1 total1 processed1 faults1 →
      (∀ itemId, lookup items1 itemId = lookup items itemId)
        ∧ (calm faults = true → calm faults1 = true) := by
  induction lines with
  | nil =>
    intro items t p f items1 t1 p1 f1 h
    simp only [processLines] at h
    injection h with e1 e2 e3 e4
    subst e1 e4; exact ⟨fun _ => rfl, id⟩
  | cons l rest ih =>
    intro items t p f items1 t1 p1 f1 h
    simp only [processLines] at h
    split at h
    · exact absurd h (by simp)
    · split at h
      · exact absurd h (by simp)
      · split at h
        · exact absurd h (by simp)
        · split at h
          · exact absurd h (by simp)
          · split at h
            · exact absurd h (by simp)
            · obtain ⟨a, b⟩ := ih _ _ _ _ _ _ _ _ h
              exact ⟨fun i => by rw [a, lookup_save_doc], fun c => b (calm_tail (calm_tail c))⟩

theorem SQL.processLines_keeps_rel (snapshot : Db) (lines : List Line) :
    ∀ (db : Db) (totalAmount : ℚ) (processedItems : List OrderItem)
      (faults : List Bool) (db1 : Db) (total1 : ℚ) (processed1 : List OrderItem)
      (faults1 : List Bool),
      processLines snapshot lines db totalAmount processedItems faults
        = .finished db1 total1 processed1 faults1 →
      (∀ itemId, lookup db1 itemId = lookup db itemId)
        ∧ (calm faults = true → calm faults1 = true) := by
  induction lines with
  | nil =>
    intro db t p f db1 t1 p1 f1 h
    simp only [processLines] at h
    injection h with e1 e2 e3 e4
    subst e1 e4; exact ⟨fun _ => rfl, id⟩
  | cons l rest ih =>
    intro db t p f db1 t1 p1 f1 h
    simp only [processLines] at h
    split at h
    · exact absurd h (by simp)
    · split at h
      · exact absurd h (by simp)
      · split at h
        · exact absurd h (by simp)
        · split at h
          · exact absurd h (by simp)
          · split at h
            · exact absurd h (by simp)
            · obtain ⟨a, b⟩ := ih _ _ _ _ _ _ _ _ h
              exact ⟨fun i => by rw [a, lookup_updateStock_rel],
                fun c => b (calm_tail (calm_tail c))⟩

theorem NoSQL.lookup_none_doc {items : List Item} {itemId : String}
    (h : ∀ i ∈ items, i._id ≠ itemId) : lookup items itemId = none := by
  simp only [lookup, findById, Option.map_eq_none', List.find?_eq_none]
  intro i hi; simpa using h i hi

theorem SQL.lookup_none_rel {db : Db} {itemId : String}
    (h : ∀ r ∈ db.Items, r.item_id ≠ itemId) : lookup db itemId = none := by
  have : selectItem db itemId = [] := by
    simp only [selectItem, List.filter_eq_nil_iff]
    intro r hr; simpa using h r hr
  simp [lookup, this]

/-- C9, as stated, fails in the document store.  A regular user asks for one unit
under the identifier `no-such-item`, a well-formed line whose identifier no item
of the catalog has.  The identifier is no `ObjectId`, so `Item.findById` throws,
and the handler answers 500 `Failed to place order`, not 404, with a message
that does not name the identifier. -/
theorem placeOrder_uncastable_item :
    (∀ i ∈ NoSQL.demoStore.items, i._id ≠ "no-such-item")
    ∧ invalidLine ⟨some "no-such-item", some 1⟩ = false
    ∧ notRegularUser demoUser = false
    ∧ NoSQL.placeOrder demoCastError NoSQL.demoStore demoUser demoBodyUncastable
        = (NoSQL.demoStore, ⟨500, "Failed to place order", none⟩) := by
  refine ⟨by decide, by decide, by decide, by decide⟩

/-- C9, amended.  A regular user sends lines of which the first one to fail a
check is a well-formed line (identifier present, quantity at least 1) naming an
item the catalog does not hold, the lines before it being processed to the end.
In both variants no order is created, and the answer depends on the lookup of
that item: when the store answers it, the handler answers 404 with the message
`Item with ID <itemId> not found.`, which contains the offending identifier;
when the lookup throws, as it does in the document store for an identifier that
cannot be cast to an `ObjectId`, the handler answers 500 `Failed to place order`.
(For the relational handler the connection and the transaction are taken to
have been opened.) -/
theorem placeOrder_missing_item (env : Env) (st : NoSQL.Store) (db : SQL.Db) (user : Caller)
    (body : Body) (pre post : List Line) (itemId : String) (quantity : Int)
    (hu : user.role = "user" ∧ user.type = "user")
    (hb : body.items = some (pre ++ ⟨some itemId, some quantity⟩ :: post))
    (hid : itemId ≠ "") (hq : 1 ≤ quantity) :
    ((∀ i ∈ st.items, i._id ≠ itemId) →
      ∀ items1 total1 processed1 faults1,
        NoSQL.processLines pre st.items 0 [] env.faults
          = .finished items1 total1 processed1 faults1 →
        (throws faults1 = false →
          (NoSQL.placeOrder env st user body).2
              = ⟨404, "Item with ID " ++ itemId ++ " not found.", none⟩
            ∧ (NoSQL.placeOrder env st user body).1.orders = st.orders)
        ∧ (throws faults1 = true →
          (NoSQL.placeOrder env st user body).2 = ⟨500, "Failed to place order", none⟩
            ∧ (NoSQL.placeOrder env st user body).1.orders = st.orders))
    ∧ ((∀ r ∈ db.Items, r.item_id ≠ itemId) →
      throws env.faults = false → throws env.faults.tail = false →
      ∀ db1 total1 processed1 faults1,
        SQL.processLines db pre db 0 [] env.faults.tail.tail
          = .finished db1 total1 processed1 faults1 →
        (throws faults1 = false →
          (SQL.placeOrder env db user body).2
              = ⟨404, "Item with ID " ++ itemId ++ " not found.", none⟩
            ∧ (SQL.placeOrder env db user body).1.Orders = db.Orders
            ∧ (SQL.placeOrder env db user body).1.Order_Items = db.Order_Items)
        ∧ (throws faults1 = true →
          (SQL.placeOrder env db user body).2 = ⟨500, "Failed to place order", none⟩
            ∧ (SQL.placeOrder env db user body).1.Orders = db.Orders
            ∧ (SQL.placeOrder env db user body).1.Order_Items = db.Order_Items)) := by
  have h1 := notRegularUser_of_user hu
  have h2 : noItems body = false := by simp [noItems, hb]
  have h3 := invalidLine_of_fields hid hq
  constructor
  · intro hno items1 t1 p1 f1 hl
    obtain ⟨hk, _⟩ := NoSQL.processLines_keeps_doc _ _ _ _ _ _ _ _ _ hl
    have hf : NoSQL.findById items1 itemId = none := by
      have := hk itemId
      rw [NoSQL.lookup_none_doc hno] at this
      simpa [NoSQL.lookup] using this
    constructor
    · intro c1
      have hloop : NoSQL.processLines (body.items.getD []) st.items 0 [] env.faults
          = .aborted items1 404 (msgNotFound itemId) := by
        rw [hb, Option.getD_some, NoSQL.processLines_append_doc, hl]
        simp [NoSQL.processLines, h3, c1, hf]
      simp [NoSQL.placeOrder, h1, h2, hloop, msgNotFound]
    · intro c1
      have hloop : NoSQL.processLines (body.items.getD []) st.items 0 [] env.faults
          = .aborted items1 500 msgFailed := by
        rw [hb, Option.getD_some, NoSQL.processLines_append_doc, hl]
        simp [NoSQL.processLines, h3, c1]
      simp [NoSQL.placeOrder, h1, h2, hloop, msgFailed]
  · intro hno c1 c2 db1 t1 p1 f1 hl
    obtain ⟨hk, _⟩ := SQL.processLines_keeps_rel _ _ _ _ _ _ _ _ _ _ hl
    have hf : (SQL.selectItem db1 itemId).head? = none := by
      have := hk itemId
      rw [SQL.lookup_none_rel hno] at this
      simpa [SQL.lookup] using this
    constructor
    · intro c3
      have hloop : SQL.processLines db (body.items.getD []) db 0 [] env.faults.tail.tail
          = .aborted (SQL.rollback db db1) 404 (msgNotFound itemId) := by
        rw [hb, Option.getD_some, SQL.processLines_append_rel, hl]
        simp [SQL.processLines, h3, c3, hf]
      simp [SQL.placeOrder, h1, h2, c1, c2, hloop, msgNotFound, SQL.rollback]
    · intro c3
      have hloop : SQL.processLines db (body.items.getD []) db 0 [] env.faults.tail.tail
          = .aborted (SQL.rollback db db1) 500 msgFailed := by
        rw [hb, Option.getD_some, SQL.processLines_append_rel, hl]
        simp [SQL.processLines, h3, c3]
      simp [SQL.placeOrder, h1, h2, c1, c2, hloop, msgFailed, SQL.rollback]

/-- C9, amended, at two requests.  On the spec scenario the line for A passes, the
line for B names no item and its lookup is answered: the answer is 404 naming B,
in both variants.  The request for `no-such-item`, whose lookup throws in the
document store, is answered 500.  No order is created. -/
theorem placeOrder_missing_item_witness :
    ((NoSQL.placeOrder demoEnv NoSQL.demoStore demoUser demoBodyMissing).2
          = ⟨404, "Item with ID B not found.", none⟩
        ∧ (NoSQL.placeOrder demoEnv NoSQL.demoStore demoUser demoBodyMissing).1.orders
          = NoSQL.demoStore.orders)
    ∧ ((NoSQL.placeOrder demoCastError NoSQL.demoStore demoUser demoBodyUncastable).2
          = ⟨500, "Failed to place order", none⟩
        ∧ (NoSQL.placeOrder demoCastError NoSQL.demoStore demoUser demoBodyUncastable).1.orders
          = NoSQL.demoStore.orders)
    ∧ ((SQL.placeOrder demoEnv SQL.demoDb demoUser demoBodyMissing).2
          = ⟨404, "Item with ID B not found.", none⟩
        ∧ (SQL.placeOrder demoEnv SQL.demoDb demoUser demoBodyMissing).1.Orders
          = SQL.demoDb.Orders
        ∧ (SQL.placeOrder demoEnv SQL.demoDb demoUser demoBodyMissing).1.Order_Items
          = SQL.demoDb.Order_Items) :=
  ⟨((placeOrder_missing_item demoEnv NoSQL.demoStore SQL.demoDb demoUser demoBodyMissing
      [⟨some "A", some 3⟩] [] "B" 1 ⟨rfl, rfl⟩ rfl (by decide) (by decide)).1
      (by decide) _ _ _ _ rfl).1 rfl,
   ((placeOrder_missing_item demoCastError NoSQL.demoStore SQL.demoDb demoUser
      demoBodyUncastable [] [] "no-such-item" 1 ⟨rfl, rfl⟩ rfl (by decide) (by decide)).1
      (by decide) _ _ _ _ rfl).2 rfl,
   ((placeOrder_missing_item demoEnv NoSQL.demoStore SQL.demoDb demoUser demoBodyMissing
      [⟨some "A", some 3⟩] [] "B" 1 ⟨rfl, rfl⟩ rfl (by decide) (by decide)).2
      (by decide) rfl rfl _ _ _ _ rfl).1 rfl⟩

end Placement

/-! ## Properties of the created order -/

section Created

/-- C11: on every successful placement exactly one order is added: the orders
are those before the request, unchanged and in place, followed by the new one,
which has status `pending`, the caller's identity as owner, no approver and no
approval timestamp.  In the relational store this is the one row appended to
`Orders`. -/
theorem placeOrder_adds_one_pending_order (env : Env) (st : NoSQL.Store) (db : SQL.Db)
    (user : Caller) (body : Body) :
    ((NoSQL.placeOrder env st user body).2.status = 201 →
      ∃ o, (NoSQL.placeOrder env st user body).1.orders = st.orders ++ [o]
        ∧ (NoSQL.placeOrder env st user body).2.payload = some o
        ∧ o.status = "pending" ∧ o.userId = user.id
        ∧ o.approvedByAdminId = none ∧ o.approvedAt = none)
    ∧ ((SQL.placeOrder env db user body).2.status = 201 →
      ∃ row, (SQL.placeOrder env db user body).1.Orders = db.Orders ++ [row]
        ∧ (∃ r, (SQL.placeOrder env db user body).2.payload = some r
            ∧ r.order_id = row.order_id)
        ∧ row.status = "pending" ∧ row.user_id = user.id
        ∧ row.approved_by = none ∧ row.approved_at = none) := by
  constructor
  · intro h
    rcases NoSQL.placeOrder_cases_doc env st user body with hf | ⟨items, t, p, f, _, _, _, hs⟩
    · exact absurd h hf.1
    · exact ⟨NoSQL.newOrder env user t p, by rw [hs], by rw [hs], rfl, rfl, rfl, rfl⟩
  · intro h
    rcases SQL.placeOrder_cases_rel env db user body with
      hf | ⟨db1, t, p, f, db3, f3, _, _, hl, hi, hs⟩
    · exact absurd h hf.1
    · obtain ⟨ho, _, _⟩ := SQL.processLines_frame_rel _ _ _ _ _ _ _ _ _ _ hl
      obtain ⟨_, io, _, _⟩ := SQL.insertOrderItems_spec_rel _ _ _ _ _ _ hi
      refine ⟨⟨db1.nextOrderId, user.id, env.now, t, "pending", none, none, env.now⟩,
        ?_, ⟨⟨db1.nextOrderId, t, p⟩, by rw [hs], rfl⟩, rfl, rfl, rfl, rfl⟩
      rw [hs]; simp only; rw [io]; simp [SQL.insertOrder, ho]

/-- The spec scenario: the successful request adds one pending order owned by the
caller, in both stores. -/
theorem placeOrder_adds_one_pending_order_witness :
    (∃ o, (NoSQL.placeOrder demoEnv NoSQL.demoStore demoUser demoBody).1.orders
          = NoSQL.demoStore.orders ++ [o]
        ∧ (NoSQL.placeOrder demoEnv NoSQL.demoStore demoUser demoBody).2.payload = some o
        ∧ o.status = "pending" ∧ o.userId = demoUser.id
        ∧ o.approvedByAdminId = none ∧ o.approvedAt = none)
    ∧ (∃ row, (SQL.placeOrder demoEnv SQL.demoDb demoUser demoBody).1.Orders
          = SQL.demoDb.Orders ++ [row]
        ∧ (∃ r, (SQL.placeOrder demoEnv SQL.demoDb demoUser demoBody).2.payload = some r
            ∧ r.order_id = row.order_id)
        ∧ row.status = "pending" ∧ row.user_id = demoUser.id
        ∧ row.approved_by = none ∧ row.approved_at = none) :=
  ⟨(placeOrder_adds_one_pending_order demoEnv NoSQL.demoStore SQL.demoDb demoUser demoBody).1
      (by decide),
   (placeOrder_adds_one_pending_order demoEnv NoSQL.demoStore SQL.demoDb demoUser demoBody).2
      (by decide)⟩

end Created

/-! ## Snapshots and catalog changes -/

section Snapshots

theorem NoSQL.updateItem_orders_doc (env : Env) (categories : List String) (st : Store)
    (id : String) (body : ItemPatch) :
    (updateItem env categories st id body).1.orders = st.orders := by
  unfold updateItem
  repeat' split
  all_goals rfl

theorem NoSQL.deleteItem_orders_doc (env : Env) (st : Store) (id : String) :
    (deleteItem env st id).1.orders = st.orders := by
  unfold deleteItem
  repeat' split
  all_goals rfl

/-- C12, document store: updating an item with any body, or deleting it, leaves
the order collection exactly as it was, so every existing order keeps the name,
price and quantity of each of its line items and its `totalAmount`.  This holds
for the handlers and for the routes behind `authorizeAdmin`, for every caller,
item identifier and store state, and whichever store call throws. -/
theorem nosql_catalog_changes_keep_orders (env : Env) (categories : List String)
    (st : NoSQL.Store) (user : Caller) (id : String) (body : ItemPatch) :
    (NoSQL.updateItem env categories st id body).1.orders = st.orders
    ∧ (NoSQL.deleteItem env st id).1.orders = st.orders
    ∧ (NoSQL.putItem env categories st user id body).1.orders = st.orders
    ∧ (NoSQL.deleteItemRoute env st user id).1.orders = st.orders := by
  refine ⟨NoSQL.updateItem_orders_doc _ _ _ _ _, NoSQL.deleteItem_orders_doc _ _ _, ?_, ?_⟩
  · unfold NoSQL.putItem authorizeAdmin
    split
    · rfl
    · exact NoSQL.updateItem_orders_doc _ _ _ _ _
  · unfold NoSQL.deleteItemRoute authorizeAdmin
    split
    · rfl
    · exact NoSQL.deleteItem_orders_doc _ _ _

/-- Whatever the relational item update answers, it leaves `Orders` and
`Order_Items` alone and rewrites `Items` row by row without touching `item_id`. -/
theorem SQL.updateItem_frame_rel (env : Env) (categories : List String) (db : Db)
    (itemId : String) (body : ItemPatch) :
    ∃ f : ItemRow → ItemRow, (∀ r, (f r).item_id = r.item_id)
      ∧ (updateItem env categories db itemId body).1
          = { db with Items := db.Items.map f } := by
  unfold updateItem
  repeat' split
  all_goals first
    | refine ⟨fun r => if r.item_id = itemId then applyUpdate body r else r, ?_, rfl⟩
      intro r
      by_cases e : r.item_id = itemId <;> simp [e, applyUpdate]
    | exact ⟨id, fun _ => rfl, by simp⟩

theorem SQL.putItem_frame_rel (env : Env) (categories : List String) (db : Db)
    (user : Caller) (itemId : String) (body : ItemPatch) :
    ∃ f : ItemRow → ItemRow, (∀ r, (f r).item_id = r.item_id)
      ∧ (putItem env categories db user itemId body).1
          = { db with Items := db.Items.map f } := by
  unfold putItem authorizeAdmin
  split
  · exact ⟨id, fun _ => rfl, by simp⟩
  · exact updateItem_frame_rel _ _ _ _ _

/-- The columns of the join that do not come from `Items` do not depend on what
the item rows hold besides `item_id`. -/
theorem SQL.joinRows_core_rel (site : Site) (owner : Option String) (f : ItemRow → ItemRow)
    (hf : ∀ r, (f r).item_id = r.item_id) :
    (joinRows { site with db := { site.db with Items := site.db.Items.map f } } owner).map
        JoinedRow.core
      = (joinRows site owner).map JoinedRow.core := by
  have hp : ∀ oi : OrderItemRow,
      ((fun i : ItemRow => decide (oi.item_id = i.item_id)) ∘ f)
        = (fun i : ItemRow => decide (oi.item_id = i.item_id)) := by
    intro oi; funext i; simp [Function.comp, hf i]
  simp only [joinRows, List.map_flatMap, List.map_map, List.filter_map, hp]
  rfl

theorem SQL.itemsAt_pushRow_rel (acc : List OrderView) (row : JoinedRow) (orderId : Nat) :
    itemsAt (pushRow acc row) orderId
      = itemsAt acc orderId ++ (if row.order_id = orderId then [lineOf row] else []) := by
  have hp : ((fun v : OrderView => decide (v.order_id = orderId)) ∘
      (fun v : OrderView =>
        if v.order_id = row.order_id then { v with items := v.items ++ [lineOf row] } else v))
      = (fun v : OrderView => decide (v.order_id = orderId)) := by
    funext v
    simp only [Function.comp]
    split <;> rfl
  unfold itemsAt pushRow
  rw [List.find?_map, hp]
  by_cases hany : acc.any (fun v => decide (v.order_id = row.order_id)) = true
  · simp only [hany, if_true]
    cases hfind : acc.find? (fun v => decide (v.order_id = orderId)) with
    | none =>
      have hne : ¬ row.order_id = orderId := by
        intro e
        rw [List.any_eq_true] at hany
        obtain ⟨v, hv, hv2⟩ := hany
        have := List.find?_eq_none.mp hfind v hv
        simp at hv2 this
        exact this (hv2.trans e)
      simp [hne]
    | some v =>
      have hv : v.order_id = orderId := by simpa using List.find?_some hfind
      by_cases e : row.order_id = orderId
      · simp [e, hv]
      · have e2 : ¬ v.order_id = row.order_id := by rw [hv]; exact fun x => e x.symm
        simp [e, e2]
  · simp only [hany, if_false, Bool.false_eq_true]
    rw [List.find?_append]
    cases hfind : acc.find? (fun v => decide (v.order_id = orderId)) with
    | none =>
      by_cases e : row.order_id = orderId
      · simp [e, entryOf]
      · simp [e, entryOf]
    | some v =>
      have hv : v.order_id = orderId := by simpa using List.find?_some hfind
      have hmem : v ∈ acc := List.mem_of_find?_eq_some hfind
      have e2 : ¬ v.order_id = row.order_id := by
        intro e
        apply hany
        rw [List.any_eq_true]
        exact ⟨v, hmem, by simpa using e⟩
      have e : ¬ row.order_id = orderId := by rw [← hv]; exact fun x => e2 x.symm
      simp [e, e2]

/-- The lines the grouping lists for an order are the lines of the rows of that
order, in row order. -/
theorem SQL.itemsAt_groupRows_rel (rows : List JoinedRow) (orderId : Nat) :
    itemsAt (groupRows rows) orderId
      = (rows.filter (fun r => decide (r.order_id = orderId))).map lineOf := by
  have gen : ∀ (rows : List JoinedRow) (acc : List OrderView),
      itemsAt (rows.foldl pushRow acc) orderId
        = itemsAt acc orderId
          ++ (rows.filter (fun r => decide (r.order_id = orderId))).map lineOf := by
    intro rows
    induction rows with
    | nil => intro acc; simp
    | cons row rest ih =>
      intro acc
      rw [List.foldl_cons, ih, itemsAt_pushRow_rel]
      by_cases e : row.order_id = orderId <;> simp [List.filter_cons, e]
  have := gen rows []
  simpa [groupRows, itemsAt] using this

theorem SQL.captured_core_rel (orderId : Nat) (rows : List JoinedRow) :
    (rows.filter (fun r => decide (r.order_id = orderId))).map
        (fun r => (lineOf r).captured)
      = ((rows.map JoinedRow.core).filter (fun r => decide (r.order_id = orderId))).map
        (fun r => (lineOf r).captured) := by
  induction rows with
  | nil => rfl
  | cons r rest ih =>
    by_cases e : r.order_id = orderId
    · simp [List.filter_cons, e, JoinedRow.core, lineOf, LineView.captured] at ih ⊢
      exact ih
    · simp [List.filter_cons, e, JoinedRow.core, lineOf, LineView.captured] at ih ⊢
      exact ih

/-- The captured parts listed for an order are those of the joined rows of that
order, up to the order in which `ORDER BY` puts them. -/
theorem SQL.capturedLines_listOrders_rel (env : Env) (nameLe : String → String → Bool)
    (site : Site) (user : Caller) (orderId : Nat) (h : throws env.faults = false) :
    (capturedLines (listOrders env nameLe site user) orderId).Perm
      (((joinRows site (if user.role = "user" then some user.id else none)).filter
          (fun r => decide (r.order_id = orderId))).map (fun r => (lineOf r).captured)) := by
  simp only [capturedLines, listOrders, h, Bool.false_eq_true, if_false, Option.getD_some,
    itemsAt_groupRows_rel, List.map_map]
  exact ((List.perm_insertionSort _ _).filter _).map _

/-- Rewriting item rows without touching `item_id` changes the captured parts
listed for an order at most in their order. -/
theorem SQL.capturedLines_items_rel (env : Env) (nameLe : String → String → Bool)
    (site : Site) (user : Caller) (orderId : Nat) (f : ItemRow → ItemRow)
    (hf : ∀ r, (f r).item_id = r.item_id) :
    (capturedLines (listOrders env nameLe
        { site with db := { site.db with Items := site.db.Items.map f } } user) orderId).Perm
      (capturedLines (listOrders env nameLe site user) orderId) := by
  by_cases h : throws env.faults = true
  · simp [capturedLines, listOrders, h]
  · have h2 : throws env.faults = false := by simpa using h
    refine (capturedLines_listOrders_rel env nameLe _ user orderId h2).trans ?_
    refine List.Perm.trans ?_ (capturedLines_listOrders_rel env nameLe site user orderId h2).symm
    rw [captured_core_rel, joinRows_core_rel site _ f hf, ← captured_core_rel]

/-- Every joined row carries the name and price its item row holds now. -/
theorem SQL.joinRows_current_rel (site : Site) (owner : Option String) (row : JoinedRow)
    (h : row ∈ joinRows site owner) :
    ∃ i ∈ site.db.Items, i.item_id = row.item_id ∧ row.item_name = i.name
      ∧ row.item_current_price = i.price := by
  simp only [joinRows, List.mem_flatMap, List.mem_map, List.mem_filter] at h
  obtain ⟨o, _, u, _, a, _, oi, _, i, ⟨hi, hid⟩, rfl⟩ := h
  exact ⟨i, hi, by simpa using (of_decide_eq_true hid).symm, rfl, rfl⟩

theorem SQL.pushRow_lines_rel (Q : LineView → Prop) (acc : List OrderView) (row : JoinedRow)
    (hacc : ∀ v ∈ acc, ∀ l ∈ v.items, Q l) (hrow : Q (lineOf row)) :
    ∀ v ∈ pushRow acc row, ∀ l ∈ v.items, Q l := by
  intro v hv l hl
  simp only [pushRow, List.mem_map] at hv
  obtain ⟨v0, hv0, rfl⟩ := hv
  have hv0q : ∀ l ∈ v0.items, Q l := by
    split at hv0
    · exact hacc v0 hv0
    · rcases List.mem_append.mp hv0 with h | h
      · exact hacc v0 h
      · simp only [List.mem_singleton] at h
        subst h
        intro l hl
        simp [entryOf] at hl
  split at hl
  · simp only [List.mem_append, List.mem_singleton] at hl
    rcases hl with hl | rfl
    · exact hv0q l hl
    · exact hrow
  · exact hv0q l hl

/-- Every line the grouping lists is the line of one of the rows. -/
theorem SQL.groupRows_lines_rel (Q : LineView → Prop) (rows : List JoinedRow)
    (hrows : ∀ row ∈ rows, Q (lineOf row)) :
    ∀ v ∈ groupRows rows, ∀ l ∈ v.items, Q l := by
  have gen : ∀ (rows : List JoinedRow) (acc : List OrderView),
      (∀ v ∈ acc, ∀ l ∈ v.items, Q l) → (∀ row ∈ rows, Q (lineOf row)) →
      ∀ v ∈ rows.foldl pushRow acc, ∀ l ∈ v.items, Q l := by
    intro rows
    induction rows with
    | nil => intro acc hacc _; simpa using hacc
    | cons row rest ih =>
      intro acc hacc hr
      rw [List.foldl_cons]
      exact ih _ (pushRow_lines_rel Q acc row hacc (hr row (List.mem_cons_self _ _)))
        (fun r hrr => hr r (List.mem_cons_of_mem _ hrr))
  exact gen rows [] (by simp) hrows

/-- C13, as stated, fails for the name: in the spec scenario, after the order is
placed and an administrator renames item A, `GET /api/orders` lists the order's
line under the new name. -/
theorem sql_listing_follows_rename :
    SQL.listedNames (SQL.listOrders demoEnv binaryLe SQL.demoSite demoUser) 1 = ["Item A"]
    ∧ (SQL.putItem demoEnv [] SQL.demoSite.db demoAdmin "A" demoRename).2.status = 200
    ∧ SQL.listedNames (SQL.listOrders demoEnv binaryLe
        { SQL.demoSite with
          db := (SQL.putItem demoEnv [] SQL.demoSite.db demoAdmin "A" demoRename).1 }
        demoUser) 1 = ["Renamed"] := by
  decide

/-- C13, amended: for every order, the item identifier, quantity and
`price_at_order` that `GET /api/orders` lists for its lines are the same after
an item update as before it, whatever the update changes (name and price
included) and whatever it answers, up to the order of the lines, which
`ORDER BY ... i.name` may change.  The name and current price listed for a line
are not captured: they are those the item row holds when the orders are listed. -/
theorem sql_listing_keeps_captured_lines (env env2 : Env) (nameLe : String → String → Bool)
    (categories : List String) (site : SQL.Site) (admin user : Caller) (itemId : String)
    (body : ItemPatch) (orderId : Nat) :
    (SQL.capturedLines (SQL.listOrders env2 nameLe
        { site with db := (SQL.updateItem env categories site.db itemId body).1 } user)
        orderId).Perm (SQL.capturedLines (SQL.listOrders env2 nameLe site user) orderId)
    ∧ (SQL.capturedLines (SQL.listOrders env2 nameLe
        { site with db := (SQL.putItem env categories site.db admin itemId body).1 } user)
        orderId).Perm (SQL.capturedLines (SQL.listOrders env2 nameLe site user) orderId)
    ∧ (∀ v ∈ (SQL.listOrders env2 nameLe site user).payload.getD [], ∀ l ∈ v.items,
        ∃ i ∈ site.db.Items, i.item_id = l.item_id ∧ l.name = i.name
          ∧ l.item_current_price = i.price) := by
  refine ⟨?_, ?_, ?_⟩
  · obtain ⟨f, hf, e⟩ := SQL.updateItem_frame_rel env categories site.db itemId body
    rw [e]
    exact SQL.capturedLines_items_rel env2 nameLe site user orderId f hf
  · obtain ⟨f, hf, e⟩ := SQL.putItem_frame_rel env categories site.db admin itemId body
    rw [e]
    exact SQL.capturedLines_items_rel env2 nameLe site user orderId f hf
  · by_cases h : throws env2.faults = true
    · simp [SQL.listOrders, h]
    · simp only [SQL.listOrders, h, if_false, Option.getD_some]
      apply SQL.groupRows_lines_rel
      intro row hrow
      have hmem : row ∈ SQL.joinRows site (if user.role = "user" then some user.id else none) :=
        (List.perm_insertionSort _ _).subset hrow
      obtain ⟨i, hi, h1, h2, h3⟩ := SQL.joinRows_current_rel site _ row hmem
      exact ⟨i, hi, h1, h2, h3⟩

end Snapshots

/-! ## The two variants side by side -/

section Variants

/-- C14: on the spec scenario with the two-line request whose second line names a
missing item, both handlers answer 404 and create no order, but they leave
different stock behind: the document store keeps the first line's decrement
(stock 2), the relational store rolls it back (stock 5). -/
theorem placeOrder_variants_differ_on_failure :
    (NoSQL.placeOrder demoEnv NoSQL.demoStore demoUser demoBodyMissing).2.status = 404
    ∧ (SQL.placeOrder demoEnv SQL.demoDb demoUser demoBodyMissing).2.status = 404
    ∧ (NoSQL.placeOrder demoEnv NoSQL.demoStore demoUser demoBodyMissing).1.orders = []
    ∧ (SQL.placeOrder demoEnv SQL.demoDb demoUser demoBodyMissing).1.Orders = []
    ∧ (NoSQL.placeOrder demoEnv NoSQL.demoStore demoUser demoBodyMissing).1.items.map
        (fun i => (i._id, i.stockQuantity)) = [("A", 2)]
    ∧ (SQL.placeOrder demoEnv SQL.demoDb demoUser demoBodyMissing).1.Items.map
        (fun r => (r.item_id, r.stock_quantity)) = [("A", 5)] := by
  decide

/-- C15: when the loop leaves the handler on one of the lines `pre`, the lines
after `pre` play no part: whatever lines follow, the answer and the store after
the request are the same, in both variants, for every caller and whichever
store call throws. -/
theorem placeOrder_stops_at_first_failure (env : Env) (st : NoSQL.Store) (db : SQL.Db)
    (user : Caller) (pre post post2 : List Line) :
    ((∃ items status message,
        NoSQL.processLines pre st.items 0 [] env.faults = .aborted items status message) →
      NoSQL.placeOrder env st user ⟨some (pre ++ post)⟩
        = NoSQL.placeOrder env st user ⟨some (pre ++ post2)⟩)
    ∧ ((∃ db1 status message,
        SQL.processLines db pre db 0 [] env.faults.tail.tail = .aborted db1 status message) →
      SQL.placeOrder env db user ⟨some (pre ++ post)⟩
        = SQL.placeOrder env db user ⟨some (pre ++ post2)⟩) := by
  constructor
  · rintro ⟨items, status, message, h⟩
    have hne : pre ≠ [] := by
      intro e; rw [e] at h; simp [NoSQL.processLines] at h
    have n1 : noItems ⟨some (pre ++ post)⟩ = false := by simp [noItems, hne]
    have n2 : noItems ⟨some (pre ++ post2)⟩ = false := by simp [noItems, hne]
    simp only [NoSQL.placeOrder, n1, n2, Option.getD_some, NoSQL.processLines_append_doc, h]
  · rintro ⟨db1, status, message, h⟩
    have hne : pre ≠ [] := by
      intro e; rw [e] at h; simp [SQL.processLines] at h
    have n1 : noItems ⟨some (pre ++ post)⟩ = false := by simp [noItems, hne]
    have n2 : noItems ⟨some (pre ++ post2)⟩ = false := by simp [noItems, hne]
    simp only [SQL.placeOrder, n1, n2, Option.getD_some, SQL.processLines_append_rel, h]

/-- The spec scenario with a line for a missing item: whether a valid line or a
malformed one follows it, the answer and the store are the same. -/
theorem placeOrder_stops_at_first_failure_witness :
    NoSQL.placeOrder demoEnv NoSQL.demoStore demoUser
        ⟨some ([⟨some "A", some 3⟩, ⟨some "B", some 1⟩] ++ [⟨some "A", some 1⟩])⟩
      = NoSQL.placeOrder demoEnv NoSQL.demoStore demoUser
        ⟨some ([⟨some "A", some 3⟩, ⟨some "B", some 1⟩] ++ [⟨none, none⟩])⟩
    ∧ SQL.placeOrder demoEnv SQL.demoDb demoUser
        ⟨some ([⟨some "A", some 3⟩, ⟨some "B", some 1⟩] ++ [⟨some "A", some 1⟩])⟩
      = SQL.placeOrder demoEnv SQL.demoDb demoUser
        ⟨some ([⟨some "A", some 3⟩, ⟨some "B", some 1⟩] ++ [⟨none, none⟩])⟩ :=
  ⟨(placeOrder_stops_at_first_failure demoEnv NoSQL.demoStore SQL.demoDb demoUser
      [⟨some "A", some 3⟩, ⟨some "B", some 1⟩] [⟨some "A", some 1⟩] [⟨none, none⟩]).1
      ⟨_, _, _, rfl⟩,
   (placeOrder_stops_at_first_failure demoEnv NoSQL.demoStore SQL.demoDb demoUser
      [⟨some "A", some 3⟩, ⟨some "B", some 1⟩] [⟨some "A", some 1⟩] [⟨none, none⟩]).2
      ⟨_, _, _, rfl⟩⟩

end Variants

/-! ## Properties of order approval -/

section Approval

theorem invalidStatus_of_valid {status : String}
    (h : status = "approved" ∨ status = "disapproved") : invalidStatus ⟨some status⟩ = false := by
  rcases h with rfl | rfl <;> decide

theorem invalidStatus_of_other {body : StatusBody}
    (h1 : body.status ≠ some "approved") (h2 : body.status ≠ some "disapproved") :
    invalidStatus body = true := by
  obtain ⟨status⟩ := body
  cases status with
  | none => rfl
  | some s =>
    have e1 : ¬ s = "approved" := fun e => h1 (by rw [e])
    have e2 : ¬ s = "disapproved" := fun e => h2 (by rw [e])
    simp [invalidStatus, e1, e2]

theorem valid_of_invalidStatus_false {body : StatusBody} (h : invalidStatus body = false) :
    body.status.getD "" = "approved" ∨ body.status.getD "" = "disapproved" := by
  obtain ⟨status⟩ := body
  cases status with
  | none => simp [invalidStatus] at h
  | some s =>
    simp only [invalidStatus, Bool.or_eq_false_iff, Bool.not_eq_false', List.contains_cons,
      List.contains_nil, Bool.or_false, Bool.or_eq_true, beq_iff_eq] at h
    simpa using h.2

theorem notAdmin_of_admin {user : Caller} (h : user.role = "admin" ∧ user.type = "admin") :
    notAdmin user = false := by
  simp [notAdmin, h.1, h.2]

theorem NoSQL.findByIdAndUpdate_some_doc (set : Order → Order) (hset : ∀ o, (set o)._id = o._id)
    (id : String) (o : Order) :
    ∀ (orders : List Order), orderAt orders id = some o →
      ∃ orders1, findByIdAndUpdate orders id set = some (orders1, set o)
        ∧ orderAt orders1 id = some (set o) := by
  intro orders
  induction orders with
  | nil => intro h; simp [orderAt] at h
  | cons a rest ih =>
    intro h
    by_cases e : a._id = id
    · have ha : a = o := by simpa [orderAt, List.find?_cons, e] using h
      subst ha
      refine ⟨set a :: rest, by simp [findByIdAndUpdate, e], ?_⟩
      simp [orderAt, List.find?_cons, hset, e]
    · have h2 : orderAt rest id = some o := by
        simpa [orderAt, List.find?_cons, e] using h
      obtain ⟨orders1, h3, h4⟩ := ih h2
      refine ⟨a :: orders1, by simp [findByIdAndUpdate, e, h3], ?_⟩
      simpa [orderAt, List.find?_cons, e] using h4

theorem NoSQL.findByIdAndUpdate_none_doc (set : Order → Order) (id : String) :
    ∀ (orders : List Order), (∀ o ∈ orders, o._id ≠ id) →
      findByIdAndUpdate orders id set = none := by
  intro orders
  induction orders with
  | nil => intro _; rfl
  | cons a rest ih =>
    intro h
    have e : ¬ a._id = id := h a (List.mem_cons_self _ _)
    simp [findByIdAndUpdate, e, ih (fun o ho => h o (List.mem_cons_of_mem _ ho))]

theorem SQL.selectOrder_update_rel (env : Env) (db : Db) (user : Caller) (status : String)
    (orderId : Nat) :
    selectOrder (updateOrderStatus env db status user.id orderId) orderId
      = (selectOrder db orderId).map (approval env user status) := by
  simp only [selectOrder, updateOrderStatus]
  induction db.Orders with
  | nil => rfl
  | cons r rest ih =>
    by_cases e : r.order_id = orderId
    · simp [List.filter_cons, e, approval] at ih ⊢
      exact ih
    · simp [List.filter_cons, e] at ih ⊢
      exact ih

/-- What a successful status update does, in both variants: the handler answers
200 with the updated order, which is what the store then holds under the
identifier. -/
theorem NoSQL.setStatus_ok_doc (env : Env) (st : Store) (user : Caller) (id status : String)
    (o : Order) (hs : status = "approved" ∨ status = "disapproved")
    (hc : calm env.faults = true) (ho : orderAt st.orders id = some o) :
    ∃ orders1,
      setStatus env st user id ⟨some status⟩
        = ({ st with orders := orders1 },
           ⟨200, msgStatusUpdated status, some (approval env user status o)⟩)
      ∧ orderAt orders1 id = some (approval env user status o) := by
  obtain ⟨orders1, h1, h2⟩ :=
    findByIdAndUpdate_some_doc (approval env user status) (fun _ => rfl) id o st.orders ho
  refine ⟨orders1, ?_, h2⟩
  simp [setStatus, invalidStatus_of_valid hs, calm_throws hc, h1]

theorem SQL.setStatus_ok_rel (env : Env) (db : Db) (user : Caller) (orderId : Nat)
    (status : String) (row : OrderRow) (hs : status = "approved" ∨ status = "disapproved")
    (hc : calm env.faults = true) (ho : orderAt db orderId = some row) :
    setStatus env db user orderId ⟨some status⟩
        = (updateOrderStatus env db status user.id orderId,
           ⟨200, msgStatusUpdated status, some (approval env user status row)⟩)
      ∧ orderAt (updateOrderStatus env db status user.id orderId) orderId
          = some (approval env user status row) := by
  have hsel : orderAt (updateOrderStatus env db status user.id orderId) orderId
      = some (approval env user status row) := by
    unfold orderAt at ho ⊢
    rw [selectOrder_update_rel, List.head?_map, ho]; rfl
  have hlen : ¬ (selectOrder db orderId).length = 0 := by
    intro e
    rw [List.length_eq_zero] at e
    simp [orderAt, e] at ho
  refine ⟨?_, hsel⟩
  unfold orderAt at hsel
  simp [setStatus, invalidStatus_of_valid hs, calm_throws hc, calm_throws (calm_tail hc),
    hlen, hsel]

/-- C16: an administrator asks for `approved` or `disapproved` on an existing
order, the store answering every call.  The handler, and the route behind
`authorizeAdmin`, answer 200; the store then holds the order with
`status = newStatus`, the caller as approver and the time of the call as
approval timestamp, its other fields as before; the returned order is that
updated order. -/
theorem setStatus_records_approval (env : Env) (st : NoSQL.Store) (db : SQL.Db) (user : Caller)
    (id : String) (orderId : Nat) (status : String) (o : NoSQL.Order) (row : SQL.OrderRow)
    (hu : user.role = "admin" ∧ user.type = "admin")
    (hs : status = "approved" ∨ status = "disapproved") (hc : calm env.faults = true) :
    (NoSQL.orderAt st.orders id = some o →
      (NoSQL.putOrderStatus env st user id ⟨some status⟩).2
          = ⟨200, msgStatusUpdated status, some (NoSQL.approval env user status o)⟩
      ∧ NoSQL.putOrderStatus env st user id ⟨some status⟩
          = NoSQL.setStatus env st user id ⟨some status⟩
      ∧ NoSQL.orderAt (NoSQL.putOrderStatus env st user id ⟨some status⟩).1.orders id
          = some (NoSQL.approval env user status o)
      ∧ (NoSQL.approval env user status o).status = status
      ∧ (NoSQL.approval env user status o).approvedByAdminId = some user.id
      ∧ (NoSQL.approval env user status o).approvedAt = some env.now
      ∧ (NoSQL.approval env user status o).userId = o.userId
      ∧ (NoSQL.approval env user status o).items = o.items
      ∧ (NoSQL.approval env user status o).totalAmount = o.totalAmount)
    ∧ (SQL.orderAt db orderId = some row →
      (SQL.putOrderStatus env db user orderId ⟨some status⟩).2
          = ⟨200, msgStatusUpdated status, some (SQL.approval env user status row)⟩
      ∧ SQL.putOrderStatus env db user orderId ⟨some status⟩
          = SQL.setStatus env db user orderId ⟨some status⟩
      ∧ SQL.orderAt (SQL.putOrderStatus env db user orderId ⟨some status⟩).1 orderId
          = some (SQL.approval env user status row)
      ∧ (SQL.approval env user status row).status = status
      ∧ (SQL.approval env user status row).approved_by = some user.id
      ∧ (SQL.approval env user status row).approved_at = some env.now
      ∧ (SQL.approval env user status row).user_id = row.user_id
      ∧ (SQL.approval env user status row).total_amount = row.total_amount) := by
  have ha := notAdmin_of_admin hu
  constructor
  · intro ho
    obtain ⟨orders1, h1, h2⟩ := NoSQL.setStatus_ok_doc env st user id status o hs hc ho
    have hr : NoSQL.putOrderStatus env st user id ⟨some status⟩
        = NoSQL.setStatus env st user id ⟨some status⟩ := by
      simp [NoSQL.putOrderStatus, authorizeAdmin, ha]
    refine ⟨by rw [hr, h1], hr, by rw [hr, h1]; exact h2, rfl, rfl, rfl, rfl, rfl, rfl⟩
  · intro ho
    obtain ⟨h1, h2⟩ := SQL.setStatus_ok_rel env db user orderId status row hs hc ho
    have hr : SQL.putOrderStatus env db user orderId ⟨some status⟩
        = SQL.setStatus env db user orderId ⟨some status⟩ := by
      simp [SQL.putOrderStatus, authorizeAdmin, ha]
    refine ⟨by rw [hr, h1], hr, by rw [hr, h1]; exact h2, rfl, rfl, rfl, rfl, rfl⟩

/-- The spec scenario: an administrator approves the placed order at time 7; the
answer is 200 and the order is then approved by that administrator at time 7. -/
theorem setStatus_records_approval_witness :
    ((NoSQL.putOrderStatus demoLater NoSQL.demoPlaced demoAdmin "o1" ⟨some "approved"⟩).2.status
        = 200
      ∧ (NoSQL.putOrderStatus demoLater NoSQL.demoPlaced demoAdmin "o1"
          ⟨some "approved"⟩).1.orders.map (fun o => (o.status, o.approvedByAdminId, o.approvedAt))
        = [("approved", some "a1", some 7)])
    ∧ ((SQL.putOrderStatus demoLater SQL.demoSite.db demoAdmin 1 ⟨some "approved"⟩).2.status
        = 200
      ∧ (SQL.putOrderStatus demoLater SQL.demoSite.db demoAdmin 1
          ⟨some "approved"⟩).1.Orders.map (fun r => (r.status, r.approved_by, r.approved_at))
        = [("approved", some "a1", some 7)]) :=
  ⟨⟨congrArg Response.status
      ((setStatus_records_approval demoLater NoSQL.demoPlaced SQL.demoSite.db demoAdmin "o1" 1
        "approved" _ ⟨1, "u1", 0, 30, "pending", none, none, 0⟩ ⟨rfl, rfl⟩ (Or.inl rfl)
        (by decide)).1 rfl).1,
    by decide⟩,
   ⟨congrArg Response.status
      ((setStatus_records_approval demoLater NoSQL.demoPlaced SQL.demoSite.db demoAdmin "o1" 1
        "approved" ⟨"o1", "u1", 0, 30, "pending", none, none, [], 0, 0⟩ _ ⟨rfl, rfl⟩
        (Or.inl rfl) (by decide)).2 rfl).1,
    by decide⟩⟩

/-- C17: every status other than `approved` and `disapproved` (`pending`, the
empty string and a missing status among them) is answered 400 by the handler
and the store is returned as it was, for every order identifier, existing or
not, and whichever store call would throw.  Behind `authorizeAdmin` the route
answers the same to an administrator. -/
theorem setStatus_rejects_other_values (env : Env) (st : NoSQL.Store) (db : SQL.Db)
    (user : Caller) (id : String) (orderId : Nat) (body : StatusBody)
    (h1 : body.status ≠ some "approved") (h2 : body.status ≠ some "disapproved") :
    NoSQL.setStatus env st user id body = (st, ⟨400, msgBadStatus, none⟩)
    ∧ SQL.setStatus env db user orderId body = (db, ⟨400, msgBadStatus, none⟩)
    ∧ (NoSQL.putOrderStatus env st user id body).1 = st
    ∧ (SQL.putOrderStatus env db user orderId body).1 = db
    ∧ (user.role = "admin" ∧ user.type = "admin" →
        NoSQL.putOrderStatus env st user id body = (st, ⟨400, msgBadStatus, none⟩)
        ∧ SQL.putOrderStatus env db user orderId body = (db, ⟨400, msgBadStatus, none⟩)) := by
  have hi := invalidStatus_of_other h1 h2
  have n1 : NoSQL.setStatus env st user id body = (st, ⟨400, msgBadStatus, none⟩) := by
    simp [NoSQL.setStatus, hi]
  have n2 : SQL.setStatus env db user orderId body = (db, ⟨400, msgBadStatus, none⟩) := by
    simp [SQL.setStatus, hi]
  refine ⟨n1, n2, ?_, ?_, ?_⟩
  · unfold NoSQL.putOrderStatus authorizeAdmin
    split
    · rfl
    · rw [n1]
  · unfold SQL.putOrderStatus authorizeAdmin
    split
    · rfl
    · rw [n2]
  · intro hu
    have ha := notAdmin_of_admin hu
    simp [NoSQL.putOrderStatus, SQL.putOrderStatus, authorizeAdmin, ha, n1, n2]

/-- The statuses `pending`, empty and missing, asked of the placed order of the
spec scenario and of an order that does not exist: 400 each time, nothing changes. -/
theorem setStatus_rejects_other_values_witness :
    NoSQL.setStatus demoLater NoSQL.demoPlaced demoAdmin "o1" ⟨some "pending"⟩
        = (NoSQL.demoPlaced, ⟨400, msgBadStatus, none⟩)
    ∧ SQL.setStatus demoLater SQL.demoSite.db demoAdmin 9 ⟨some ""⟩
        = (SQL.demoSite.db, ⟨400, msgBadStatus, none⟩)
    ∧ NoSQL.putOrderStatus demoLater NoSQL.demoPlaced demoAdmin "nope" ⟨none⟩
        = (NoSQL.demoPlaced, ⟨400, msgBadStatus, none⟩) :=
  ⟨(setStatus_rejects_other_values demoLater NoSQL.demoPlaced SQL.demoSite.db demoAdmin "o1" 1
      ⟨some "pending"⟩ (by decide) (by decide)).1,
   (setStatus_rejects_other_values demoLater NoSQL.demoPlaced SQL.demoSite.db demoAdmin "o1" 9
      ⟨some ""⟩ (by decide) (by decide)).2.1,
   ((setStatus_rejects_other_values demoLater NoSQL.demoPlaced SQL.demoSite.db demoAdmin "nope"
      1 ⟨none⟩ (by decide) (by decide)).2.2.2.2 ⟨rfl, rfl⟩).1⟩

/-- C18, as stated, fails in the document store.  An administrator asks to approve
the order `no-such-order`, an identifier under which no order is stored.  The
identifier is no `ObjectId`, so `Order.findByIdAndUpdate` throws, and the answer
is 500 `Failed to update order status`, not 404. -/
theorem setStatus_uncastable_order :
    (∀ o ∈ NoSQL.demoPlaced.orders, o._id ≠ "no-such-order")
    ∧ invalidStatus ⟨some "approved"⟩ = false
    ∧ NoSQL.putOrderStatus demoCastError NoSQL.demoPlaced demoAdmin "no-such-order"
          ⟨some "approved"⟩
        = (NoSQL.demoPlaced, ⟨500, "Failed to update order status", none⟩) := by
  refine ⟨by decide, by decide, rfl⟩

/-- C18, amended.  A valid status is asked of an identifier under which no order is
stored.  In both variants the store is returned as it was, and the answer
depends on the update call: when the store answers it, the handler answers 404;
when the call throws, as it does in the document store for an identifier that
cannot be cast to an `ObjectId`, the handler answers 500
`Failed to update order status`.  Behind `authorizeAdmin` the route answers the
same to an administrator.  (In the relational variant `orderId` is the number
that the database reads in the path parameter.) -/
theorem setStatus_unknown_order (env : Env) (st : NoSQL.Store) (db : SQL.Db) (user : Caller)
    (id : String) (orderId : Nat) (status : String)
    (hs : status = "approved" ∨ status = "disapproved") :
    ((∀ o ∈ st.orders, o._id ≠ id) →
      (throws env.faults = false →
        NoSQL.setStatus env st user id ⟨some status⟩ = (st, ⟨404, msgOrderNotFound, none⟩)
        ∧ (user.role = "admin" ∧ user.type = "admin" →
            NoSQL.putOrderStatus env st user id ⟨some status⟩
              = (st, ⟨404, msgOrderNotFound, none⟩)))
      ∧ (throws env.faults = true →
        NoSQL.setStatus env st user id ⟨some status⟩
            = (st, ⟨500, "Failed to update order status", none⟩)
        ∧ (user.role = "admin" ∧ user.type = "admin" →
            NoSQL.putOrderStatus env st user id ⟨some status⟩
              = (st, ⟨500, "Failed to update order status", none⟩))))
    ∧ ((∀ r ∈ db.Orders, r.order_id ≠ orderId) →
      (throws env.faults = false →
        SQL.setStatus env db user orderId ⟨some status⟩ = (db, ⟨404, msgOrderNotFound, none⟩)
        ∧ (user.role = "admin" ∧ user.type = "admin" →
            SQL.putOrderStatus env db user orderId ⟨some status⟩
              = (db, ⟨404, msgOrderNotFound, none⟩)))
      ∧ (throws env.faults = true →
        SQL.setStatus env db user orderId ⟨some status⟩
            = (db, ⟨500, "Failed to update order status", none⟩)
        ∧ (user.role = "admin" ∧ user.type = "admin" →
            SQL.putOrderStatus env db user orderId ⟨some status⟩
              = (db, ⟨500, "Failed to update order status", none⟩)))) := by
  have hv := invalidStatus_of_valid hs
  constructor
  · intro hno
    constructor
    · intro c1
      have n1 : NoSQL.setStatus env st user id ⟨some status⟩
          = (st, ⟨404, msgOrderNotFound, none⟩) := by
        simp [NoSQL.setStatus, hv, c1, NoSQL.findByIdAndUpdate_none_doc _ id st.orders hno]
      refine ⟨n1, fun hu => ?_⟩
      simp [NoSQL.putOrderStatus, authorizeAdmin, notAdmin_of_admin hu, n1]
    · intro c1
      have n1 : NoSQL.setStatus env st user id ⟨some status⟩
          = (st, ⟨500, "Failed to update order status", none⟩) := by
        simp [NoSQL.setStatus, hv, c1, msgStatusFailed]
      refine ⟨n1, fun hu => ?_⟩
      simp [NoSQL.putOrderStatus, authorizeAdmin, notAdmin_of_admin hu, n1]
  · intro hno
    have hsel : SQL.selectOrder db orderId = [] := by
      simp only [SQL.selectOrder, List.filter_eq_nil_iff]
      intro r hr; simpa using hno r hr
    constructor
    · intro c1
      have n2 : SQL.setStatus env db user orderId ⟨some status⟩
          = (db, ⟨404, msgOrderNotFound, none⟩) := by
        simp [SQL.setStatus, hv, c1, hsel]
      refine ⟨n2, fun hu => ?_⟩
      simp [SQL.putOrderStatus, authorizeAdmin, notAdmin_of_admin hu, n2]
    · intro c1
      have n2 : SQL.setStatus env db user orderId ⟨some status⟩
          = (db, ⟨500, "Failed to update order status", none⟩) := by
        simp [SQL.setStatus, hv, c1, msgStatusFailed]
      refine ⟨n2, fun hu => ?_⟩
      simp [SQL.putOrderStatus, authorizeAdmin, notAdmin_of_admin hu, n2]

/-- C18, amended, on the spec scenario after the order was placed: approving an
order that does not exist is answered 404 when the store answers the call, in
both variants, and 500 when the call throws, as for the identifier
`no-such-order` in the document store; nothing changes. -/
theorem setStatus_unknown_order_witness :
    NoSQL.putOrderStatus demoLater NoSQL.demoPlaced demoAdmin "nope" ⟨some "approved"⟩
        = (NoSQL.demoPlaced, ⟨404, msgOrderNotFound, none⟩)
    ∧ NoSQL.putOrderStatus demoCastError NoSQL.demoPlaced demoAdmin "no-such-order"
          ⟨some "approved"⟩
        = (NoSQL.demoPlaced, ⟨500, "Failed to update order status", none⟩)
    ∧ SQL.putOrderStatus demoLater SQL.demoSite.db demoAdmin 9 ⟨some "approved"⟩
        = (SQL.demoSite.db, ⟨404, msgOrderNotFound, none⟩) :=
  ⟨(((setStatus_unknown_order demoLater NoSQL.demoPlaced SQL.demoSite.db demoAdmin "nope" 9
      "approved" (Or.inl rfl)).1 (by decide)).1 rfl).2 ⟨rfl, rfl⟩,
   (((setStatus_unknown_order demoCastError NoSQL.demoPlaced SQL.demoSite.db demoAdmin
      "no-such-order" 9 "approved" (Or.inl rfl)).1 (by decide)).2 rfl).2 ⟨rfl, rfl⟩,
   (((setStatus_unknown_order demoLater NoSQL.demoPlaced SQL.demoSite.db demoAdmin "nope" 9
      "approved" (Or.inl rfl)).2 (by decide)).1 rfl).2 ⟨rfl, rfl⟩⟩

/-- A sequence of successful status requests for one order leaves under its
identifier an order that differs from the original at most in the fields a
status update overwrites. -/
theorem NoSQL.setStatusAll_order_doc (id : String) (calls : List StatusCall) :
    ∀ (st : Store) (o : Order), orderAt st.orders id = some o →
      (∀ c ∈ calls, c.succeeds) →
      ∃ o1, orderAt (setStatusAll st id calls).orders id = some o1
        ∧ ∀ env user status, approval env user status o1 = approval env user status o := by
  induction calls with
  | nil => intro st o ho _; exact ⟨o, ho, fun _ _ _ => rfl⟩
  | cons c rest ih =>
    intro st o ho hall
    obtain ⟨hu, hs, hc⟩ := hall c (List.mem_cons_self _ _)
    obtain ⟨orders1, h1, h2⟩ := setStatus_ok_doc c.env st c.user id c.status o hs hc ho
    have hstep : (putOrderStatus c.env st c.user id ⟨some c.status⟩).1.orders = orders1 := by
      simp [putOrderStatus, authorizeAdmin, notAdmin_of_admin hu, h1]
    obtain ⟨o1, h3, h4⟩ :=
      ih (putOrderStatus c.env st c.user id ⟨some c.status⟩).1 (approval c.env c.user c.status o)
        (by rw [hstep]; exact h2) (fun d hd => hall d (List.mem_cons_of_mem _ hd))
    exact ⟨o1, by simpa [setStatusAll] using h3, fun e u s => by rw [h4]; rfl⟩

theorem SQL.setStatusAll_order_rel (orderId : Nat) (calls : List StatusCall) :
    ∀ (db : Db) (row : OrderRow), orderAt db orderId = some row →
      (∀ c ∈ calls, c.succeeds) →
      ∃ row1, orderAt (setStatusAll db orderId calls) orderId = some row1
        ∧ ∀ env user status, approval env user status row1 = approval env user status row := by
  induction calls with
  | nil => intro db row ho _; exact ⟨row, ho, fun _ _ _ => rfl⟩
  | cons c rest ih =>
    intro db row ho hall
    obtain ⟨hu, hs, hc⟩ := hall c (List.mem_cons_self _ _)
    obtain ⟨h1, h2⟩ := setStatus_ok_rel c.env db c.user orderId c.status row hs hc ho
    have hstep : (putOrderStatus c.env db c.user orderId ⟨some c.status⟩).1
        = updateOrderStatus c.env db c.status c.user.id orderId := by
      simp [putOrderStatus, authorizeAdmin, notAdmin_of_admin hu, h1]
    obtain ⟨row1, h3, h4⟩ :=
      ih (putOrderStatus c.env db c.user orderId ⟨some c.status⟩).1
        (approval c.env c.user c.status row)
        (by rw [hstep]; exact h2) (fun d hd => hall d (List.mem_cons_of_mem _ hd))
    exact ⟨row1, by simpa [setStatusAll] using h3, fun e u s => by rw [h4]; rfl⟩

/-- C19: there is no terminal-state guard.  After any sequence of successful
status requests for one order (any administrators, any of the two statuses,
whatever the status of the order before), one more such request is answered
200, and the order then stored is the original order with the status, approver
and approval timestamp of that last request alone. -/
theorem setStatus_last_call_wins (st : NoSQL.Store) (db : SQL.Db) (id : String) (orderId : Nat)
    (calls : List StatusCall) (last : StatusCall) (o : NoSQL.Order) (row : SQL.OrderRow)
    (hall : ∀ c ∈ calls ++ [last], c.succeeds) :
    (NoSQL.orderAt st.orders id = some o →
      (NoSQL.putOrderStatus last.env (NoSQL.setStatusAll st id calls) last.user id
          ⟨some last.status⟩).2.status = 200
      ∧ NoSQL.orderAt (NoSQL.setStatusAll st id (calls ++ [last])).orders id
          = some { o with status := last.status, approvedByAdminId := some last.user.id,
                          approvedAt := some last.env.now, updatedAt := last.env.now })
    ∧ (SQL.orderAt db orderId = some row →
      (SQL.putOrderStatus last.env (SQL.setStatusAll db orderId calls) last.user orderId
          ⟨some last.status⟩).2.status = 200
      ∧ SQL.orderAt (SQL.setStatusAll db orderId (calls ++ [last])) orderId
          = some { row with status := last.status, approved_by := some last.user.id,
                            approved_at := some last.env.now, updated_at := last.env.now }) := by
  have hcalls : ∀ c ∈ calls, c.succeeds := fun c hc => hall c (List.mem_append_left _ hc)
  obtain ⟨hu, hs, hc⟩ := hall last (List.mem_append_right _ (List.mem_singleton.mpr rfl))
  constructor
  · intro ho
    obtain ⟨o1, h1, h2⟩ := NoSQL.setStatusAll_order_doc id calls st o ho hcalls
    obtain ⟨orders1, h3, h4⟩ :=
      NoSQL.setStatus_ok_doc last.env (NoSQL.setStatusAll st id calls) last.user id
        last.status o1 hs hc h1
    have hr : NoSQL.putOrderStatus last.env (NoSQL.setStatusAll st id calls) last.user id
        ⟨some last.status⟩ = ({ NoSQL.setStatusAll st id calls with orders := orders1 },
          ⟨200, msgStatusUpdated last.status,
            some (NoSQL.approval last.env last.user last.status o1)⟩) := by
      simp [NoSQL.putOrderStatus, authorizeAdmin, notAdmin_of_admin hu, h3]
    refine ⟨by rw [hr], ?_⟩
    have hfold : NoSQL.setStatusAll st id (calls ++ [last])
        = (NoSQL.putOrderStatus last.env (NoSQL.setStatusAll st id calls) last.user id
            ⟨some last.status⟩).1 := by
      simp [NoSQL.setStatusAll, List.foldl_append]
    rw [hfold, hr]
    simp only
    rw [h4, h2]
    rfl
  · intro ho
    obtain ⟨row1, h1, h2⟩ := SQL.setStatusAll_order_rel orderId calls db row ho hcalls
    obtain ⟨h3, h4⟩ :=
      SQL.setStatus_ok_rel last.env (SQL.setStatusAll db orderId calls) last.user orderId
        last.status row1 hs hc h1
    have hr : SQL.putOrderStatus last.env (SQL.setStatusAll db orderId calls) last.user orderId
        ⟨some last.status⟩ = SQL.setStatus last.env (SQL.setStatusAll db orderId calls)
          last.user orderId ⟨some last.status⟩ := by
      simp [SQL.putOrderStatus, authorizeAdmin, notAdmin_of_admin hu]
    refine ⟨by rw [hr, h3], ?_⟩
    have hfold : SQL.setStatusAll db orderId (calls ++ [last])
        = (SQL.putOrderStatus last.env (SQL.setStatusAll db orderId calls) last.user orderId
            ⟨some last.status⟩).1 := by
      simp [SQL.setStatusAll, List.foldl_append]
    rw [hfold, hr, h3]
    simp only
    rw [h4, h2]
    rfl

/-- The placed order of the spec scenario is approved by one administrator and
then disapproved by another at time 7: it ends disapproved by the second. -/
theorem setStatus_last_call_wins_witness :
    ((NoSQL.setStatusAll NoSQL.demoPlaced "o1"
        ([⟨demoEnv, demoAdmin, "approved"⟩]
          ++ [⟨demoLater, ⟨"a2", "admin", "admin"⟩, "disapproved"⟩])).orders.map
        (fun o => (o.status, o.approvedByAdminId, o.approvedAt))
      = [("disapproved", some "a2", some 7)])
    ∧ (∃ o, NoSQL.orderAt (NoSQL.setStatusAll NoSQL.demoPlaced "o1"
        ([⟨demoEnv, demoAdmin, "approved"⟩]
          ++ [⟨demoLater, ⟨"a2", "admin", "admin"⟩, "disapproved"⟩])).orders "o1" = some o)
    ∧ (∃ r, SQL.orderAt (SQL.setStatusAll SQL.demoSite.db 1
        ([⟨demoEnv, demoAdmin, "approved"⟩]
          ++ [⟨demoLater, ⟨"a2", "admin", "admin"⟩, "disapproved"⟩])) 1 = some r) :=
  ⟨by decide,
   ⟨_, ((setStatus_last_call_wins NoSQL.demoPlaced SQL.demoSite.db "o1" 1
      [⟨demoEnv, demoAdmin, "approved"⟩] ⟨demoLater, ⟨"a2", "admin", "admin"⟩, "disapproved"⟩
      _ ⟨1, "u1", 0, 30, "pending", none, none, 0⟩
      (by
        intro c hc
        simp only [List.cons_append, List.nil_append, List.mem_cons, List.mem_singleton,
          List.mem_nil_iff, or_false] at hc
        rcases hc with rfl | rfl
        · exact ⟨⟨rfl, rfl⟩, Or.inl rfl, by decide⟩
        · exact ⟨⟨rfl, rfl⟩, Or.inr rfl, by decide⟩)).1 rfl).2⟩,
   ⟨_, ((setStatus_last_call_wins NoSQL.demoPlaced SQL.demoSite.db "o1" 1
      [⟨demoEnv, demoAdmin, "approved"⟩] ⟨demoLater, ⟨"a2", "admin", "admin"⟩, "disapproved"⟩
      ⟨"o1", "u1", 0, 30, "pending", none, none, [], 0, 0⟩ _
      (by
        intro c hc
        simp only [List.cons_append, List.nil_append, List.mem_cons, List.mem_singleton,
          List.mem_nil_iff, or_false] at hc
        rcases hc with rfl | rfl
        · exact ⟨⟨rfl, rfl⟩, Or.inl rfl, by decide⟩
        · exact ⟨⟨rfl, rfl⟩, Or.inr rfl, by decide⟩)).2 rfl).2⟩⟩

end Approval

/-! ## Pending orders have no approver -/

section Pending

theorem NoSQL.placeOrder_pending_doc (env : Env) (st : Store) (user : Caller) (body : Body)
    (h : PendingUnapproved st.orders) :
    PendingUnapproved (placeOrder env st user body).1.orders := by
  rcases placeOrder_cases_doc env st user body with hf | ⟨items, t, p, f, _, _, _, hs⟩
  · rw [hf.2.2.1]; exact h
  · rw [hs]
    intro o ho _
    rcases List.mem_append.mp ho with ho | ho
    · exact h o ho ‹_›
    · rw [List.mem_singleton.mp ho]; exact ⟨rfl, rfl⟩

theorem NoSQL.findByIdAndUpdate_mem_doc (set : Order → Order) (id : String) :
    ∀ (orders orders1 : List Order) (u : Order),
      findByIdAndUpdate orders id set = some (orders1, u) →
      ∀ x ∈ orders1, x ∈ orders ∨ ∃ o ∈ orders, x = set o := by
  intro orders
  induction orders with
  | nil => intro orders1 u h; simp [findByIdAndUpdate] at h
  | cons a rest ih =>
    intro orders1 u h x hx
    simp only [findByIdAndUpdate] at h
    split at h
    · simp only [Option.some.injEq, Prod.mk.injEq] at h
      obtain ⟨rfl, _⟩ := h
      rcases List.mem_cons.mp hx with rfl | hx
      · exact Or.inr ⟨a, List.mem_cons_self _ _, rfl⟩
      · exact Or.inl (List.mem_cons_of_mem _ hx)
    · cases hr : findByIdAndUpdate rest id set with
      | none => simp [hr] at h
      | some r =>
        obtain ⟨r1, r2⟩ := r
        simp only [hr, Option.map_some', Option.some.injEq, Prod.mk.injEq] at h
        obtain ⟨rfl, _⟩ := h
        rcases List.mem_cons.mp hx with rfl | hx
        · exact Or.inl (List.mem_cons_self _ _)
        · rcases ih r1 r2 hr x hx with h1 | ⟨o, ho, rfl⟩
          · exact Or.inl (List.mem_cons_of_mem _ h1)
          · exact Or.inr ⟨o, List.mem_cons_of_mem _ ho, rfl⟩

theorem valid_status_not_pending {body : StatusBody} (h : ¬ invalidStatus body = true) :
    body.status.getD "" ≠ "pending" := by
  rcases valid_of_invalidStatus_false (by simpa using h) with e | e <;> rw [e] <;> decide

theorem NoSQL.setStatus_pending_doc (env : Env) (st : Store) (user : Caller) (id : String)
    (body : StatusBody) (h : PendingUnapproved st.orders) :
    PendingUnapproved (setStatus env st user id body).1.orders := by
  simp only [setStatus]
  split
  · exact h
  · rename_i hv
    split
    · exact h
    · split
      · exact h
      · rename_i orders1 u hupd
        intro x hx hp
        rcases findByIdAndUpdate_mem_doc _ _ _ _ _ hupd x hx with h1 | ⟨o, _, rfl⟩
        · exact h x h1 hp
        · exact absurd hp (valid_status_not_pending hv)

theorem NoSQL.deleteAdmin_pending_doc (env : Env) (site : Site) (user : Caller)
    (adminId : String) (h : PendingUnapproved site.store.orders) :
    PendingUnapproved (deleteAdmin env site user adminId).1.store.orders := by
  have hmap : PendingUnapproved (site.store.orders.map (fun o =>
      if o.approvedByAdminId = some adminId then
        { o with approvedByAdminId := none, approvedAt := none, updatedAt := env.now }
      else o)) := by
    intro x hx hp
    simp only [List.mem_map] at hx
    obtain ⟨o, ho, rfl⟩ := hx
    split
    · exact ⟨rfl, rfl⟩
    · rename_i hne
      simp only [hne, if_false] at hp
      exact h o ho hp
  simp only [deleteAdmin]
  repeat' split
  all_goals first
    | exact h
    | exact hmap

theorem NoSQL.deleteUser_pending_doc (env : Env) (site : Site) (userId : String)
    (h : PendingUnapproved site.store.orders) :
    PendingUnapproved (deleteUser env site userId).1.store.orders := by
  have hfil : PendingUnapproved
      (site.store.orders.filter (fun o => decide (o.userId ≠ userId))) :=
    fun x hx hp => h x (List.mem_of_mem_filter hx) hp
  simp only [deleteUser]
  repeat' split
  all_goals first
    | exact h
    | exact hfil

theorem NoSQL.step_pending_doc (site : Site) (a : Action)
    (h : PendingUnapproved site.store.orders) :
    PendingUnapproved (step site a).store.orders := by
  cases a with
  | placeOrder env user body => exact placeOrder_pending_doc env site.store user body h
  | setStatus env user id body =>
    simp only [step, putOrderStatus, authorizeAdmin]
    split
    · exact h
    · exact setStatus_pending_doc env site.store user id body h
  | deleteAdmin env user adminId =>
    simp only [step, authorizeAdmin]
    split
    · exact h
    · exact deleteAdmin_pending_doc env site user adminId h
  | deleteUser env user userId =>
    simp only [step, authorizeAdmin]
    split
    · exact h
    · exact deleteUser_pending_doc env site userId h

theorem NoSQL.run_pending_doc (actions : List Action) :
    ∀ (site : Site), PendingUnapproved site.store.orders →
      PendingUnapproved (run site actions).store.orders := by
  induction actions with
  | nil => intro site h; exact h
  | cons a rest ih =>
    intro site h
    exact ih (step site a) (step_pending_doc site a h)

theorem SQL.placeOrder_pending_rel (env : Env) (db : Db) (user : Caller) (body : Body)
    (h : PendingUnapproved db.Orders) :
    PendingUnapproved (placeOrder env db user body).1.Orders := by
  rcases placeOrder_cases_rel env db user body with
    hf | ⟨db1, t, p, f, db3, f3, _, _, hl, hi, hs⟩
  · rw [hf.2.2.2.1]; exact h
  · obtain ⟨ho, _, _⟩ := processLines_frame_rel _ _ _ _ _ _ _ _ _ _ hl
    obtain ⟨_, io, _, _⟩ := insertOrderItems_spec_rel _ _ _ _ _ _ hi
    rw [hs]
    simp only
    rw [io]
    intro r hr hp
    simp only [insertOrder, ho, List.mem_append, List.mem_singleton] at hr
    rcases hr with hr | rfl
    · exact h r hr hp
    · exact ⟨rfl, rfl⟩

theorem SQL.setStatus_pending_rel (env : Env) (db : Db) (user : Caller) (orderId : Nat)
    (body : StatusBody) (h : PendingUnapproved db.Orders) :
    PendingUnapproved (setStatus env db user orderId body).1.Orders := by
  simp only [setStatus]
  split
  · exact h
  · rename_i hv
    have hupd : PendingUnapproved
        (updateOrderStatus env db (body.status.getD "") user.id orderId).Orders := by
      intro x hx hp
      simp only [updateOrderStatus, List.mem_map] at hx
      obtain ⟨r, hr, rfl⟩ := hx
      split at hp
      · exact absurd hp (valid_status_not_pending hv)
      · rename_i hne
        simp only [hne, if_false]
        exact h r hr hp
    repeat' split
    all_goals first
      | exact h
      | exact hupd

theorem SQL.deleteAdmin_pending_rel (env : Env) (site : Site) (user : Caller)
    (adminId : String) (h : PendingUnapproved site.db.Orders) :
    PendingUnapproved (deleteAdmin env site user adminId).1.db.Orders := by
  have hmap : PendingUnapproved (site.db.Orders.map (fun o =>
      if o.approved_by = some adminId then
        { o with approved_by := none, approved_at := none, updated_at := env.now }
      else o)) := by
    intro x hx hp
    simp only [List.mem_map] at hx
    obtain ⟨o, ho, rfl⟩ := hx
    split
    · exact ⟨rfl, rfl⟩
    · rename_i hne
      simp only [hne, if_false] at hp
      exact h o ho hp
  unfold deleteAdmin
  split
  · exact h
  split
  · exact h
  split
  · exact h
  split
  · exact h
  split
  · exact h
  dsimp only
  split
  · exact h
  split
  · exact h
  split
  · exact h
  split
  · exact h
  · exact hmap

theorem SQL.deleteUser_pending_rel (env : Env) (site : Site) (userId : String)
    (h : PendingUnapproved site.db.Orders) :
    PendingUnapproved (deleteUser env site userId).1.db.Orders := by
  have hfil : PendingUnapproved
      (site.db.Orders.filter (fun o => decide (o.user_id ≠ userId))) :=
    fun x hx hp => h x (List.mem_of_mem_filter hx) hp
  unfold deleteUser
  split
  · exact h
  split
  · exact h
  split
  · exact h
  dsimp only
  split
  · exact h
  split
  · exact h
  split
  · exact h
  split
  · exact h
  · exact hfil

theorem SQL.step_pending_rel (site : Site) (a : Action)
    (h : PendingUnapproved site.db.Orders) :
    PendingUnapproved (step site a).db.Orders := by
  cases a with
  | placeOrder env user body => exact placeOrder_pending_rel env site.db user body h
  | setStatus env user orderId body =>
    simp only [step, putOrderStatus, authorizeAdmin]
    split
    · exact h
    · exact setStatus_pending_rel env site.db user orderId body h
  | deleteAdmin env user adminId =>
    simp only [step, authorizeAdmin]
    split
    · exact h
    · exact deleteAdmin_pending_rel env site user adminId h
  | deleteUser env user userId =>
    simp only [step, authorizeAdmin]
    split
    · exact h
    · exact deleteUser_pending_rel env site userId h

theorem SQL.run_pending_rel (actions : List Action) :
    ∀ (site : Site), PendingUnapproved site.db.Orders →
      PendingUnapproved (run site actions).db.Orders := by
  induction actions with
  | nil => intro site h; exact h
  | cons a rest ih =>
    intro site h
    exact ih (step site a) (step_pending_rel site a h)

/-- C20: start from a store without orders and let the server answer any
sequence of requests to place an order, to set a status, to delete an
administrator and to delete a user (any callers, bodies and store faults).
In the state reached, every order whose status is `pending` has no approver and
no approval timestamp, in the document store and in the relational store. -/
theorem pending_orders_have_no_approver (site : NoSQL.Site) (rsite : SQL.Site)
    (actions : List NoSQL.Action) (ractions : List SQL.Action) :
    (site.store.orders = [] →
      ∀ o ∈ (NoSQL.run site actions).store.orders, o.status = "pending" →
        o.approvedByAdminId = none ∧ o.approvedAt = none)
    ∧ (rsite.db.Orders = [] →
      ∀ r ∈ (SQL.run rsite ractions).db.Orders, r.status = "pending" →
        r.approved_by = none ∧ r.approved_at = none) := by
  constructor
  · intro h
    apply NoSQL.run_pending_doc
    rw [h]
    intro o ho
    simp at ho
  · intro h
    apply SQL.run_pending_rel
    rw [h]
    intro r hr
    simp at hr

/-- The spec scenario as a history: the order is placed, an administrator
approves it, and that administrator's account is deleted by a second one.  The
order ends approved without approver, and no pending order has an approver. -/
theorem pending_orders_have_no_approver_witness :
    ((NoSQL.run ⟨NoSQL.demoStore, [⟨"u1", "ada", "ada@example.org"⟩],
          [⟨"a1", "root", "root@example.org"⟩, ⟨"a2", "eve", "eve@example.org"⟩]⟩
        [.placeOrder demoEnv demoUser demoBody,
         .setStatus demoLater demoAdmin "o1" ⟨some "approved"⟩,
         .deleteAdmin demoLater ⟨"a2", "admin", "admin"⟩ "a1"]).store.orders.map
        (fun o => (o.status, o.approvedByAdminId, o.approvedAt))
      = [("approved", none, none)])
    ∧ (∀ o ∈ (NoSQL.run ⟨NoSQL.demoStore, [⟨"u1", "ada", "ada@example.org"⟩],
          [⟨"a1", "root", "root@example.org"⟩, ⟨"a2", "eve", "eve@example.org"⟩]⟩
        [.placeOrder demoEnv demoUser demoBody,
         .setStatus demoLater demoAdmin "o1" ⟨some "approved"⟩,
         .deleteAdmin demoLater ⟨"a2", "admin", "admin"⟩ "a1"]).store.orders,
        o.status = "pending" → o.approvedByAdminId = none ∧ o.approvedAt = none)
    ∧ (∀ r ∈ (SQL.run ⟨SQL.demoDb, [⟨"u1", "ada", "ada@example.org"⟩],
          [⟨"a1", "root", "root@example.org"⟩]⟩
        [.placeOrder demoEnv demoUser demoBody]).db.Orders,
        r.status = "pending" → r.approved_by = none ∧ r.approved_at = none) :=
  ⟨by decide,
   (pending_orders_have_no_approver
      ⟨NoSQL.demoStore, [⟨"u1", "ada", "ada@example.org"⟩],
        [⟨"a1", "root", "root@example.org"⟩, ⟨"a2", "eve", "eve@example.org"⟩]⟩
      ⟨SQL.demoDb, [⟨"u1", "ada", "ada@example.org"⟩], [⟨"a1", "root", "root@example.org"⟩]⟩
      [.placeOrder demoEnv demoUser demoBody,
       .setStatus demoLater demoAdmin "o1" ⟨some "approved"⟩,
       .deleteAdmin demoLater ⟨"a2", "admin", "admin"⟩ "a1"]
      [.placeOrder demoEnv demoUser demoBody]).1 rfl,
   (pending_orders_have_no_approver
      ⟨NoSQL.demoStore, [⟨"u1", "ada", "ada@example.org"⟩],
        [⟨"a1", "root", "root@example.org"⟩, ⟨"a2", "eve", "eve@example.org"⟩]⟩
      ⟨SQL.demoDb, [⟨"u1", "ada", "ada@example.org"⟩], [⟨"a1", "root", "root@example.org"⟩]⟩
      [.placeOrder demoEnv demoUser demoBody,
       .setStatus demoLater demoAdmin "o1" ⟨some "approved"⟩,
       .deleteAdmin demoLater ⟨"a2", "admin", "admin"⟩ "a1"]
      [.placeOrder demoEnv demoUser demoBody]).2 rfl⟩

end Pending

/-! ## What a status request leaves alone -/

section Frame

theorem NoSQL.findByIdAndUpdate_frame_doc (env : Env) (user : Caller) (status id : String) :
    ∀ (orders orders1 : List NoSQL.Order) (u : NoSQL.Order),
      NoSQL.findByIdAndUpdate orders id (NoSQL.approval env user status) = some (orders1, u) →
      List.Forall₂ (NoSQL.SameBut id) orders orders1 := by
  intro orders
  induction orders with
  | nil => intro orders1 u h; simp [NoSQL.findByIdAndUpdate] at h
  | cons o rest ih =>
    intro orders1 u h
    unfold NoSQL.findByIdAndUpdate at h
    split at h
    · rename_i e
      simp only [Option.some.injEq, Prod.mk.injEq] at h
      rw [← h.1]
      refine List.Forall₂.cons (Or.inr ⟨e, rfl, rfl, rfl, rfl, rfl⟩) ?_
      exact List.forall₂_same.2 (fun x _ => Or.inl rfl)
    · cases hr : NoSQL.findByIdAndUpdate rest id (NoSQL.approval env user status) with
      | none => rw [hr] at h; simp at h
      | some r =>
        rw [hr] at h
        simp only [Option.map_some', Option.some.injEq, Prod.mk.injEq] at h
        rw [← h.1]
        exact List.Forall₂.cons (Or.inl rfl) (ih r.1 r.2 hr)

theorem NoSQL.setStatus_frame_doc (env : Env) (st : NoSQL.Store) (user : Caller) (id : String)
    (body : StatusBody) :
    (NoSQL.setStatus env st user id body).1.items = st.items
    ∧ List.Forall₂ (NoSQL.SameBut id) st.orders (NoSQL.setStatus env st user id body).1.orders := by
  have same : List.Forall₂ (NoSQL.SameBut id) st.orders st.orders :=
    List.forall₂_same.2 (fun x _ => Or.inl rfl)
  unfold NoSQL.setStatus
  split
  · exact ⟨rfl, same⟩
  · dsimp only
    split
    · exact ⟨rfl, same⟩
    · split
      · exact ⟨rfl, same⟩
      · rename_i orders u h
        exact ⟨rfl, NoSQL.findByIdAndUpdate_frame_doc env user _ id _ _ _ h⟩

theorem SQL.updateOrderStatus_frame_rel (env : Env) (db : SQL.Db) (status approvedBy : String)
    (orderId : Nat) :
    (SQL.updateOrderStatus env db status approvedBy orderId).Items = db.Items
    ∧ (SQL.updateOrderStatus env db status approvedBy orderId).Order_Items = db.Order_Items
    ∧ List.Forall₂ (SQL.SameBut orderId) db.Orders
        (SQL.updateOrderStatus env db status approvedBy orderId).Orders := by
  refine ⟨rfl, rfl, ?_⟩
  unfold SQL.updateOrderStatus
  rw [List.forall₂_map_right_iff, List.forall₂_same]
  intro r _
  by_cases e : r.order_id = orderId
  · rw [if_pos e]; exact Or.inr ⟨e, rfl, rfl, rfl, rfl⟩
  · rw [if_neg e]; exact Or.inl rfl

theorem SQL.setStatus_frame_rel (env : Env) (db : SQL.Db) (user : Caller) (orderId : Nat)
    (body : StatusBody) :
    (SQL.setStatus env db user orderId body).1.Items = db.Items
    ∧ (SQL.setStatus env db user orderId body).1.Order_Items = db.Order_Items
    ∧ List.Forall₂ (SQL.SameBut orderId) db.Orders
        (SQL.setStatus env db user orderId body).1.Orders := by
  have same : List.Forall₂ (SQL.SameBut orderId) db.Orders db.Orders :=
    List.forall₂_same.2 (fun x _ => Or.inl rfl)
  unfold SQL.setStatus
  split
  · exact ⟨rfl, rfl, same⟩
  · dsimp only
    split
    · exact ⟨rfl, rfl, same⟩
    · split
      · exact ⟨rfl, rfl, same⟩
      · split <;> exact SQL.updateOrderStatus_frame_rel env db _ _ orderId

theorem authorizeAdmin_fst {σ α : Type} (user : Caller) (st : σ) (next : σ × Response α) :
    (authorizeAdmin user st next).1 = st ∨ (authorizeAdmin user st next).1 = next.1 := by
  unfold authorizeAdmin
  split
  · exact Or.inl rfl
  · exact Or.inr rfl

/-- C30.  A status request touches only the approval fields of its target, whether
it succeeds or not, at the handler and at the route behind the administrator
gate: in both variants the items (hence every stock quantity) are as before, the
orders are as many as before, each order other than the target is as before, and
the target keeps its identifier, owner, total and order date; its lines are as
before too (in the relational variant they are the rows of `Order_Items`). -/
theorem setStatus_touches_only_approval (env : Env) (st : NoSQL.Store) (db : SQL.Db)
    (user : Caller) (id : String) (orderId : Nat) (body : StatusBody) :
    ((NoSQL.setStatus env st user id body).1.items = st.items
      ∧ List.Forall₂ (NoSQL.SameBut id) st.orders (NoSQL.setStatus env st user id body).1.orders
      ∧ (NoSQL.setStatus env st user id body).1.orders.length = st.orders.length)
    ∧ ((NoSQL.putOrderStatus env st user id body).1.items = st.items
      ∧ List.Forall₂ (NoSQL.SameBut id) st.orders
          (NoSQL.putOrderStatus env st user id body).1.orders
      ∧ (NoSQL.putOrderStatus env st user id body).1.orders.length = st.orders.length)
    ∧ ((SQL.setStatus env db user orderId body).1.Items = db.Items
      ∧ (SQL.setStatus env db user orderId body).1.Order_Items = db.Order_Items
      ∧ List.Forall₂ (SQL.SameBut orderId) db.Orders
          (SQL.setStatus env db user orderId body).1.Orders
      ∧ (SQL.setStatus env db user orderId body).1.Orders.length = db.Orders.length)
    ∧ ((SQL.putOrderStatus env db user orderId body).1.Items = db.Items
      ∧ (SQL.putOrderStatus env db user orderId body).1.Order_Items = db.Order_Items
      ∧ List.Forall₂ (SQL.SameBut orderId) db.Orders
          (SQL.putOrderStatus env db user orderId body).1.Orders
      ∧ (SQL.putOrderStatus env db user orderId body).1.Orders.length = db.Orders.length) := by
  have hn := NoSQL.setStatus_frame_doc env st user id body
  have hs := SQL.setStatus_frame_rel env db user orderId body
  have an : List.Forall₂ (NoSQL.SameBut id) st.orders st.orders :=
    List.forall₂_same.2 (fun x _ => Or.inl rfl)
  have as : List.Forall₂ (SQL.SameBut orderId) db.Orders db.Orders :=
    List.forall₂_same.2 (fun x _ => Or.inl rfl)
  refine ⟨⟨hn.1, hn.2, hn.2.length_eq.symm⟩, ?_,
    ⟨hs.1, hs.2.1, hs.2.2, hs.2.2.length_eq.symm⟩, ?_⟩
  · rcases authorizeAdmin_fst user st (NoSQL.setStatus env st user id body) with e | e
    · unfold NoSQL.putOrderStatus; rw [e]; exact ⟨rfl, an, rfl⟩
    · unfold NoSQL.putOrderStatus; rw [e]; exact ⟨hn.1, hn.2, hn.2.length_eq.symm⟩
  · rcases authorizeAdmin_fst user db (SQL.setStatus env db user orderId body) with e | e
    · unfold SQL.putOrderStatus; rw [e]; exact ⟨rfl, rfl, as, rfl⟩
    · unfold SQL.putOrderStatus; rw [e]; exact ⟨hs.1, hs.2.1, hs.2.2, hs.2.2.length_eq.symm⟩

end Frame

/-! ## Properties of the grouping of the listing -/

section Grouping

theorem distinctInOrder_mem : ∀ (ks : List Nat) (k : Nat), k ∈ distinctInOrder ks ↔ k ∈ ks := by
  intro ks
  induction ks with
  | nil => intro k; simp [distinctInOrder]
  | cons a ks ih =>
    intro k
    simp only [distinctInOrder, List.mem_cons, List.mem_filter, ih, decide_eq_true_eq]
    by_cases e : k = a <;> simp [e]

theorem distinctInOrder_nodup : ∀ ks : List Nat, (distinctInOrder ks).Nodup := by
  intro ks
  induction ks with
  | nil => simp [distinctInOrder]
  | cons a ks ih =>
    simp only [distinctInOrder, List.nodup_cons, List.mem_filter, decide_eq_true_eq]
    exact ⟨fun h => h.2 rfl, ih.filter _⟩

theorem SQL.firstRows_ids_rel : ∀ rows : List SQL.JoinedRow,
    (SQL.firstRows rows).map (fun r => r.order_id)
      = distinctInOrder (rows.map (fun r => r.order_id)) := by
  intro rows
  induction rows with
  | nil => rfl
  | cons r rs ih =>
    simp only [SQL.firstRows, List.map_cons, distinctInOrder]
    rw [← ih, List.filter_map]
    rfl

theorem SQL.firstRows_mem_rel : ∀ (rows : List SQL.JoinedRow) (f : SQL.JoinedRow),
    f ∈ SQL.firstRows rows → f ∈ rows := by
  intro rows
  induction rows with
  | nil => intro f h; simp [SQL.firstRows] at h
  | cons r rs ih =>
    intro f h
    simp only [SQL.firstRows, List.mem_cons, List.mem_filter] at h
    rcases h with h | h
    · exact h ▸ List.mem_cons_self _ _
    · exact List.mem_cons_of_mem _ (ih f h.1)

theorem SQL.firstRows_append_rel : ∀ (rows : List SQL.JoinedRow) (r : SQL.JoinedRow),
    SQL.firstRows (rows ++ [r])
      = if rows.any (fun s => decide (s.order_id = r.order_id)) then SQL.firstRows rows
        else SQL.firstRows rows ++ [r] := by
  intro rows
  induction rows with
  | nil => intro r; simp [SQL.firstRows]
  | cons a rs ih =>
    intro r
    have hu : SQL.firstRows (a :: rs ++ [r])
        = a :: (SQL.firstRows (rs ++ [r])).filter (fun s => decide (s.order_id ≠ a.order_id)) :=
      rfl
    have hv : SQL.firstRows (a :: rs)
        = a :: (SQL.firstRows rs).filter (fun s => decide (s.order_id ≠ a.order_id)) := rfl
    rw [hu, hv, ih r, List.any_cons]
    by_cases e : a.order_id = r.order_id
    · by_cases h : rs.any (fun s => decide (s.order_id = r.order_id)) = true
      · simp [e, h]
      · have hr : decide (r.order_id ≠ a.order_id) = false := by simp [e]
        simp [e, h, List.filter_append, List.filter_cons]
    · by_cases h : rs.any (fun s => decide (s.order_id = r.order_id)) = true
      · simp [e, h]
      · have e1 : ¬ r.order_id = a.order_id := fun x => e x.symm
        simp [e, e1, h, List.filter_append, List.filter_cons]

theorem SQL.groupSpec_any_rel (rows : List SQL.JoinedRow) (k : Nat) :
    (SQL.groupSpec rows).any (fun v => decide (v.order_id = k))
      = rows.any (fun s => decide (s.order_id = k)) := by
  rw [Bool.eq_iff_iff]
  simp only [List.any_eq_true, decide_eq_true_eq, SQL.groupSpec, List.mem_map]
  constructor
  · rintro ⟨v, ⟨f, hf, rfl⟩, hk⟩
    exact ⟨f, SQL.firstRows_mem_rel rows f hf, hk⟩
  · rintro ⟨s, hs, hk⟩
    have h1 : k ∈ distinctInOrder (rows.map (fun r => r.order_id)) :=
      (distinctInOrder_mem _ k).2 (List.mem_map.2 ⟨s, hs, hk⟩)
    rw [← SQL.firstRows_ids_rel] at h1
    obtain ⟨f, hf, hfk⟩ := List.mem_map.1 h1
    exact ⟨_, ⟨f, hf, rfl⟩, hfk⟩

theorem SQL.groupSpec_push_rel (rows : List SQL.JoinedRow) (r : SQL.JoinedRow) :
    SQL.groupSpec (rows ++ [r]) = SQL.pushRow (SQL.groupSpec rows) r := by
  unfold SQL.pushRow
  rw [SQL.groupSpec_any_rel]
  unfold SQL.groupSpec
  rw [SQL.firstRows_append_rel]
  by_cases h : rows.any (fun s => decide (s.order_id = r.order_id)) = true
  · rw [if_pos h, if_pos h, List.map_map]
    apply List.map_congr_left
    intro f _
    simp only [Function.comp, SQL.rowsOf, List.filter_append, List.map_append, SQL.entryOf]
    by_cases e : f.order_id = r.order_id
    · simp [e]
    · have e1 : ¬ r.order_id = f.order_id := fun x => e x.symm
      simp [e, e1]
  · rw [if_neg h, if_neg h, List.map_append, List.map_append, List.map_map]
    have hno : ∀ s ∈ rows, ¬ s.order_id = r.order_id := by
      intro s hs e
      exact h (List.any_eq_true.2 ⟨s, hs, by simpa using e⟩)
    congr 1
    · apply List.map_congr_left
      intro f hf
      have e : ¬ f.order_id = r.order_id := hno f (SQL.firstRows_mem_rel rows f hf)
      have e1 : ¬ r.order_id = f.order_id := fun x => e x.symm
      simp [Function.comp, SQL.rowsOf, List.filter_append, SQL.entryOf, e, e1]
    · have hnil : rows.filter (fun s => decide (s.order_id = r.order_id)) = [] := by
        rw [List.filter_eq_nil_iff]
        intro s hs
        simpa using hno s hs
      simp [SQL.rowsOf, List.filter_append, hnil, SQL.entryOf]

theorem SQL.groupRows_eq_spec_rel (rows : List SQL.JoinedRow) :
    SQL.groupRows rows = SQL.groupSpec rows := by
  induction rows using List.reverseRecOn with
  | nil => rfl
  | append_singleton rows r ih =>
    rw [SQL.groupSpec_push_rel, ← ih]
    unfold SQL.groupRows
    rw [List.foldl_append]
    rfl

theorem SQL.firstRows_find_rel : ∀ (rows : List SQL.JoinedRow) (f : SQL.JoinedRow),
    f ∈ SQL.firstRows rows →
    rows.find? (fun r => decide (r.order_id = f.order_id)) = some f := by
  intro rows
  induction rows with
  | nil => intro f h; simp [SQL.firstRows] at h
  | cons r rs ih =>
    intro f h
    simp only [SQL.firstRows, List.mem_cons, List.mem_filter, decide_eq_true_eq] at h
    rcases h with h | h
    · subst h; simp
    · rw [List.find?_cons_of_neg]
      · exact ih f h.1
      · simpa using fun x => h.2 x.symm

theorem SQL.groupRows_ids_rel (rows : List SQL.JoinedRow) :
    (SQL.groupRows rows).map (fun v => v.order_id)
      = distinctInOrder (rows.map (fun r => r.order_id)) := by
  rw [SQL.groupRows_eq_spec_rel, ← SQL.firstRows_ids_rel, SQL.groupSpec, List.map_map]
  rfl

theorem SQL.push_count_rel (k : Nat) (l : SQL.LineView) : ∀ acc : List SQL.OrderView,
    (acc.map (fun v => v.order_id)).Nodup →
    ((acc.map (fun v => if v.order_id = k then { v with items := v.items ++ [l] } else v)).map
        (fun v => v.items.length)).sum
      = (acc.map (fun v => v.items.length)).sum
        + (if k ∈ acc.map (fun v => v.order_id) then 1 else 0) := by
  intro acc
  induction acc with
  | nil => intro _; simp
  | cons v rest ih =>
    intro nd
    simp only [List.map_cons, List.nodup_cons] at nd
    simp only [List.map_cons, List.sum_cons, ih nd.2, List.mem_cons]
    by_cases e : v.order_id = k
    · have hk : k ∉ rest.map (fun v => v.order_id) := e ▸ nd.1
      simp [e, hk]
      omega
    · have e1 : ¬ k = v.order_id := fun x => e x.symm
      simp [e, e1]
      omega

theorem SQL.groupRows_count_rel (rows : List SQL.JoinedRow) :
    ((SQL.groupRows rows).map (fun v => v.items.length)).sum = rows.length := by
  induction rows using List.reverseRecOn with
  | nil => rfl
  | append_singleton rows r ih =>
    have nd : ((SQL.groupRows rows).map (fun v => v.order_id)).Nodup := by
      rw [SQL.groupRows_ids_rel]; exact distinctInOrder_nodup _
    have hstep : SQL.groupRows (rows ++ [r]) = SQL.pushRow (SQL.groupRows rows) r := by
      unfold SQL.groupRows
      rw [List.foldl_append]
      rfl
    rw [hstep, SQL.pushRow, List.length_append, List.length_singleton, ← ih]
    by_cases h : (SQL.groupRows rows).any (fun v => decide (v.order_id = r.order_id)) = true
    · rw [if_pos h, SQL.push_count_rel _ _ _ nd]
      have hk : r.order_id ∈ (SQL.groupRows rows).map (fun v => v.order_id) := by
        obtain ⟨v, hv, e⟩ := List.any_eq_true.1 h
        exact List.mem_map.2 ⟨v, hv, by simpa using e⟩
      rw [if_pos hk]
    · rw [if_neg h]
      have hk : r.order_id ∉ (SQL.groupRows rows).map (fun v => v.order_id) := by
        intro hk
        obtain ⟨v, hv, e⟩ := List.mem_map.1 hk
        exact h (List.any_eq_true.2 ⟨v, hv, by simpa using e⟩)
      have nd1 : (((SQL.groupRows rows) ++ [SQL.entryOf r]).map (fun v => v.order_id)).Nodup := by
        rw [List.map_append, List.nodup_append]
        refine ⟨nd, by simp, ?_⟩
        intro a ha hb
        simp only [List.map_cons, List.map_nil, List.mem_singleton] at hb
        exact hk (by rw [show r.order_id = a from hb.symm ▸ rfl]; exact ha)
      rw [SQL.push_count_rel _ _ _ nd1]
      simp [SQL.entryOf]

/-- C28.  The grouping of the relational `listOrders` loses and duplicates nothing:
for every list of joined rows the entries are the distinct `order_id`s in order
of first occurrence, each exactly once; the lines of an entry are the rows of
its order in row order, so the line counts add up to the number of rows; and an
entry is made of the first row of its order, with `approvedByAdmin` null exactly
when that row carries no approving admin username (none, or the empty one, which
the test `row.approved_by_admin_username ? ... : null` takes alike). -/
theorem groupRows_groups_without_loss (rows : List SQL.JoinedRow) :
    SQL.groupRows rows = SQL.groupSpec rows
    ∧ (SQL.groupRows rows).map (fun v => v.order_id)
        = distinctInOrder (rows.map (fun r => r.order_id))
    ∧ ((SQL.groupRows rows).map (fun v => v.order_id)).Nodup
    ∧ (∀ k, k ∈ (SQL.groupRows rows).map (fun v => v.order_id)
        ↔ ∃ r ∈ rows, r.order_id = k)
    ∧ (∀ v ∈ SQL.groupRows rows, v.items = (SQL.rowsOf rows v.order_id).map SQL.lineOf)
    ∧ ((SQL.groupRows rows).map (fun v => v.items.length)).sum = rows.length
    ∧ (∀ v ∈ SQL.groupRows rows, ∃ first,
        rows.find? (fun r => decide (r.order_id = v.order_id)) = some first
        ∧ v = { SQL.entryOf first with items := v.items }
        ∧ (v.approvedByAdmin = none ↔ truthy first.approved_by_admin_username = false)) := by
  refine ⟨SQL.groupRows_eq_spec_rel rows, SQL.groupRows_ids_rel rows, ?_, ?_, ?_,
    SQL.groupRows_count_rel rows, ?_⟩
  · rw [SQL.groupRows_ids_rel]; exact distinctInOrder_nodup _
  · intro k
    rw [SQL.groupRows_ids_rel, distinctInOrder_mem]
    simp
  · intro v hv
    rw [SQL.groupRows_eq_spec_rel] at hv
    obtain ⟨f, _, rfl⟩ := List.mem_map.1 hv
    rfl
  · intro v hv
    rw [SQL.groupRows_eq_spec_rel] at hv
    obtain ⟨f, hf, rfl⟩ := List.mem_map.1 hv
    refine ⟨f, SQL.firstRows_find_rel rows f hf, rfl, ?_⟩
    show (SQL.entryOf f).approvedByAdmin = none ↔ _
    unfold SQL.entryOf
    by_cases t : truthy f.approved_by_admin_username = true
    · simp [t]
    · simp [t]

end Grouping

/-! ## Deleting the last administrator -/

section LastAdmin

/-- C24, at the failing input.  With `a1` the only admin account, the request
`DELETE /api/admins/a1` of an administrator identity other than `a1` is answered
200 and leaves no admin account, in both variants: the guard compares the target
with the caller only.  The state is reached from two administrators when `a1`
deletes `a2` and the identity of `a2` then deletes `a1`. -/
theorem deleteAdmin_removes_last_admin :
    ((authorizeAdmin demoFormerAdmin
          (⟨NoSQL.demoStore, [], [⟨"a1", "root", "root@example.org"⟩]⟩ : NoSQL.Site)
          (NoSQL.deleteAdmin demoLater ⟨NoSQL.demoStore, [], [⟨"a1", "root", "root@example.org"⟩]⟩
            demoFormerAdmin "a1")).2.status = 200
      ∧ (authorizeAdmin demoFormerAdmin
          (⟨NoSQL.demoStore, [], [⟨"a1", "root", "root@example.org"⟩]⟩ : NoSQL.Site)
          (NoSQL.deleteAdmin demoLater ⟨NoSQL.demoStore, [], [⟨"a1", "root", "root@example.org"⟩]⟩
            demoFormerAdmin "a1")).1.admins = [])
    ∧ ((authorizeAdmin demoFormerAdmin
          (⟨SQL.demoDb, [], [⟨"a1", "root", "root@example.org"⟩]⟩ : SQL.Site)
          (SQL.deleteAdmin demoLater ⟨SQL.demoDb, [], [⟨"a1", "root", "root@example.org"⟩]⟩
            demoFormerAdmin "a1")).2.status = 200
      ∧ (authorizeAdmin demoFormerAdmin
          (⟨SQL.demoDb, [], [⟨"a1", "root", "root@example.org"⟩]⟩ : SQL.Site)
          (SQL.deleteAdmin demoLater ⟨SQL.demoDb, [], [⟨"a1", "root", "root@example.org"⟩]⟩
            demoFormerAdmin "a1")).1.Admins = [])
    ∧ (NoSQL.run NoSQL.demoTwoAdmins
        [.deleteAdmin demoLater demoAdmin "a2", .deleteAdmin demoLater demoFormerAdmin "a1"]).admins
        = []
    ∧ (SQL.run SQL.demoTwoAdmins
        [.deleteAdmin demoLater demoAdmin "a2", .deleteAdmin demoLater demoFormerAdmin "a1"]).Admins
        = [] := by
  refine ⟨⟨by decide, by decide⟩, ⟨by decide, by decide⟩, by decide, by decide⟩

end LastAdmin

/-! ## What the listing shows -/

section Listing

theorem SQL.approvers_ne_nil_rel (admins : List SQL.AccountRow) (approvedBy : Option String) :
    ∃ a, a ∈ SQL.approvers admins approvedBy := by
  unfold SQL.approvers
  split
  · exact ⟨none, List.mem_singleton.2 rfl⟩
  · rename_i h
    cases hm : admins.filter (fun a => decide (some a.id = approvedBy)) with
    | nil => exact absurd hm h
    | cons x xs => exact ⟨some x, by simp⟩

theorem SQL.mem_joinRows_rel (site : SQL.Site) (owner : Option String) (row : SQL.JoinedRow)
    (h : row ∈ SQL.joinRows site owner) :
    ∃ o ∈ site.db.Orders, (∀ id, owner = some id → o.user_id = id)
      ∧ row.order_id = o.order_id ∧ row.order_date = o.order_date
      ∧ row.total_amount = o.total_amount ∧ row.status = o.status
      ∧ row.approved_at = o.approved_at := by
  simp only [SQL.joinRows, List.mem_flatMap, List.mem_filter, List.mem_map] at h
  obtain ⟨o, ⟨ho, hown⟩, u, _, a, _, oi, _, i, _, rfl⟩ := h
  refine ⟨o, ho, ?_, rfl, rfl, rfl, rfl, rfl⟩
  intro id e
  subst e
  simpa using hown

theorem SQL.joinRows_complete_rel (site : SQL.Site) (owner : Option String)
    (hint : SQL.Joined site) (o : SQL.OrderRow) (ho : o ∈ site.db.Orders)
    (hown : ∀ id, owner = some id → o.user_id = id) :
    ∃ row ∈ SQL.joinRows site owner, row.order_id = o.order_id := by
  obtain ⟨⟨u, hu, eu⟩, oi, hoi, eoi, i, hi, ei⟩ := hint o ho
  obtain ⟨a, ha⟩ := SQL.approvers_ne_nil_rel site.Admins o.approved_by
  refine ⟨
    { order_id := o.order_id, order_date := o.order_date, total_amount := o.total_amount,
      status := o.status, approved_at := o.approved_at,
      customer_username := u.username, customer_email := u.email,
      approved_by_admin_username := a.map (fun x => x.username),
      approved_by_admin_email := a.map (fun x => x.email),
      item_id := oi.item_id, quantity := oi.quantity, price_at_order := oi.price_at_order,
      item_name := i.name, item_current_price := i.price, item_size := i.size }, ?_, rfl⟩
  simp only [SQL.joinRows, List.mem_flatMap, List.mem_filter, List.mem_map]
  refine ⟨o, ⟨ho, ?_⟩, u, ⟨hu, by simpa using eu⟩, a, ha, oi, ⟨hoi, by simpa using eoi⟩,
    i, ⟨hi, by simpa using ei⟩, rfl⟩
  cases owner with
  | none => rfl
  | some id => simpa using hown id rfl

theorem SQL.visibleTo_mem_rel (user : Caller) (rows : List SQL.OrderRow) (o : SQL.OrderRow) :
    o ∈ SQL.visibleTo user rows
      ↔ o ∈ rows ∧ ∀ id, (if user.role = "user" then some user.id else none) = some id →
          o.user_id = id := by
  unfold SQL.visibleTo
  by_cases hr : user.role = "user"
  · simp [hr]
  · simp [hr]

/-- C21.  `GET /api/orders` lists what the caller may see, and is a read (the
handler issues one query and no write, so its model is a function of the store
that yields only the answer).  When the query does not throw: in the document
store the answer is the populated orders of the caller when its role is `user`,
and all populated orders for an administrator, each once and in stored order; in
the relational store, whose orders satisfy referential integrity, the answer has
each `order_id` at most once, lists exactly the `order_id`s of the caller's rows
of `Orders` when its role is `user` and of all rows for an administrator, and
every entry carries the date, total, status and approval time of such a row. -/
theorem listOrders_lists_visible_orders (env : Env) (nameLe : String → String → Bool)
    (site : NoSQL.Site) (rel : SQL.Site) (user : Caller) :
    ((user.role = "user" →
        NoSQL.visibleTo user site.store.orders
            = site.store.orders.filter (fun o => decide (o.userId = user.id))
          ∧ SQL.visibleTo user rel.db.Orders
            = rel.db.Orders.filter (fun o => decide (o.user_id = user.id)))
      ∧ (user.role = "admin" →
        NoSQL.visibleTo user site.store.orders = site.store.orders
          ∧ SQL.visibleTo user rel.db.Orders = rel.db.Orders))
    ∧ (throws env.faults = false →
        ∃ listed, NoSQL.listOrders env site user = ⟨200, msgOrdersRetrieved, some listed⟩
          ∧ listed = (NoSQL.visibleTo user site.store.orders).map (NoSQL.populate site)
          ∧ listed.map (fun l => l._id)
              = (NoSQL.visibleTo user site.store.orders).map (fun o => o._id))
    ∧ (throws env.faults = false → SQL.Joined rel →
        ∃ views, SQL.listOrders env nameLe rel user = ⟨200, msgOrdersRetrieved, some views⟩
          ∧ (views.map (fun v => v.order_id)).Nodup
          ∧ (∀ k, k ∈ views.map (fun v => v.order_id)
              ↔ k ∈ (SQL.visibleTo user rel.db.Orders).map (fun o => o.order_id))
          ∧ ∀ v ∈ views, ∃ o ∈ SQL.visibleTo user rel.db.Orders,
              v.order_id = o.order_id ∧ v.order_date = o.order_date
              ∧ v.total_amount = o.total_amount ∧ v.status = o.status
              ∧ v.approved_at = o.approved_at) := by
  refine ⟨⟨?_, ?_⟩, ?_, ?_⟩
  · intro hr
    exact ⟨by simp [NoSQL.visibleTo, hr], by simp [SQL.visibleTo, hr]⟩
  · intro hr
    have hne : ¬ user.role = "user" := by rw [hr]; decide
    exact ⟨by simp [NoSQL.visibleTo, hne], by simp [SQL.visibleTo, hne]⟩
  · intro hf
    refine ⟨_, ?_, rfl, ?_⟩
    · unfold NoSQL.listOrders
      rw [hf]
      by_cases hr : user.role = "user"
      · simp [NoSQL.visibleTo, hr]
      · simp [NoSQL.visibleTo, hr]
    · rw [List.map_map]; rfl
  · intro hf hint
    refine ⟨SQL.groupRows (List.insertionSort (fun r s => SQL.rowLe nameLe r s = true)
        (SQL.joinRows rel (if user.role = "user" then some user.id else none))), ?_, ?_, ?_, ?_⟩
    · unfold SQL.listOrders
      rw [hf]
      rfl
    · rw [SQL.groupRows_ids_rel]; exact distinctInOrder_nodup _
    · intro k
      rw [SQL.groupRows_ids_rel, distinctInOrder_mem]
      simp only [List.mem_map]
      constructor
      · rintro ⟨row, hrow, rfl⟩
        have hrow1 := (List.perm_insertionSort _ _).subset hrow
        obtain ⟨o, ho, hown, e, _⟩ := SQL.mem_joinRows_rel rel _ row hrow1
        exact ⟨o, (SQL.visibleTo_mem_rel user _ o).2 ⟨ho, hown⟩, e.symm⟩
      · rintro ⟨o, ho, rfl⟩
        obtain ⟨ho1, hown⟩ := (SQL.visibleTo_mem_rel user _ o).1 ho
        obtain ⟨row, hrow, e⟩ := SQL.joinRows_complete_rel rel _ hint o ho1 hown
        exact ⟨row, (List.perm_insertionSort _ _).symm.subset hrow, e⟩
    · intro v hv
      rw [SQL.groupRows_eq_spec_rel] at hv
      obtain ⟨f, hf1, rfl⟩ := List.mem_map.1 hv
      have hrow := (List.perm_insertionSort _ _).subset (SQL.firstRows_mem_rel _ f hf1)
      obtain ⟨o, ho, hown, e1, e2, e3, e4, e5⟩ := SQL.mem_joinRows_rel rel _ f hrow
      exact ⟨o, (SQL.visibleTo_mem_rel user _ o).2 ⟨ho, hown⟩, e1, e2, e3, e4, e5⟩

/-- C21 at the spec scenario after the order of `u1` was placed: the customer is
listed the order, in both variants. -/
theorem listOrders_lists_visible_orders_witness :
    (throws demoLater.faults = false ∧ SQL.Joined SQL.demoSite)
    ∧ (∃ listed, NoSQL.listOrders demoLater ⟨NoSQL.demoPlaced, [], []⟩ demoUser
          = ⟨200, msgOrdersRetrieved, some listed⟩
        ∧ listed = (NoSQL.visibleTo demoUser NoSQL.demoPlaced.orders).map
            (NoSQL.populate ⟨NoSQL.demoPlaced, [], []⟩)
        ∧ listed.map (fun l => l._id)
            = (NoSQL.visibleTo demoUser NoSQL.demoPlaced.orders).map (fun o => o._id))
    ∧ ∃ views, SQL.listOrders demoLater binaryLe SQL.demoSite demoUser
          = ⟨200, msgOrdersRetrieved, some views⟩
        ∧ (views.map (fun v => v.order_id)).Nodup
        ∧ (∀ k, k ∈ views.map (fun v => v.order_id)
            ↔ k ∈ (SQL.visibleTo demoUser SQL.demoSite.db.Orders).map (fun o => o.order_id))
        ∧ ∀ v ∈ views, ∃ o ∈ SQL.visibleTo demoUser SQL.demoSite.db.Orders,
            v.order_id = o.order_id ∧ v.order_date = o.order_date
            ∧ v.total_amount = o.total_amount ∧ v.status = o.status
            ∧ v.approved_at = o.approved_at :=
  ⟨⟨rfl, by decide⟩,
   (listOrders_lists_visible_orders demoLater binaryLe ⟨NoSQL.demoPlaced, [], []⟩
      SQL.demoSite demoUser).2.1 rfl,
   (listOrders_lists_visible_orders demoLater binaryLe ⟨NoSQL.demoPlaced, [], []⟩
      SQL.demoSite demoUser).2.2 rfl (by decide)⟩

end Listing

/-! ## When a placement succeeds -/

section Success

theorem requested_nonneg (lines : List Line) (h : ∀ l ∈ lines, invalidLine l = false)
    (itemId : String) : 0 ≤ requested lines itemId := by
  induction lines with
  | nil => simp [requested]
  | cons l rest ih =>
    rw [requested_cons]
    have hr := ih (fun x hx => h x (List.mem_cons_of_mem _ hx))
    have hl : ¬ invalidLine l = true := by rw [h l (List.mem_cons_self _ _)]; simp
    obtain ⟨i, q, _, e2, _, hq⟩ := validLine_fields hl
    split
    · rw [e2]; simp only [Option.getD_some]; omega
    · omega

/-- What a run of the document-store loop to the end tells about the request. -/
theorem NoSQL.processLines_needs_doc (lines : List Line) :
    ∀ (items : List NoSQL.Item) (totalAmount : ℚ) (processedItems : List OrderItem)
      (faults : List Bool) (items1 : List NoSQL.Item) (total1 : ℚ)
      (processed1 : List OrderItem) (faults1 : List Bool),
      NoSQL.processLines lines items totalAmount processedItems faults
        = .finished items1 total1 processed1 faults1 →
      (items.map (fun i => i._id)).Nodup →
      (∀ l ∈ lines, invalidLine l = false)
      ∧ (∀ l ∈ lines, ∀ itemId, l.itemId = some itemId → itemId ∈ items.map (fun i => i._id))
      ∧ (∀ i ∈ items, (∃ l ∈ lines, l.itemId = some i._id) →
          requested lines i._id ≤ i.stockQuantity) := by
  induction lines with
  | nil =>
    intro items t p f items1 t1 p1 f1 _ _
    exact ⟨by simp, by simp, by simp⟩
  | cons l rest ih =>
    intro items t p f items1 t1 p1 f1 h hk
    unfold NoSQL.processLines at h
    split at h
    · exact absurd h (by simp)
    rename_i hv
    obtain ⟨id, q, e1, e2, _, hq⟩ := validLine_fields hv
    simp only [e1, e2, Option.getD_some] at h
    split at h
    · exact absurd h (by simp)
    split at h
    · exact absurd h (by simp)
    rename_i item hfind
    split at h
    · exact absurd h (by simp)
    rename_i hstock
    split at h
    · exact absurd h (by simp)
    have hitem := NoSQL.findById_some_doc hfind
    have hmap := NoSQL.save_eq_map_doc id q item items hk hfind
    have hk1 : ((NoSQL.save items { item with stockQuantity := item.stockQuantity - q }).map
        (fun i => i._id)).Nodup := by rw [NoSQL.save_ids_doc]; exact hk
    obtain ⟨v, ex, st⟩ := ih _ _ _ _ _ _ _ _ h hk1
    have hvl : invalidLine l = false := by simpa using hv
    refine ⟨?_, ?_, ?_⟩
    · intro x hx
      rcases List.mem_cons.1 hx with e | hx
      · rw [e]; exact hvl
      · exact v x hx
    · intro x hx xid exid
      rcases List.mem_cons.1 hx with e | hx
      · rw [e, e1] at exid
        injection exid with exid
        rw [← exid]
        exact List.mem_map.2 ⟨item, hitem.1, hitem.2⟩
      · have := ex x hx xid exid
        rwa [NoSQL.save_ids_doc] at this
    · intro i hi href
      rw [requested_cons, e1, e2]
      simp only [Option.getD_some]
      have hdec : (if i._id = id then { i with stockQuantity := i.stockQuantity - q } else i)
          ∈ NoSQL.save items { item with stockQuantity := item.stockQuantity - q } := by
        rw [hmap]; exact List.mem_map.2 ⟨i, hi, rfl⟩
      by_cases hid : i._id = id
      · have hsame : i = item :=
          List.inj_on_of_nodup_map hk hi hitem.1 (hid.trans hitem.2.symm)
        rw [if_pos hid] at hdec
        have e3 : (some id : Option String) = some i._id := by rw [hid]
        rw [if_pos e3]
        by_cases hrest : ∃ x ∈ rest, x.itemId = some i._id
        · have := st _ hdec hrest
          simp only at this
          omega
        · have h0 : requested rest i._id = 0 :=
            requested_of_not_referenced rest i._id (fun x hx e => hrest ⟨x, hx, e⟩)
          rw [h0, hsame]
          omega
      · rw [if_neg hid] at hdec
        have e3 : ¬ (some id : Option String) = some i._id := by
          intro e; injection e with e; exact hid e.symm
        rw [if_neg e3]
        have hrest : ∃ x ∈ rest, x.itemId = some i._id := by
          obtain ⟨x, hx, e⟩ := href
          rcases List.mem_cons.1 hx with e4 | hx
          · rw [e4, e1] at e; exact absurd e e3
          · exact ⟨x, hx, e⟩
        have := st _ hdec hrest
        omega

/-- A request that meets the conditions runs the document-store loop to the end. -/
theorem NoSQL.processLines_finishes_doc (lines : List Line) :
    ∀ (items : List NoSQL.Item) (totalAmount : ℚ) (processedItems : List OrderItem)
      (faults : List Bool),
      calm faults = true →
      (items.map (fun i => i._id)).Nodup →
      (∀ l ∈ lines, invalidLine l = false) →
      (∀ l ∈ lines, ∀ itemId, l.itemId = some itemId → itemId ∈ items.map (fun i => i._id)) →
      (∀ i ∈ items, (∃ l ∈ lines, l.itemId = some i._id) →
          requested lines i._id ≤ i.stockQuantity) →
      ∃ items1 total1 processed1 faults1,
        NoSQL.processLines lines items totalAmount processedItems faults
          = .finished items1 total1 processed1 faults1 ∧ calm faults1 = true := by
  induction lines with
  | nil =>
    intro items t p f hc _ _ _ _
    exact ⟨items, t, p, f, rfl, hc⟩
  | cons l rest ih =>
    intro items t p f hc hk hv hex hst
    have hvl := hv l (List.mem_cons_self _ _)
    have hvl1 : ¬ invalidLine l = true := by rw [hvl]; simp
    obtain ⟨id, q, e1, e2, _, hq⟩ := validLine_fields hvl1
    have hidm := hex l (List.mem_cons_self _ _) id e1
    obtain ⟨item0, hitem0, hid0⟩ := List.mem_map.1 hidm
    have hfind0 : ∃ item, NoSQL.findById items id = some item := by
      cases hf : NoSQL.findById items id with
      | none =>
        unfold NoSQL.findById at hf
        have := List.find?_eq_none.1 hf item0 hitem0
        simp [hid0] at this
      | some item => exact ⟨item, rfl⟩
    obtain ⟨item, hfind⟩ := hfind0
    have hitem := NoSQL.findById_some_doc hfind
    have hmap := NoSQL.save_eq_map_doc id q item items hk hfind
    have hvr : ∀ x ∈ rest, invalidLine x = false := fun x hx => hv x (List.mem_cons_of_mem _ hx)
    have hreq : requested (l :: rest) id ≤ item.stockQuantity := by
      have := hst item hitem.1 ⟨l, List.mem_cons_self _ _, by rw [e1, hitem.2]⟩
      rwa [hitem.2] at this
    have hge : ¬ item.stockQuantity < q := by
      rw [requested_cons, e1, e2] at hreq
      simp only [if_true, Option.getD_some] at hreq
      have := requested_nonneg rest hvr id
      omega
    have hk1 : ((NoSQL.save items { item with stockQuantity := item.stockQuantity - q }).map
        (fun i => i._id)).Nodup := by rw [NoSQL.save_ids_doc]; exact hk
    have hrec := ih (NoSQL.save items { item with stockQuantity := item.stockQuantity - q })
      (t + item.price * q) (p ++ [⟨item._id, item.name, item.price, q⟩]) f.tail.tail (calm_tail (calm_tail hc)) hk1 hvr
      (by
        intro x hx xid exid
        rw [NoSQL.save_ids_doc]
        exact hex x (List.mem_cons_of_mem _ hx) xid exid)
      (by
        intro i1 hi1 href
        rw [hmap] at hi1
        obtain ⟨i, hi, rfl⟩ := List.mem_map.1 hi1
        by_cases hid : i._id = id
        · rw [if_pos hid] at href ⊢
          have href1 : ∃ x ∈ l :: rest, x.itemId = some i._id := by
            obtain ⟨x, hx, e⟩ := href
            exact ⟨x, List.mem_cons_of_mem _ hx, e⟩
          have := hst i hi href1
          rw [requested_cons, e1, e2, hid] at this
          simp only [if_true, Option.getD_some] at this
          simp only
          rw [hid]
          omega
        · rw [if_neg hid] at href ⊢
          have href1 : ∃ x ∈ l :: rest, x.itemId = some i._id := by
            obtain ⟨x, hx, e⟩ := href
            exact ⟨x, List.mem_cons_of_mem _ hx, e⟩
          have := hst i hi href1
          have e3 : ¬ (some id : Option String) = some i._id := by
            intro e; injection e with e; exact hid e.symm
          rw [requested_cons, e1, if_neg e3] at this
          omega)
    obtain ⟨items1, t1, p1, f1, hrun, hc1⟩ := hrec
    refine ⟨items1, t1, p1, f1, ?_, hc1⟩
    unfold NoSQL.processLines
    rw [if_neg hvl1]
    simp only [e1, e2, Option.getD_some]
    rw [calm_throws hc, calm_throws (calm_tail hc), hfind]
    simp only [Bool.false_eq_true, if_false, if_neg hge]
    exact hrun

/-- What a run of the relational loop to the end tells about the request. -/
theorem SQL.processLines_needs_rel (snapshot : SQL.Db) (lines : List Line) :
    ∀ (db : SQL.Db) (totalAmount : ℚ) (processedItems : List OrderItem)
      (faults : List Bool) (db1 : SQL.Db) (total1 : ℚ)
      (processed1 : List OrderItem) (faults1 : List Bool),
      SQL.processLines snapshot lines db totalAmount processedItems faults
        = .finished db1 total1 processed1 faults1 →
      (db.Items.map (fun r => r.item_id)).Nodup →
      (∀ l ∈ lines, invalidLine l = false)
      ∧ (∀ l ∈ lines, ∀ itemId, l.itemId = some itemId →
          itemId ∈ db.Items.map (fun r => r.item_id))
      ∧ (∀ r ∈ db.Items, (∃ l ∈ lines, l.itemId = some r.item_id) →
          requested lines r.item_id ≤ r.stock_quantity) := by
  induction lines with
  | nil =>
    intro db t p f db1 t1 p1 f1 _ _
    exact ⟨by simp, by simp, by simp⟩
  | cons l rest ih =>
    intro db t p f db1 t1 p1 f1 h hk
    unfold SQL.processLines at h
    split at h
    · exact absurd h (by simp)
    rename_i hv
    obtain ⟨id, q, e1, e2, _, hq⟩ := validLine_fields hv
    simp only [e1, e2, Option.getD_some] at h
    split at h
    · exact absurd h (by simp)
    split at h
    · exact absurd h (by simp)
    rename_i item hfind
    split at h
    · exact absurd h (by simp)
    rename_i hstock
    split at h
    · exact absurd h (by simp)
    have hitem := SQL.selectItem_head_rel hfind
    have hk1 : ((SQL.updateStock db q id).Items.map (fun r => r.item_id)).Nodup := by
      rw [SQL.updateStock_ids_rel]; exact hk
    obtain ⟨v, ex, st⟩ := ih _ _ _ _ _ _ _ _ h hk1
    have hvl : invalidLine l = false := by simpa using hv
    refine ⟨?_, ?_, ?_⟩
    · intro x hx
      rcases List.mem_cons.1 hx with e | hx
      · rw [e]; exact hvl
      · exact v x hx
    · intro x hx xid exid
      rcases List.mem_cons.1 hx with e | hx
      · rw [e, e1] at exid
        injection exid with exid
        rw [← exid]
        exact List.mem_map.2 ⟨item, hitem.1, hitem.2⟩
      · have := ex x hx xid exid
        rwa [SQL.updateStock_ids_rel] at this
    · intro i hi href
      rw [requested_cons, e1, e2]
      simp only [Option.getD_some]
      have hdec : (if i.item_id = id then { i with stock_quantity := i.stock_quantity - q }
          else i) ∈ (SQL.updateStock db q id).Items :=
        List.mem_map.2 ⟨i, hi, rfl⟩
      by_cases hid : i.item_id = id
      · have hsame : i = item :=
          List.inj_on_of_nodup_map hk hi hitem.1 (hid.trans hitem.2.symm)
        rw [if_pos hid] at hdec
        have e3 : (some id : Option String) = some i.item_id := by rw [hid]
        rw [if_pos e3]
        by_cases hrest : ∃ x ∈ rest, x.itemId = some i.item_id
        · have := st _ hdec hrest
          simp only at this
          omega
        · have h0 : requested rest i.item_id = 0 :=
            requested_of_not_referenced rest i.item_id (fun x hx e => hrest ⟨x, hx, e⟩)
          rw [h0, hsame]
          omega
      · rw [if_neg hid] at hdec
        have e3 : ¬ (some id : Option String) = some i.item_id := by
          intro e; injection e with e; exact hid e.symm
        rw [if_neg e3]
        have hrest : ∃ x ∈ rest, x.itemId = some i.item_id := by
          obtain ⟨x, hx, e⟩ := href
          rcases List.mem_cons.1 hx with e4 | hx
          · rw [e4, e1] at e; exact absurd e e3
          · exact ⟨x, hx, e⟩
        have := st _ hdec hrest
        omega

/-- A request that meets the conditions runs the relational loop to the end. -/
theorem SQL.processLines_finishes_rel (snapshot : SQL.Db) (lines : List Line) :
    ∀ (db : SQL.Db) (totalAmount : ℚ) (processedItems : List OrderItem)
      (faults : List Bool),
      calm faults = true →
      (db.Items.map (fun r => r.item_id)).Nodup →
      (∀ l ∈ lines, invalidLine l = false) →
      (∀ l ∈ lines, ∀ itemId, l.itemId = some itemId →
          itemId ∈ db.Items.map (fun r => r.item_id)) →
      (∀ r ∈ db.Items, (∃ l ∈ lines, l.itemId = some r.item_id) →
          requested lines r.item_id ≤ r.stock_quantity) →
      ∃ db1 total1 processed1 faults1,
        SQL.processLines snapshot lines db totalAmount processedItems faults
          = .finished db1 total1 processed1 faults1 ∧ calm faults1 = true := by
  induction lines with
  | nil =>
    intro db t p f hc _ _ _ _
    exact ⟨db, t, p, f, rfl, hc⟩
  | cons l rest ih =>
    intro db t p f hc hk hv hex hst
    have hvl := hv l (List.mem_cons_self _ _)
    have hvl1 : ¬ invalidLine l = true := by rw [hvl]; simp
    obtain ⟨id, q, e1, e2, _, hq⟩ := validLine_fields hvl1
    have hidm := hex l (List.mem_cons_self _ _) id e1
    obtain ⟨item0, hitem0, hid0⟩ := List.mem_map.1 hidm
    have hfind0 : ∃ item, (SQL.selectItem db id).head? = some item := by
      cases hf : (SQL.selectItem db id).head? with
      | none =>
        rw [List.head?_eq_none_iff] at hf
        have hm : item0 ∈ SQL.selectItem db id := by
          unfold SQL.selectItem
          exact List.mem_filter.2 ⟨hitem0, by simpa using hid0⟩
        rw [hf] at hm
        exact absurd hm (List.not_mem_nil _)
      | some item => exact ⟨item, rfl⟩
    obtain ⟨item, hfind⟩ := hfind0
    have hitem := SQL.selectItem_head_rel hfind
    have hvr : ∀ x ∈ rest, invalidLine x = false := fun x hx => hv x (List.mem_cons_of_mem _ hx)
    have hreq : requested (l :: rest) id ≤ item.stock_quantity := by
      have := hst item hitem.1 ⟨l, List.mem_cons_self _ _, by rw [e1, hitem.2]⟩
      rwa [hitem.2] at this
    have hge : ¬ item.stock_quantity < q := by
      rw [requested_cons, e1, e2] at hreq
      simp only [if_true, Option.getD_some] at hreq
      have := requested_nonneg rest hvr id
      omega
    have hk1 : ((SQL.updateStock db q id).Items.map (fun r => r.item_id)).Nodup := by
      rw [SQL.updateStock_ids_rel]; exact hk
    have hrec := ih (SQL.updateStock db q id)
      (t + item.price * q) (p ++ [⟨item.item_id, item.name, item.price, q⟩]) f.tail.tail
      (calm_tail (calm_tail hc)) hk1 hvr
      (by
        intro x hx xid exid
        rw [SQL.updateStock_ids_rel]
        exact hex x (List.mem_cons_of_mem _ hx) xid exid)
      (by
        intro i1 hi1 href
        obtain ⟨i, hi, rfl⟩ := List.mem_map.1 hi1
        by_cases hid : i.item_id = id
        · rw [if_pos hid] at href ⊢
          have href1 : ∃ x ∈ l :: rest, x.itemId = some i.item_id := by
            obtain ⟨x, hx, e⟩ := href
            exact ⟨x, List.mem_cons_of_mem _ hx, e⟩
          have := hst i hi href1
          rw [requested_cons, e1, e2, hid] at this
          simp only [if_true, Option.getD_some] at this
          simp only
          rw [hid]
          omega
        · rw [if_neg hid] at href ⊢
          have href1 : ∃ x ∈ l :: rest, x.itemId = some i.item_id := by
            obtain ⟨x, hx, e⟩ := href
            exact ⟨x, List.mem_cons_of_mem _ hx, e⟩
          have := hst i hi href1
          have e3 : ¬ (some id : Option String) = some i.item_id := by
            intro e; injection e with e; exact hid e.symm
          rw [requested_cons, e1, if_neg e3] at this
          omega)
    obtain ⟨db1, t1, p1, f1, hrun, hc1⟩ := hrec
    refine ⟨db1, t1, p1, f1, ?_, hc1⟩
    unfold SQL.processLines
    rw [if_neg hvl1]
    simp only [e1, e2, Option.getD_some]
    rw [calm_throws hc, calm_throws (calm_tail hc), hfind]
    simp only [Bool.false_eq_true, if_false, if_neg hge]
    exact hrun

theorem SQL.insertOrderItems_calm_rel (orderId : Nat) (ps : List OrderItem) :
    ∀ (db : SQL.Db) (faults : List Bool), calm faults = true →
      ∃ db3 faults3, SQL.insertOrderItems orderId ps db faults = some (db3, faults3)
        ∧ calm faults3 = true := by
  induction ps with
  | nil => intro db f hc; exact ⟨db, f, rfl, hc⟩
  | cons p rest ih =>
    intro db f hc
    obtain ⟨db3, f3, h, hc3⟩ := ih (SQL.insertOrderItem db orderId p) f.tail (calm_tail hc)
    refine ⟨db3, f3, ?_, hc3⟩
    unfold SQL.insertOrderItems
    rw [calm_throws hc]
    simpa using h

theorem orderable_all_iff (stocks : List (String × Int)) (body : Body)
    (h : ∀ s ∈ stocks, 0 ≤ s.2) : Orderable stocks body ↔ OrderableAll stocks body := by
  constructor
  · rintro ⟨lines, hb, hne, hv, hex, hst⟩
    refine ⟨lines, hb, hne, hv, hex, ?_⟩
    intro s hs
    by_cases href : ∃ l ∈ lines, l.itemId = some s.1
    · exact hst s hs href
    · rw [requested_of_not_referenced lines s.1 (fun x hx e => href ⟨x, hx, e⟩)]
      exact h s hs
  · rintro ⟨lines, hb, hne, hv, hex, hst⟩
    exact ⟨lines, hb, hne, hv, hex, fun s hs _ => hst s hs⟩

theorem invalidLine_iff_fields (l : Line) :
    invalidLine l = false
      ↔ ∃ itemId quantity,
          l.itemId = some itemId ∧ itemId ≠ "" ∧ l.quantity = some quantity ∧ 1 ≤ quantity := by
  constructor
  · intro h
    have h1 : ¬ invalidLine l = true := by rw [h]; simp
    obtain ⟨i, q, e1, e2, hi, hq⟩ := validLine_fields h1
    exact ⟨i, q, e1, hi, e2, hq⟩
  · rintro ⟨i, q, e1, hi, e2, hq⟩
    obtain ⟨a, b⟩ := l
    simp only at e1 e2
    subst e1 e2
    exact invalidLine_of_fields hi hq

theorem noItems_iff (body : Body) :
    noItems body = false ↔ ∃ lines, body.items = some lines ∧ lines ≠ [] := by
  obtain ⟨items⟩ := body
  cases items with
  | none => simp [noItems]
  | some ls => cases ls <;> simp [noItems]

theorem NoSQL.placeOrder_succeeds_doc (env : Env) (st : NoSQL.Store) (user : Caller)
    (body : Body) (hu : user.role = "user" ∧ user.type = "user")
    (hc : calm env.faults = true) (hk : (st.items.map (fun i => i._id)).Nodup) :
    (NoSQL.placeOrder env st user body).2.status = 201 ↔ Orderable (NoSQL.stocks st) body := by
  constructor
  · intro h201
    rcases NoSQL.placeOrder_cases_doc env st user body with hfail | hok
    · exact absurd h201 hfail.1
    · obtain ⟨items, total, processed, faults, _, hn, hrun, _⟩ := hok
      obtain ⟨lines, hb, hne⟩ := (noItems_iff body).1 hn
      rw [hb] at hrun
      simp only [Option.getD_some] at hrun
      obtain ⟨hv, hex, hst⟩ := NoSQL.processLines_needs_doc lines _ _ _ _ _ _ _ _ hrun hk
      refine ⟨lines, hb, hne, fun l hl => (invalidLine_iff_fields l).1 (hv l hl), ?_, ?_⟩
      · intro l hl id e
        obtain ⟨i, hi, hid⟩ := List.mem_map.1 (hex l hl id e)
        exact ⟨(i._id, i.stockQuantity), List.mem_map.2 ⟨i, hi, rfl⟩, hid⟩
      · intro s hs href
        obtain ⟨i, hi, rfl⟩ := List.mem_map.1 hs
        exact hst i hi href
  · rintro ⟨lines, hb, hne, hv, hex, hst⟩
    obtain ⟨items1, t1, p1, f1, hrun, hc1⟩ :=
      NoSQL.processLines_finishes_doc lines st.items 0 [] env.faults hc hk
        (fun l hl => (invalidLine_iff_fields l).2 (hv l hl))
        (by
          intro l hl id e
          obtain ⟨s, hs, hid⟩ := hex l hl id e
          obtain ⟨i, hi, rfl⟩ := List.mem_map.1 hs
          exact List.mem_map.2 ⟨i, hi, hid⟩)
        (fun i hi href => hst (i._id, i.stockQuantity) (List.mem_map.2 ⟨i, hi, rfl⟩) href)
    have hn : noItems body = false := (noItems_iff body).2 ⟨lines, hb, hne⟩
    unfold NoSQL.placeOrder
    rw [notRegularUser_of_user hu, hn, hb]
    simp only [Bool.false_eq_true, if_false, Option.getD_some, hrun, calm_throws hc1]

theorem SQL.placeOrder_succeeds_rel (env : Env) (db : SQL.Db) (user : Caller)
    (body : Body) (hu : user.role = "user" ∧ user.type = "user")
    (hc : calm env.faults = true) (hk : (db.Items.map (fun r => r.item_id)).Nodup) :
    (SQL.placeOrder env db user body).2.status = 201 ↔ Orderable (SQL.stocks db) body := by
  constructor
  · intro h201
    rcases SQL.placeOrder_cases_rel env db user body with hfail | hok
    · exact absurd h201 hfail.1
    · obtain ⟨db1, total, processed, faults, db3, f3, _, hn, hrun, _⟩ := hok
      obtain ⟨lines, hb, hne⟩ := (noItems_iff body).1 hn
      rw [hb] at hrun
      simp only [Option.getD_some] at hrun
      obtain ⟨hv, hex, hst⟩ := SQL.processLines_needs_rel db lines _ _ _ _ _ _ _ _ hrun hk
      refine ⟨lines, hb, hne, fun l hl => (invalidLine_iff_fields l).1 (hv l hl), ?_, ?_⟩
      · intro l hl id e
        obtain ⟨i, hi, hid⟩ := List.mem_map.1 (hex l hl id e)
        exact ⟨(i.item_id, i.stock_quantity), List.mem_map.2 ⟨i, hi, rfl⟩, hid⟩
      · intro s hs href
        obtain ⟨i, hi, rfl⟩ := List.mem_map.1 hs
        exact hst i hi href
  · rintro ⟨lines, hb, hne, hv, hex, hst⟩
    obtain ⟨db1, t1, p1, f1, hrun, hc1⟩ :=
      SQL.processLines_finishes_rel db lines db 0 [] env.faults.tail.tail
        (calm_tail (calm_tail hc)) hk
        (fun l hl => (invalidLine_iff_fields l).2 (hv l hl))
        (by
          intro l hl id e
          obtain ⟨s, hs, hid⟩ := hex l hl id e
          obtain ⟨i, hi, rfl⟩ := List.mem_map.1 hs
          exact List.mem_map.2 ⟨i, hi, hid⟩)
        (fun i hi href => hst (i.item_id, i.stock_quantity) (List.mem_map.2 ⟨i, hi, rfl⟩) href)
    obtain ⟨db3, f3, hins, hc3⟩ := SQL.insertOrderItems_calm_rel db1.nextOrderId p1
      (SQL.insertOrder env db1 user.id t1 "pending") f1.tail (calm_tail hc1)
    have hn : noItems body = false := (noItems_iff body).2 ⟨lines, hb, hne⟩
    unfold SQL.placeOrder
    rw [notRegularUser_of_user hu, hn, hb, calm_throws hc, calm_throws (calm_tail hc)]
    simp only [Bool.false_eq_true, if_false, Option.getD_some, hrun, calm_throws hc1, hins,
      calm_throws hc3]

/-- C29.  For a regular user whose quantities are integers, with unique item
identifiers and a store that answers every call, `placeOrder` answers 201 if and
only if the line list is there and not empty, every line has an item identifier
and a quantity of at least 1, every referenced item exists, and the lines that
reference an item ask together for no more than its stock before the request;
where no stock is negative, the bound holds of the unreferenced items as well,
so that it may be asked of every item. -/
theorem placeOrder_succeeds_iff (env : Env) (st : NoSQL.Store) (db : SQL.Db) (user : Caller)
    (body : Body) :
    (user.role = "user" ∧ user.type = "user" → calm env.faults = true →
      (st.items.map (fun i => i._id)).Nodup →
      ((NoSQL.placeOrder env st user body).2.status = 201 ↔ Orderable (NoSQL.stocks st) body)
      ∧ ((∀ i ∈ st.items, 0 ≤ i.stockQuantity) →
        ((NoSQL.placeOrder env st user body).2.status = 201
          ↔ OrderableAll (NoSQL.stocks st) body)))
    ∧ (user.role = "user" ∧ user.type = "user" → calm env.faults = true →
      (db.Items.map (fun r => r.item_id)).Nodup →
      ((SQL.placeOrder env db user body).2.status = 201 ↔ Orderable (SQL.stocks db) body)
      ∧ ((∀ r ∈ db.Items, 0 ≤ r.stock_quantity) →
        ((SQL.placeOrder env db user body).2.status = 201
          ↔ OrderableAll (SQL.stocks db) body))) := by
  constructor
  · intro hu hc hk
    have h := NoSQL.placeOrder_succeeds_doc env st user body hu hc hk
    refine ⟨h, fun hs => h.trans (orderable_all_iff _ body ?_)⟩
    intro s hm
    obtain ⟨i, hi, rfl⟩ := List.mem_map.1 hm
    exact hs i hi
  · intro hu hc hk
    have h := SQL.placeOrder_succeeds_rel env db user body hu hc hk
    refine ⟨h, fun hs => h.trans (orderable_all_iff _ body ?_)⟩
    intro s hm
    obtain ⟨i, hi, rfl⟩ := List.mem_map.1 hm
    exact hs i hi

/-- C29 at the spec scenario: the order of 3 of item A, which has 5 in stock, meets
the conditions and is answered 201 in both variants. -/
theorem placeOrder_succeeds_iff_witness :
    ((demoUser.role = "user" ∧ demoUser.type = "user") ∧ calm demoEnv.faults = true
      ∧ (NoSQL.demoStore.items.map (fun i => i._id)).Nodup
      ∧ (SQL.demoDb.Items.map (fun r => r.item_id)).Nodup)
    ∧ ((NoSQL.placeOrder demoEnv NoSQL.demoStore demoUser demoBody).2.status = 201
      ∧ (SQL.placeOrder demoEnv SQL.demoDb demoUser demoBody).2.status = 201)
    ∧ ((NoSQL.placeOrder demoEnv NoSQL.demoStore demoUser demoBody).2.status = 201
        ↔ Orderable (NoSQL.stocks NoSQL.demoStore) demoBody)
    ∧ ((SQL.placeOrder demoEnv SQL.demoDb demoUser demoBody).2.status = 201
        ↔ Orderable (SQL.stocks SQL.demoDb) demoBody) :=
  ⟨⟨⟨rfl, rfl⟩, rfl, by decide, by decide⟩, ⟨by decide, by decide⟩,
   ((placeOrder_succeeds_iff demoEnv NoSQL.demoStore SQL.demoDb demoUser demoBody).1
      ⟨rfl, rfl⟩ rfl (by decide)).1,
   ((placeOrder_succeeds_iff demoEnv NoSQL.demoStore SQL.demoDb demoUser demoBody).2
      ⟨rfl, rfl⟩ rfl (by decide)).1⟩

end Success

/-! ## Which requests write stock -/

section Stock

theorem notRaised_refl (stocks : List (String × Int)) : NotRaised stocks stocks :=
  List.forall₂_same.2 (fun _ _ => ⟨rfl, le_refl _⟩)

theorem notRaised_trans {a b c : List (String × Int)} (h1 : NotRaised a b)
    (h2 : NotRaised b c) : NotRaised a c := by
  unfold NotRaised at *
  induction h1 generalizing c with
  | nil => cases h2; exact List.Forall₂.nil
  | cons hab _ ih =>
    cases h2 with
    | cons hbc t2 =>
      exact List.Forall₂.cons ⟨hbc.1.trans hab.1, le_trans hbc.2 hab.2⟩ (ih t2)

theorem NoSQL.save_notRaised_doc (itemId : String) (quantity : Int) (hq : 0 ≤ quantity)
    (item : NoSQL.Item) :
    ∀ (items : List NoSQL.Item), NoSQL.findById items itemId = some item →
      NotRaised (items.map (fun i => (i._id, i.stockQuantity)))
        ((NoSQL.save items { item with stockQuantity := item.stockQuantity - quantity }).map
          (fun i => (i._id, i.stockQuantity))) := by
  intro items
  induction items with
  | nil => intro h; simp [NoSQL.findById] at h
  | cons a rest ih =>
    intro hf
    have hid := (NoSQL.findById_some_doc hf).2
    by_cases ha : a._id = itemId
    · have hitem : item = a := by
        unfold NoSQL.findById at hf
        rw [List.find?_cons_of_pos] at hf
        · injection hf with hf; exact hf.symm
        · simpa using ha
      subst hitem
      unfold NoSQL.save
      rw [if_pos rfl]
      refine List.Forall₂.cons ⟨rfl, ?_⟩ (notRaised_refl _)
      show item.stockQuantity - quantity ≤ item.stockQuantity
      omega
    · have hf1 : NoSQL.findById rest itemId = some item := by
        unfold NoSQL.findById at hf ⊢
        rwa [List.find?_cons_of_neg] at hf
        simpa using ha
      unfold NoSQL.save
      have hne : ¬ a._id = item._id := by rw [hid]; exact ha
      rw [if_neg hne]
      exact List.Forall₂.cons ⟨rfl, le_refl _⟩ (ih hf1)

/-- The document-store loop raises no stock, however it ends. -/
theorem NoSQL.processLines_notRaised_doc (lines : List Line) :
    ∀ (items : List NoSQL.Item) (totalAmount : ℚ) (processedItems : List OrderItem)
      (faults : List Bool),
      NotRaised (items.map (fun i => (i._id, i.stockQuantity)))
        ((NoSQL.processLines lines items totalAmount processedItems faults).items.map
          (fun i => (i._id, i.stockQuantity))) := by
  induction lines with
  | nil => intro items t p f; exact notRaised_refl _
  | cons l rest ih =>
    intro items t p f
    unfold NoSQL.processLines
    split
    · exact notRaised_refl _
    rename_i hv
    obtain ⟨id, q, e1, e2, _, hq⟩ := validLine_fields hv
    simp only [e1, e2, Option.getD_some]
    split
    · exact notRaised_refl _
    split
    · exact notRaised_refl _
    rename_i item hfind
    split
    · exact notRaised_refl _
    split
    · exact notRaised_refl _
    exact notRaised_trans (NoSQL.save_notRaised_doc id q (by omega) item items hfind) (ih _ _ _ _)

theorem NoSQL.placeOrder_notRaised_doc (env : Env) (st : NoSQL.Store) (user : Caller)
    (body : Body) :
    NotRaised (NoSQL.stocks st) (NoSQL.stocks (NoSQL.placeOrder env st user body).1) := by
  have hloop := NoSQL.processLines_notRaised_doc (body.items.getD []) st.items 0 [] env.faults
  rcases NoSQL.placeOrder_cases_doc env st user body with hfail | hok
  · rcases hfail.2.2.2 with e | e
    · unfold NoSQL.stocks; rw [e]; exact notRaised_refl _
    · unfold NoSQL.stocks; rw [e]; exact hloop
  · obtain ⟨items, total, processed, faults, _, _, hrun, heq⟩ := hok
    rw [hrun] at hloop
    unfold NoSQL.stocks
    rw [heq]
    exact hloop

/-- The relational loop, run to the end, raises no stock. -/
theorem SQL.processLines_notRaised_rel (snapshot : SQL.Db) (lines : List Line) :
    ∀ (db : SQL.Db) (totalAmount : ℚ) (processedItems : List OrderItem)
      (faults : List Bool) (db1 : SQL.Db) (total1 : ℚ) (processed1 : List OrderItem)
      (faults1 : List Bool),
      SQL.processLines snapshot lines db totalAmount processedItems faults
        = .finished db1 total1 processed1 faults1 →
      NotRaised (SQL.stocks db) (SQL.stocks db1) := by
  induction lines with
  | nil =>
    intro db t p f db1 t1 p1 f1 h
    simp only [SQL.processLines] at h
    injection h with e1 _ _ _
    rw [e1]; exact notRaised_refl _
  | cons l rest ih =>
    intro db t p f db1 t1 p1 f1 h
    unfold SQL.processLines at h
    split at h
    · exact absurd h (by simp)
    rename_i hv
    obtain ⟨id, q, e1, e2, _, hq⟩ := validLine_fields hv
    simp only [e1, e2, Option.getD_some] at h
    split at h
    · exact absurd h (by simp)
    split at h
    · exact absurd h (by simp)
    split at h
    · exact absurd h (by simp)
    split at h
    · exact absurd h (by simp)
    refine notRaised_trans ?_ (ih _ _ _ _ _ _ _ _ h)
    unfold SQL.stocks SQL.updateStock NotRaised
    simp only [List.map_map]
    rw [List.forall₂_map_left_iff, List.forall₂_map_right_iff, List.forall₂_same]
    intro r _
    simp only [Function.comp]
    split
    · exact ⟨rfl, by show r.stock_quantity - q ≤ r.stock_quantity; omega⟩
    · exact ⟨rfl, le_refl _⟩

theorem SQL.placeOrder_notRaised_rel (env : Env) (db : SQL.Db) (user : Caller) (body : Body) :
    NotRaised (SQL.stocks db) (SQL.stocks (SQL.placeOrder env db user body).1) := by
  rcases SQL.placeOrder_cases_rel env db user body with hfail | hok
  · unfold SQL.stocks; rw [hfail.2.2.1]; exact notRaised_refl _
  · obtain ⟨db1, total, processed, faults, db3, f3, _, _, hrun, hins, heq⟩ := hok
    have h1 := SQL.processLines_notRaised_rel db _ _ _ _ _ _ _ _ _ hrun
    have h3 := (SQL.insertOrderItems_spec_rel _ _ _ _ _ _ hins).1
    rw [heq]
    unfold SQL.stocks at h1 ⊢
    rw [h3]
    exact h1

theorem setTo_refl (itemId : String) (q : Int) (stocks : List (String × Int)) :
    SetTo itemId q stocks stocks :=
  List.forall₂_same.2 (fun _ _ => Or.inl rfl)

theorem NoSQL.findItemAndUpdate_kept_doc (body : ItemPatch) (hb : body.stockQuantity = none)
    (id : String) :
    ∀ (items items1 : List NoSQL.Item) (u : NoSQL.Item),
      NoSQL.findItemAndUpdate items id (NoSQL.applyUpdate body) = some (items1, u) →
      items1.map (fun i => (i._id, i.stockQuantity))
        = items.map (fun i => (i._id, i.stockQuantity)) := by
  intro items
  induction items with
  | nil => intro items1 u h; simp [NoSQL.findItemAndUpdate] at h
  | cons a rest ih =>
    intro items1 u h
    unfold NoSQL.findItemAndUpdate at h
    split at h
    · simp only [Option.some.injEq, Prod.mk.injEq] at h
      rw [← h.1]
      simp [NoSQL.applyUpdate, hb]
    · cases hr : NoSQL.findItemAndUpdate rest id (NoSQL.applyUpdate body) with
      | none => rw [hr] at h; simp at h
      | some r =>
        rw [hr] at h
        simp only [Option.map_some', Option.some.injEq, Prod.mk.injEq] at h
        rw [← h.1]
        simp only [List.map_cons, ih r.1 r.2 hr]

theorem NoSQL.findItemAndUpdate_set_doc (body : ItemPatch) (q : Int)
    (hb : body.stockQuantity = some q) (id : String) :
    ∀ (items items1 : List NoSQL.Item) (u : NoSQL.Item),
      NoSQL.findItemAndUpdate items id (NoSQL.applyUpdate body) = some (items1, u) →
      SetTo id q (items.map (fun i => (i._id, i.stockQuantity)))
        (items1.map (fun i => (i._id, i.stockQuantity))) := by
  intro items
  induction items with
  | nil => intro items1 u h; simp [NoSQL.findItemAndUpdate] at h
  | cons a rest ih =>
    intro items1 u h
    unfold NoSQL.findItemAndUpdate at h
    split at h
    · rename_i e
      simp only [Option.some.injEq, Prod.mk.injEq] at h
      rw [← h.1]
      refine List.Forall₂.cons (Or.inr ⟨e, ?_⟩) (setTo_refl _ _ _)
      simp [NoSQL.applyUpdate, hb, e]
    · cases hr : NoSQL.findItemAndUpdate rest id (NoSQL.applyUpdate body) with
      | none => rw [hr] at h; simp at h
      | some r =>
        rw [hr] at h
        simp only [Option.map_some', Option.some.injEq, Prod.mk.injEq] at h
        rw [← h.1]
        exact List.Forall₂.cons (Or.inl rfl) (ih r.1 r.2 hr)

theorem NoSQL.updateItem_cases_doc (env : Env) (categories : List String) (st : NoSQL.Store)
    (id : String) (body : ItemPatch) :
    (NoSQL.updateItem env categories st id body).1 = st
    ∨ ∃ items u, NoSQL.findItemAndUpdate st.items id (NoSQL.applyUpdate body) = some (items, u)
        ∧ (NoSQL.updateItem env categories st id body).1 = { st with items := items } := by
  unfold NoSQL.updateItem
  split
  · exact Or.inl rfl
  split
  · exact Or.inl rfl
  split
  · exact Or.inl rfl
  split
  · exact Or.inl rfl
  split
  · split
    · exact Or.inl rfl
    · split
      · exact Or.inl rfl
      · rename_i items u h
        exact Or.inr ⟨items, u, h, rfl⟩
  · split
    · exact Or.inl rfl
    · split
      · exact Or.inl rfl
      · rename_i items u h
        exact Or.inr ⟨items, u, h, rfl⟩

theorem NoSQL.updateItem_stocks_doc (env : Env) (categories : List String) (st : NoSQL.Store)
    (id : String) (body : ItemPatch) :
    (body.stockQuantity = none →
      NoSQL.stocks (NoSQL.updateItem env categories st id body).1 = NoSQL.stocks st)
    ∧ (∀ q, body.stockQuantity = some q →
      SetTo id q (NoSQL.stocks st) (NoSQL.stocks (NoSQL.updateItem env categories st id body).1))
      := by
  rcases NoSQL.updateItem_cases_doc env categories st id body with e | ⟨items, u, h, e⟩
  · rw [e]; exact ⟨fun _ => rfl, fun q _ => setTo_refl _ _ _⟩
  · rw [e]
    exact ⟨fun hb => NoSQL.findItemAndUpdate_kept_doc body hb id _ _ _ h,
      fun q hb => NoSQL.findItemAndUpdate_set_doc body q hb id _ _ _ h⟩

theorem NoSQL.findItemAndDelete_sublist_doc (id : String) :
    ∀ (items items1 : List NoSQL.Item) (u : NoSQL.Item),
      NoSQL.findItemAndDelete items id = some (items1, u) → items1.Sublist items := by
  intro items
  induction items with
  | nil => intro items1 u h; simp [NoSQL.findItemAndDelete] at h
  | cons a rest ih =>
    intro items1 u h
    unfold NoSQL.findItemAndDelete at h
    split at h
    · simp only [Option.some.injEq, Prod.mk.injEq] at h
      rw [← h.1]
      exact List.sublist_cons_self _ _
    · cases hr : NoSQL.findItemAndDelete rest id with
      | none => rw [hr] at h; simp at h
      | some r =>
        rw [hr] at h
        simp only [Option.map_some', Option.some.injEq, Prod.mk.injEq] at h
        rw [← h.1]
        exact (ih r.1 r.2 hr).cons₂ a

theorem NoSQL.deleteItem_stocks_doc (env : Env) (st : NoSQL.Store) (id : String) :
    (NoSQL.stocks (NoSQL.deleteItem env st id).1).Sublist (NoSQL.stocks st) := by
  unfold NoSQL.deleteItem
  split
  · exact List.Sublist.refl _
  split
  · exact List.Sublist.refl _
  · rename_i items u h
    exact (NoSQL.findItemAndDelete_sublist_doc id _ _ _ h).map _

theorem NoSQL.createItem_stocks_doc (env : Env) (categories : List String) (st : NoSQL.Store)
    (user : Caller) (body : ItemPatch) :
    NoSQL.stocks st <+: NoSQL.stocks (NoSQL.createItem env categories st user body).1 := by
  unfold NoSQL.createItem
  split
  · exact List.prefix_refl _
  split
  · exact List.prefix_refl _
  split
  · exact List.prefix_refl _
  split
  · exact List.prefix_refl _
  split
  · exact List.prefix_refl _
  · unfold NoSQL.stocks
    simp only [List.map_append]
    exact List.prefix_append _ _

theorem NoSQL.deleteUser_stocks_doc (env : Env) (site : NoSQL.Site) (userId : String) :
    NoSQL.stocks (NoSQL.deleteUser env site userId).1.store = NoSQL.stocks site.store := by
  unfold NoSQL.deleteUser
  split
  · rfl
  dsimp only
  split
  · rfl
  split <;> rfl

theorem NoSQL.deleteAdmin_stocks_doc (env : Env) (site : NoSQL.Site) (user : Caller)
    (adminId : String) :
    NoSQL.stocks (NoSQL.deleteAdmin env site user adminId).1.store = NoSQL.stocks site.store := by
  have hmap : (site.store.items.map (fun i =>
      if i.createdByAdminId = some adminId then { i with createdByAdminId := none } else i)).map
        (fun i => (i._id, i.stockQuantity))
      = site.store.items.map (fun i => (i._id, i.stockQuantity)) := by
    rw [List.map_map]
    apply List.map_congr_left
    intro i _
    simp only [Function.comp]
    split <;> rfl
  unfold NoSQL.deleteAdmin
  split
  · rfl
  split
  · rfl
  split
  · rfl
  dsimp only
  split
  · rfl
  split
  · exact hmap
  split <;> exact hmap

theorem SQL.updateItem_cases_rel (env : Env) (categories : List String) (db : SQL.Db)
    (itemId : String) (body : ItemPatch) :
    (SQL.updateItem env categories db itemId body).1 = db
    ∨ (SQL.updateItem env categories db itemId body).1
        = { db with Items := db.Items.map (fun r =>
            if r.item_id = itemId then SQL.applyUpdate body r else r) } := by
  unfold SQL.updateItem
  repeat' split
  all_goals first
    | exact Or.inl rfl
    | exact Or.inr rfl

theorem SQL.updateItem_stocks_rel (env : Env) (categories : List String) (db : SQL.Db)
    (itemId : String) (body : ItemPatch) :
    (body.stockQuantity = none →
      SQL.stocks (SQL.updateItem env categories db itemId body).1 = SQL.stocks db)
    ∧ (∀ q, body.stockQuantity = some q →
      SetTo itemId q (SQL.stocks db)
        (SQL.stocks (SQL.updateItem env categories db itemId body).1)) := by
  rcases SQL.updateItem_cases_rel env categories db itemId body with e | e
  · rw [e]; exact ⟨fun _ => rfl, fun q _ => setTo_refl _ _ _⟩
  · rw [e]
    constructor
    · intro hb
      unfold SQL.stocks
      simp only [List.map_map]
      apply List.map_congr_left
      intro r _
      simp only [Function.comp]
      split
      · simp [SQL.applyUpdate, hb]
      · rfl
    · intro q hb
      unfold SQL.stocks SetTo
      simp only [List.map_map]
      rw [List.forall₂_map_left_iff, List.forall₂_map_right_iff, List.forall₂_same]
      intro r _
      simp only [Function.comp]
      split
      · rename_i e1
        exact Or.inr ⟨e1, by simp [SQL.applyUpdate, hb, e1]⟩
      · exact Or.inl rfl

theorem SQL.deleteItem_stocks_rel (env : Env) (db : SQL.Db) (itemId : String) :
    (SQL.stocks (SQL.deleteItem env db itemId).1).Sublist (SQL.stocks db) := by
  unfold SQL.deleteItem
  split
  · split <;> exact List.Sublist.refl _
  split
  · exact List.Sublist.refl _
  · exact (List.filter_sublist _).map _

theorem SQL.createItem_stocks_rel (env : Env) (categories : List String) (db : SQL.Db)
    (user : Caller) (body : ItemPatch) :
    SQL.stocks db <+: SQL.stocks (SQL.createItem env categories db user body).1 := by
  unfold SQL.createItem
  split
  · exact List.prefix_refl _
  split
  · exact List.prefix_refl _
  split
  · exact List.prefix_refl _
  split
  · exact List.prefix_refl _
  split
  · exact List.prefix_refl _
  · unfold SQL.stocks
    simp only [List.map_append]
    exact List.prefix_append _ _

theorem SQL.deleteUser_stocks_rel (env : Env) (site : SQL.Site) (userId : String) :
    SQL.stocks (SQL.deleteUser env site userId).1.db = SQL.stocks site.db := by
  unfold SQL.deleteUser
  split
  · rfl
  split
  · rfl
  split
  · rfl
  dsimp only
  split
  · rfl
  split
  · rfl
  split
  · rfl
  split <;> rfl

theorem SQL.deleteAdmin_stocks_rel (env : Env) (site : SQL.Site) (user : Caller)
    (adminId : String) :
    SQL.stocks (SQL.deleteAdmin env site user adminId).1.db = SQL.stocks site.db := by
  have hmap : (site.db.Items.map (fun i =>
      if i.created_by = some adminId then { i with created_by := none } else i)).map
        (fun r => (r.item_id, r.stock_quantity))
      = site.db.Items.map (fun r => (r.item_id, r.stock_quantity)) := by
    rw [List.map_map]
    apply List.map_congr_left
    intro i _
    simp only [Function.comp]
    split <;> rfl
  unfold SQL.deleteAdmin
  split
  · rfl
  split
  · rfl
  split
  · rfl
  split
  · rfl
  split
  · rfl
  dsimp only
  split
  · rfl
  split
  · rfl
  split
  · rfl
  split
  · rfl
  · exact hmap

/-- C22, as stated, fails: an administrator's `PUT /api/items/A` with
`{ stockQuantity: 50 }` is an operation other than `placeOrder` that changes the
stock of item A, and raises it from 5 to 50, in both variants. -/
theorem putItem_raises_stock :
    (NoSQL.stocks NoSQL.demoStore = [("A", 5)]
      ∧ (NoSQL.putItem demoLater [] NoSQL.demoStore demoAdmin "A" demoRestock).2.status = 200
      ∧ NoSQL.stocks (NoSQL.putItem demoLater [] NoSQL.demoStore demoAdmin "A" demoRestock).1
          = [("A", 50)])
    ∧ (SQL.stocks SQL.demoDb = [("A", 5)]
      ∧ (SQL.putItem demoLater [] SQL.demoDb demoAdmin "A" demoRestock).2.status = 200
      ∧ SQL.stocks (SQL.putItem demoLater [] SQL.demoDb demoAdmin "A" demoRestock).1
          = [("A", 50)]) := by
  refine ⟨⟨by decide, by decide, by decide⟩, ⟨by decide, by decide, by decide⟩⟩

/-- C22, amended.  Stock is written by order placement and by the administrator's
item update only.  In both variants: `placeOrder` raises no item's stock,
however it ends; `PUT /api/items/:id` leaves every stock as it is when its body
carries no `stockQuantity`, and otherwise changes at most the stock of the item
it names, to the value of the body; a status change and the deletion of a user
or an administrator leave every stock as it is; item creation adds an item
after the existing ones and item deletion removes items, both without changing
the stock of another item; and the administrator gate in front of a handler
leaves the store as it is or as the handler does (listing is a read). -/
theorem stock_written_by_placement_and_update (env : Env) (categories : List String)
    (st : NoSQL.Store) (db : SQL.Db) (site : NoSQL.Site) (rel : SQL.Site) (user : Caller)
    (body : Body) (id : String) (orderId : Nat) (status : StatusBody) (patch : ItemPatch) :
    (NotRaised (NoSQL.stocks st) (NoSQL.stocks (NoSQL.placeOrder env st user body).1)
      ∧ NotRaised (SQL.stocks db) (SQL.stocks (SQL.placeOrder env db user body).1))
    ∧ (patch.stockQuantity = none →
        NoSQL.stocks (NoSQL.updateItem env categories st id patch).1 = NoSQL.stocks st
        ∧ SQL.stocks (SQL.updateItem env categories db id patch).1 = SQL.stocks db)
    ∧ (∀ q, patch.stockQuantity = some q →
        SetTo id q (NoSQL.stocks st) (NoSQL.stocks (NoSQL.updateItem env categories st id patch).1)
        ∧ SetTo id q (SQL.stocks db) (SQL.stocks (SQL.updateItem env categories db id patch).1))
    ∧ (NoSQL.stocks (NoSQL.setStatus env st user id status).1 = NoSQL.stocks st
      ∧ SQL.stocks (SQL.setStatus env db user orderId status).1 = SQL.stocks db)
    ∧ (NoSQL.stocks site.store = NoSQL.stocks (NoSQL.deleteUser env site id).1.store
      ∧ NoSQL.stocks site.store = NoSQL.stocks (NoSQL.deleteAdmin env site user id).1.store
      ∧ SQL.stocks rel.db = SQL.stocks (SQL.deleteUser env rel id).1.db
      ∧ SQL.stocks rel.db = SQL.stocks (SQL.deleteAdmin env rel user id).1.db)
    ∧ (NoSQL.stocks st <+: NoSQL.stocks (NoSQL.createItem env categories st user patch).1
      ∧ SQL.stocks db <+: SQL.stocks (SQL.createItem env categories db user patch).1)
    ∧ ((NoSQL.stocks (NoSQL.deleteItem env st id).1).Sublist (NoSQL.stocks st)
      ∧ (SQL.stocks (SQL.deleteItem env db id).1).Sublist (SQL.stocks db))
    ∧ ∀ (σ α : Type) (s : σ) (next : σ × Response α),
        (authorizeAdmin user s next).1 = s ∨ (authorizeAdmin user s next).1 = next.1 := by
  refine ⟨⟨NoSQL.placeOrder_notRaised_doc env st user body,
      SQL.placeOrder_notRaised_rel env db user body⟩, ?_, ?_, ⟨?_, ?_⟩,
    ⟨(NoSQL.deleteUser_stocks_doc env site id).symm,
      (NoSQL.deleteAdmin_stocks_doc env site user id).symm,
      (SQL.deleteUser_stocks_rel env rel id).symm,
      (SQL.deleteAdmin_stocks_rel env rel user id).symm⟩,
    ⟨NoSQL.createItem_stocks_doc env categories st user patch,
      SQL.createItem_stocks_rel env categories db user patch⟩,
    ⟨NoSQL.deleteItem_stocks_doc env st id, SQL.deleteItem_stocks_rel env db id⟩,
    fun σ α s next => authorizeAdmin_fst user s next⟩
  · intro hb
    exact ⟨(NoSQL.updateItem_stocks_doc env categories st id patch).1 hb,
      (SQL.updateItem_stocks_rel env categories db id patch).1 hb⟩
  · intro q hb
    exact ⟨(NoSQL.updateItem_stocks_doc env categories st id patch).2 q hb,
      (SQL.updateItem_stocks_rel env categories db id patch).2 q hb⟩
  · unfold NoSQL.stocks
    rw [(NoSQL.setStatus_frame_doc env st user id status).1]
  · unfold SQL.stocks
    rw [(SQL.setStatus_frame_rel env db user orderId status).1]

/-- C22, amended, at the spec scenario: a rename leaves the stock of item A at 5,
and an update that carries `stockQuantity: 50` changes only the stock of A. -/
theorem stock_written_by_placement_and_update_witness :
    (demoRename.stockQuantity = none ∧ demoRestock.stockQuantity = some 50)
    ∧ (NoSQL.stocks (NoSQL.updateItem demoLater [] NoSQL.demoStore "A" demoRename).1
          = NoSQL.stocks NoSQL.demoStore
        ∧ SQL.stocks (SQL.updateItem demoLater [] SQL.demoDb "A" demoRename).1
          = SQL.stocks SQL.demoDb)
    ∧ (SetTo "A" 50 (NoSQL.stocks NoSQL.demoStore)
          (NoSQL.stocks (NoSQL.updateItem demoLater [] NoSQL.demoStore "A" demoRestock).1)
        ∧ SetTo "A" 50 (SQL.stocks SQL.demoDb)
          (SQL.stocks (SQL.updateItem demoLater [] SQL.demoDb "A" demoRestock).1)) :=
  ⟨⟨rfl, rfl⟩,
   (stock_written_by_placement_and_update demoLater [] NoSQL.demoStore SQL.demoDb
      ⟨NoSQL.demoStore, [], []⟩ ⟨SQL.demoDb, [], []⟩ demoAdmin demoBody "A" 1
      ⟨some "approved"⟩ demoRename).2.1 rfl,
   (stock_written_by_placement_and_update demoLater [] NoSQL.demoStore SQL.demoDb
      ⟨NoSQL.demoStore, [], []⟩ ⟨SQL.demoDb, [], []⟩ demoAdmin demoBody "A" 1
      ⟨some "approved"⟩ demoRestock).2.2.1 50 rfl⟩

end Stock

/-! ## Properties of the file-backed item API -/

section Sizes

open FileApi

theorem FileApi.collectSizes_eq (values : List SizeValue) :
    ∀ acc : List String,
      collectSizes values acc
        = match values.findSome? offence with
          | some message => .error message
          | none => .ok (acc ++ normalized values) := by
  induction values with
  | nil => intro acc; simp [collectSizes, normalized]
  | cons v rest ih =>
    intro acc
    cases v with
    | other => simp [collectSizes, offence, List.findSome?]
    | string s =>
      by_cases h : validSizes.contains (trim (toLowerCase s)) = true
      · simp only [collectSizes, h, Bool.not_true, Bool.false_eq_true, if_false, ih,
          List.findSome?, offence, if_true]
        cases List.findSome? offence rest with
        | none => simp [normalized, List.filterMap_cons]
        | some m => rfl
      · have hm : ¬ trim (toLowerCase s) ∈ validSizes := by simpa using h
        simp [collectSizes, hm, List.findSome?, offence]

theorem FileApi.normalized_valid (values : List SizeValue)
    (h : values.findSome? offence = none) :
    (∀ v ∈ values, ∃ s, v = .string s ∧ trim (toLowerCase s) ∈ validSizes)
    ∧ ∀ x ∈ normalized values, x ∈ validSizes := by
  have hall : ∀ v ∈ values, offence v = none := by
    simpa [List.findSome?_eq_none_iff] using h
  have h1 : ∀ v ∈ values, ∃ s, v = .string s ∧ trim (toLowerCase s) ∈ validSizes := by
    intro v hv
    have := hall v hv
    cases v with
    | other => simp [offence] at this
    | string s =>
      refine ⟨s, rfl, ?_⟩
      by_cases hc : validSizes.contains (trim (toLowerCase s)) = true
      · simpa using hc
      · simp only [offence] at this
        simpa using this
  refine ⟨h1, ?_⟩
  intro x hx
  unfold normalized at hx
  obtain ⟨v, hv, e⟩ := List.mem_filterMap.1 hx
  obtain ⟨s, rfl, hs⟩ := h1 v hv
  simp only [Option.some.injEq] at e
  rw [← e]; exact hs

theorem FileApi.unique_spec (values : List String) :
    (unique values).Nodup ∧ ∀ x, x ∈ unique values ↔ x ∈ values := by
  have gen : ∀ (vs acc : List String), acc.Nodup →
      (vs.foldl (fun set v => if set.contains v then set else set ++ [v]) acc).Nodup
      ∧ ∀ x, x ∈ vs.foldl (fun set v => if set.contains v then set else set ++ [v]) acc
          ↔ x ∈ acc ∨ x ∈ vs := by
    intro vs
    induction vs with
    | nil => intro acc h; simp [h]
    | cons v rest ih =>
      intro acc h
      simp only [List.foldl_cons]
      by_cases hc : acc.contains v = true
      · rw [if_pos hc]
        obtain ⟨n, m⟩ := ih acc h
        refine ⟨n, fun x => ?_⟩
        rw [m x]
        have hv : v ∈ acc := by simpa using hc
        constructor
        · rintro (h1 | h1)
          · exact Or.inl h1
          · exact Or.inr (List.mem_cons_of_mem _ h1)
        · rintro (h1 | h1)
          · exact Or.inl h1
          · rcases List.mem_cons.1 h1 with e | h2
            · exact Or.inl (e ▸ hv)
            · exact Or.inr h2
      · rw [if_neg hc]
        have hv : v ∉ acc := by simpa using hc
        have h2 : (acc ++ [v]).Nodup := by
          rw [List.nodup_append]
          refine ⟨h, by simp, ?_⟩
          intro a ha hb
          rw [List.mem_singleton] at hb
          exact hv (hb ▸ ha)
        obtain ⟨n, m⟩ := ih (acc ++ [v]) h2
        refine ⟨n, fun x => ?_⟩
        rw [m x]
        simp only [List.mem_append, List.mem_singleton, List.mem_cons]
        tauto
  obtain ⟨n, m⟩ := gen values [] List.nodup_nil
  exact ⟨n, fun x => by rw [unique, m x]; simp⟩

theorem FileApi.leChars_total : ∀ a b : List Char, leChars a b = true ∨ leChars b a = true := by
  intro a
  induction a with
  | nil => intro b; exact Or.inl (by cases b <;> rfl)
  | cons x xs ih =>
    intro b
    cases b with
    | nil => exact Or.inr rfl
    | cons y ys =>
      simp only [leChars, Bool.or_eq_true, Bool.and_eq_true, decide_eq_true_eq]
      rcases Nat.lt_trichotomy x.toNat y.toNat with h | h | h
      · exact Or.inl (Or.inl h)
      · rcases ih ys with h1 | h1
        · exact Or.inl (Or.inr ⟨h, h1⟩)
        · exact Or.inr (Or.inr ⟨h.symm, h1⟩)
      · exact Or.inr (Or.inl h)

theorem FileApi.leChars_trans : ∀ a b c : List Char,
    leChars a b = true → leChars b c = true → leChars a c = true := by
  intro a
  induction a with
  | nil => intro b c _ _; cases c <;> rfl
  | cons x xs ih =>
    intro b c h1 h2
    cases b with
    | nil => simp [leChars] at h1
    | cons y ys =>
      cases c with
      | nil => simp [leChars] at h2
      | cons z zs =>
        simp only [leChars, Bool.or_eq_true, Bool.and_eq_true, decide_eq_true_eq] at h1 h2 ⊢
        rcases h1 with h1 | ⟨e1, h1⟩
        · rcases h2 with h2 | ⟨e2, _⟩
          · exact Or.inl (by omega)
          · exact Or.inl (by omega)
        · rcases h2 with h2 | ⟨e2, h2⟩
          · exact Or.inl (by omega)
          · exact Or.inr ⟨by omega, ih ys zs h1 h2⟩

theorem FileApi.leChars_antisymm : ∀ a b : List Char,
    leChars a b = true → leChars b a = true → a = b := by
  intro a
  induction a with
  | nil =>
    intro b _ h2
    cases b with
    | nil => rfl
    | cons y ys => simp [leChars] at h2
  | cons x xs ih =>
    intro b h1 h2
    cases b with
    | nil => simp [leChars] at h1
    | cons y ys =>
      simp only [leChars, Bool.or_eq_true, Bool.and_eq_true, decide_eq_true_eq] at h1 h2
      rcases h1 with h1 | ⟨e1, h1⟩
      · rcases h2 with h2 | ⟨e2, _⟩ <;> omega
      · rcases h2 with h2 | ⟨_, h2⟩
        · omega
        · have hx : x = y := by
            have : x.val = y.val := by
              apply UInt32.ext
              exact e1
            exact Char.ext this
          rw [hx, ih ys h1 h2]

theorem FileApi.sortLe_total : IsTotal String sortLe :=
  ⟨fun a b => leChars_total a.data b.data⟩

theorem FileApi.sortLe_trans : IsTrans String sortLe :=
  ⟨fun a b c => leChars_trans a.data b.data c.data⟩

theorem FileApi.sortLe_antisymm : IsAntisymm String sortLe :=
  ⟨fun a b h1 h2 => String.ext (leChars_antisymm a.data b.data h1 h2)⟩

theorem FileApi.sort_spec (values : List String) (h : values.Nodup) :
    Ascending (sort values) ∧ (sort values).Nodup ∧ ∀ x, x ∈ sort values ↔ x ∈ values := by
  haveI := sortLe_total
  haveI := sortLe_trans
  have hp : (sort values).Perm values := List.perm_insertionSort _ _
  have hs : (sort values).Sorted sortLe := List.sorted_insertionSort _ _
  have hn : (sort values).Nodup := hp.nodup_iff.2 h
  refine ⟨?_, hn, fun x => hp.mem_iff⟩
  unfold Ascending
  exact (List.Pairwise.and hs hn).imp (fun h => h)

theorem FileApi.validate_cases (sizeInput : SizeInput) :
    ((sizeInput = .undefined ∨ sizeInput = .null)
      ∧ validateAndNormalizeSize sizeInput = ⟨true, none, none⟩)
    ∨ ((sizeInput ≠ .undefined ∧ sizeInput ≠ .null)
      ∧ ((∃ message, (sizesArray sizeInput).findSome? offence = some message
          ∧ validateAndNormalizeSize sizeInput = ⟨false, none, some message⟩)
        ∨ ((sizesArray sizeInput).findSome? offence = none ∧ sizesArray sizeInput = []
          ∧ validateAndNormalizeSize sizeInput = ⟨false, none, some msgEmptySizes⟩)
        ∨ ((sizesArray sizeInput).findSome? offence = none ∧ sizesArray sizeInput ≠ []
          ∧ normalized (sizesArray sizeInput) ≠ []
          ∧ validateAndNormalizeSize sizeInput
              = ⟨true, some (sort (unique (normalized (sizesArray sizeInput)))), none⟩))) := by
  have key : ∀ (values : List SizeValue) (result : SizeCheck),
      result = (match collectSizes values [] with
          | .error message => ⟨false, none, some message⟩
          | .ok normalizedSizes =>
            if normalizedSizes.length = 0 then ⟨false, none, some msgEmptySizes⟩
            else ⟨true, some (sort (unique normalizedSizes)), none⟩) →
      ((∃ message, values.findSome? offence = some message
        ∧ result = ⟨false, none, some message⟩)
      ∨ (values.findSome? offence = none ∧ values = []
        ∧ result = ⟨false, none, some msgEmptySizes⟩)
      ∨ (values.findSome? offence = none ∧ values ≠ [] ∧ normalized values ≠ []
        ∧ result = ⟨true, some (sort (unique (normalized values))), none⟩)) := by
    intro values result hdef
    rw [hdef, collectSizes_eq]
    cases hf : values.findSome? offence with
    | some m => exact Or.inl ⟨m, rfl, rfl⟩
    | none =>
      simp only [List.nil_append]
      by_cases hl : (normalized values).length = 0
      · have hn : normalized values = [] := List.length_eq_zero.1 hl
        have hv : values = [] := by
          cases values with
          | nil => rfl
          | cons v rest =>
            obtain ⟨s, e, _⟩ := (normalized_valid _ hf).1 v (List.mem_cons_self _ _)
            rw [e] at hn
            simp [normalized] at hn
        exact Or.inr (Or.inl ⟨trivial, hv, by rw [if_pos hl]⟩)
      · have hn : normalized values ≠ [] := fun e => hl (by rw [e]; rfl)
        have hv : values ≠ [] := by
          intro e; rw [e] at hn; exact hn rfl
        exact Or.inr (Or.inr ⟨trivial, hv, hn, by rw [if_neg hl]⟩)
  cases sizeInput with
  | undefined => exact Or.inl ⟨Or.inl rfl, rfl⟩
  | null => exact Or.inl ⟨Or.inr rfl, rfl⟩
  | array values =>
    exact Or.inr ⟨⟨by simp, by simp⟩, key values _ rfl⟩
  | value v =>
    exact Or.inr ⟨⟨by simp, by simp⟩, key [v] _ rfl⟩

theorem FileApi.validate_some (sizeInput : SizeInput) (ns : List String)
    (h : (validateAndNormalizeSize sizeInput).normalizedSize = some ns) :
    (sizesArray sizeInput).findSome? offence = none
    ∧ normalized (sizesArray sizeInput) ≠ []
    ∧ ns = sort (unique (normalized (sizesArray sizeInput))) := by
  rcases validate_cases sizeInput with ⟨_, e⟩ | ⟨_, ⟨m, _, e⟩ | ⟨_, _, e⟩ | ⟨hf, _, hn, e⟩⟩
  · rw [e] at h; simp at h
  · rw [e] at h; simp at h
  · rw [e] at h; simp at h
  · rw [e] at h
    simp only [Option.some.injEq] at h
    exact ⟨hf, hn, h.symm⟩

/-- C26.  When `validateAndNormalizeSize` returns a defined `normalizedSize`, the
list is not empty, strictly ascending in the order of `sort` (so sorted and
without duplicates), made of `l`, `m` and `s` only, and its elements are exactly
the lowercased, trimmed forms of the elements of the input, all of which are
strings; hence two inputs whose normalised values form the same set get the same
list, whatever the order, case, padding or repetition of their elements. -/
theorem validateAndNormalizeSize_normal_form (sizeInput other : FileApi.SizeInput)
    (ns ms : List String) :
    ((validateAndNormalizeSize sizeInput).normalizedSize = some ns →
      (validateAndNormalizeSize sizeInput).isValid = true
      ∧ ns ≠ [] ∧ Ascending ns ∧ ns.Nodup
      ∧ (∀ x ∈ ns, x ∈ ["l", "m", "s"])
      ∧ (∀ v ∈ sizesArray sizeInput, ∃ s, v = .string s)
      ∧ (∀ x, x ∈ ns ↔ x ∈ normalized (sizesArray sizeInput)))
    ∧ ((validateAndNormalizeSize sizeInput).normalizedSize = some ns →
      (validateAndNormalizeSize other).normalizedSize = some ms →
      (∀ x, x ∈ normalized (sizesArray sizeInput) ↔ x ∈ normalized (sizesArray other)) →
      ns = ms) := by
  constructor
  · intro h
    obtain ⟨hf, hn, e⟩ := validate_some sizeInput ns h
    obtain ⟨hu, hm⟩ := unique_spec (normalized (sizesArray sizeInput))
    obtain ⟨ha, hnd, hs⟩ := sort_spec _ hu
    have hmem : ∀ x, x ∈ ns ↔ x ∈ normalized (sizesArray sizeInput) := by
      intro x; rw [e, hs x, hm x]
    obtain ⟨hstr, hval⟩ := normalized_valid _ hf
    refine ⟨?_, ?_, by rw [e]; exact ha, by rw [e]; exact hnd, ?_, ?_, hmem⟩
    · rcases validate_cases sizeInput with ⟨_, e1⟩ | ⟨_, ⟨m, _, e1⟩ | ⟨_, _, e1⟩ | ⟨_, _, _, e1⟩⟩
      · rw [e1] at h; simp at h
      · rw [e1] at h; simp at h
      · rw [e1] at h; simp at h
      · rw [e1]
    · intro e0
      obtain ⟨x, hx⟩ := List.exists_mem_of_ne_nil _ hn
      have := (hmem x).2 hx
      rw [e0] at this
      exact absurd this (List.not_mem_nil _)
    · intro x hx
      have := hval x ((hmem x).1 hx)
      simp only [validSizes, List.mem_cons, List.mem_singleton, List.not_mem_nil, or_false]
        at this ⊢
      tauto
    · intro v hv
      obtain ⟨s, e1, _⟩ := hstr v hv
      exact ⟨s, e1⟩
  · intro h1 h2 hsame
    obtain ⟨_, _, e1⟩ := validate_some sizeInput ns h1
    obtain ⟨_, _, e2⟩ := validate_some other ms h2
    obtain ⟨hu1, hm1⟩ := unique_spec (normalized (sizesArray sizeInput))
    obtain ⟨hu2, hm2⟩ := unique_spec (normalized (sizesArray other))
    have hperm : (unique (normalized (sizesArray sizeInput))).Perm
        (unique (normalized (sizesArray other))) := by
      rw [List.perm_ext_iff_of_nodup hu1 hu2]
      intro x
      rw [hm1 x, hm2 x, hsame x]
    rw [e1, e2]
    haveI := sortLe_total
    haveI := sortLe_trans
    haveI := sortLe_antisymm
    refine List.eq_of_perm_of_sorted ?_ (List.sorted_insertionSort sortLe _)
      (List.sorted_insertionSort sortLe _)
    exact ((List.perm_insertionSort sortLe _).trans hperm).trans
      (List.perm_insertionSort sortLe _).symm

/-- C26 at `[" M ", "s", "m"]` and `["S", "m"]`: the normalised values of both
inputs are `m` and `s`, and both inputs are accepted with the list `["m", "s"]`. -/
theorem validateAndNormalizeSize_normal_form_witness :
    ((validateAndNormalizeSize (.array [.string " M ", .string "s", .string "m"])).normalizedSize
        = some ["m", "s"]
      ∧ (validateAndNormalizeSize (.array [.string "S", .string "m"])).normalizedSize
        = some ["m", "s"]
      ∧ ∀ x, x ∈ normalized (sizesArray (.array [.string " M ", .string "s", .string "m"]))
          ↔ x ∈ normalized (sizesArray (.array [.string "S", .string "m"])))
    ∧ Ascending ["m", "s"]
    ∧ ["m", "s"] = ["m", "s"] :=
  have hsame : ∀ x,
      x ∈ normalized (sizesArray (.array [.string " M ", .string "s", .string "m"]))
        ↔ x ∈ normalized (sizesArray (.array [.string "S", .string "m"])) := by
    intro x
    rw [show normalized (sizesArray (.array [.string " M ", .string "s", .string "m"]))
        = ["m", "s", "m"] from by decide,
      show normalized (sizesArray (.array [.string "S", .string "m"])) = ["s", "m"] from by
        decide]
    simp only [List.mem_cons, List.mem_singleton, List.not_mem_nil, or_false]
    tauto
  ⟨⟨by decide, by decide, hsame⟩,
   ((validateAndNormalizeSize_normal_form
      (.array [.string " M ", .string "s", .string "m"]) (.array [.string "S", .string "m"])
      ["m", "s"] ["m", "s"]).1 (by decide)).2.2.1,
   (validateAndNormalizeSize_normal_form
      (.array [.string " M ", .string "s", .string "m"]) (.array [.string "S", .string "m"])
      ["m", "s"] ["m", "s"]).2 (by decide) (by decide) hsame⟩

/-- C27.  `validateAndNormalizeSize` returns `isValid = true` exactly when the input
is `undefined` or `null`, and then without `normalizedSize`, or when the input,
taken as a one-element list if it is not an array, is a non-empty list of
strings whose lowercased, trimmed forms are valid sizes; otherwise it returns
`isValid = false` with the message of the first element in input order that it
does not accept, or with the message for the empty array. -/
theorem validateAndNormalizeSize_verdict (sizeInput : FileApi.SizeInput) :
    ((validateAndNormalizeSize sizeInput).isValid = true
      ↔ sizeInput = .undefined ∨ sizeInput = .null
        ∨ (sizesArray sizeInput ≠ []
          ∧ ∀ v ∈ sizesArray sizeInput,
              ∃ s, v = .string s ∧ trim (toLowerCase s) ∈ validSizes))
    ∧ (sizeInput = .undefined ∨ sizeInput = .null →
        validateAndNormalizeSize sizeInput = ⟨true, none, none⟩)
    ∧ ((validateAndNormalizeSize sizeInput).isValid = false →
        (∃ message, (sizesArray sizeInput).findSome? offence = some message
          ∧ validateAndNormalizeSize sizeInput = ⟨false, none, some message⟩)
        ∨ (sizeInput = .array []
          ∧ validateAndNormalizeSize sizeInput = ⟨false, none, some msgEmptySizes⟩)) := by
  have hoff : ∀ values : List SizeValue,
      (∀ v ∈ values, ∃ s, v = SizeValue.string s ∧ trim (toLowerCase s) ∈ validSizes) →
      values.findSome? offence = none := by
    intro values hall
    rw [List.findSome?_eq_none_iff]
    intro v hv
    obtain ⟨s, e, hs⟩ := hall v hv
    rw [e]
    simp only [offence]
    simpa using hs
  rcases validate_cases sizeInput with
    ⟨h0, e⟩ | ⟨hne, ⟨m, hm, e⟩ | ⟨hf, hnil, e⟩ | ⟨hf, hv, _, e⟩⟩
  · refine ⟨?_, fun _ => e, ?_⟩
    · rw [e]
      exact ⟨fun _ => by rcases h0 with h | h; exact Or.inl h; exact Or.inr (Or.inl h),
        fun _ => rfl⟩
    · rw [e]; intro h; simp at h
  · refine ⟨?_, fun h => absurd h (by rintro (h | h); exact hne.1 h; exact hne.2 h), ?_⟩
    · rw [e]
      constructor
      · intro h; simp at h
      · rintro (h | h | ⟨_, hall⟩)
        · exact absurd h hne.1
        · exact absurd h hne.2
        · rw [hoff _ hall] at hm; simp at hm
    · intro _; exact Or.inl ⟨m, hm, e⟩
  · have harr : sizeInput = .array [] := by
      cases sizeInput with
      | undefined => exact absurd rfl hne.1
      | null => exact absurd rfl hne.2
      | array values => simp only [sizesArray] at hnil; rw [hnil]
      | value v => simp [sizesArray] at hnil
    refine ⟨?_, fun h => absurd h (by rintro (h | h); exact hne.1 h; exact hne.2 h), ?_⟩
    · rw [e]
      constructor
      · intro h; simp at h
      · rintro (h | h | ⟨h, _⟩)
        · exact absurd h hne.1
        · exact absurd h hne.2
        · exact absurd hnil h
    · intro _; exact Or.inr ⟨harr, e⟩
  · refine ⟨?_, fun h => absurd h (by rintro (h | h); exact hne.1 h; exact hne.2 h), ?_⟩
    · rw [e]
      exact ⟨fun _ => Or.inr (Or.inr ⟨hv, (normalized_valid _ hf).1⟩), fun _ => rfl⟩
    · rw [e]; intro h; simp at h

/-- C27 at `null` and at `["s", "xl", 7]`: the first is accepted without a list,
the second is refused with the message for `xl`. -/
theorem validateAndNormalizeSize_verdict_witness :
    ((validateAndNormalizeSize (.array [.string "s", .string "xl", .other])).isValid = false)
    ∧ validateAndNormalizeSize .null = ⟨true, none, none⟩
    ∧ ((∃ message,
          (sizesArray (.array [.string "s", .string "xl", .other])).findSome? offence
            = some message
          ∧ validateAndNormalizeSize (.array [.string "s", .string "xl", .other])
            = ⟨false, none, some message⟩)
        ∨ (SizeInput.array [.string "s", .string "xl", .other] = .array []
          ∧ validateAndNormalizeSize (.array [.string "s", .string "xl", .other])
            = ⟨false, none, some msgEmptySizes⟩)) :=
  ⟨by decide,
   (validateAndNormalizeSize_verdict .null).2.1 (Or.inr rfl),
   (validateAndNormalizeSize_verdict (.array [.string "s", .string "xl", .other])).2.2
      (by decide)⟩

theorem forall₂_map_eq {α β : Type} (f : α → β) {before after : List α}
    (h : List.Forall₂ (fun i j => f j = f i) before after) : after.map f = before.map f := by
  induction h with
  | nil => rfl
  | cons h _ ih => simp only [List.map_cons, h, ih]

theorem FileApi.assign_sameBut (itemId : String) (new : Item) :
    ∀ (items : List Item) (existing : Item),
      items.find? (fun i => decide (i.id = itemId)) = some existing →
      new.id = existing.id → new.name = existing.name → new.others = existing.others →
      List.Forall₂ (SameBut itemId) items (assign items itemId new) := by
  intro items
  induction items with
  | nil => intro existing h; simp at h
  | cons a rest ih =>
    intro existing h h1 h2 h3
    by_cases e : a.id = itemId
    · have ha : existing = a := by
        rw [List.find?_cons_of_pos] at h
        · injection h with h; exact h.symm
        · simpa using e
      subst ha
      unfold assign
      rw [if_pos e]
      exact List.Forall₂.cons (Or.inr ⟨e, h1, h2, h3⟩)
        (List.forall₂_same.2 (fun _ _ => Or.inl rfl))
    · rw [List.find?_cons_of_neg] at h
      · unfold assign
        rw [if_neg e]
        exact List.Forall₂.cons (Or.inl rfl) (ih existing h h1 h2 h3)
      · simpa using e

theorem FileApi.writeBack_cases (env : Env) (items : List Item) (itemId : String)
    (existing new : Item) (hfind : items.find? (fun i => decide (i.id = itemId)) = some existing)
    (hnew : new = { existing with price := new.price, size := new.size }) :
    (writeBack env items itemId new).1 = items
    ∨ ∃ existing new1, items.find? (fun i => decide (i.id = itemId)) = some existing
        ∧ new1 = { existing with price := new1.price, size := new1.size }
        ∧ (writeBack env items itemId new).1 = assign items itemId new1 := by
  unfold writeBack
  split
  · exact Or.inl rfl
  · exact Or.inr ⟨existing, new, hfind, hnew, rfl⟩

theorem FileApi.putItem_cases (env : Env) (items : List Item) (itemId : String)
    (body : ParsedBody) :
    (putItem env items itemId body).1 = items
    ∨ ∃ existing new, items.find? (fun i => decide (i.id = itemId)) = some existing
        ∧ new = { existing with price := new.price, size := new.size }
        ∧ (putItem env items itemId body).1 = assign items itemId new := by
  unfold putItem
  split
  · exact Or.inl rfl
  split
  · exact Or.inl rfl
  · exact Or.inl rfl
  rename_i updatedFields
  split
  · exact Or.inl rfl
  split
  · exact Or.inl rfl
  split
  · exact Or.inl rfl
  split
  · exact Or.inl rfl
  rename_i existing hfind
  dsimp only
  split
  · split
    · exact Or.inl rfl
    · apply writeBack_cases env items itemId existing _ hfind
      cases updatedFields.price <;> rfl
  · split
    · exact Or.inl rfl
    · apply writeBack_cases env items itemId existing _ hfind
      cases updatedFields.price <;> rfl

/-- C25.  `PUT /items/:id` of the file-backed item API rejects a body with a
`name` member with 400 and leaves the stored items as they are; for every body
the stored items afterwards are those before in the same order, as many as
before, each with its identifier, name and other members as before, and they
differ from those before at most in the price and size of the first item with
the given identifier. -/
theorem putItem_changes_price_and_size_only (env : Env) (items : List FileApi.Item)
    (itemId : String) (body : FileApi.ParsedBody) :
    (∀ updatedFields, body = .fields updatedFields → updatedFields.name.isSome = true →
      (putItem env items itemId body).2.status = 400
      ∧ (putItem env items itemId body).1 = items
      ∧ (itemId ≠ "" → putItem env items itemId body = (items, ⟨400, msgNameFixed, none⟩)))
    ∧ ((putItem env items itemId body).1 = items
      ∨ ∃ existing new, items.find? (fun i => decide (i.id = itemId)) = some existing
          ∧ new = { existing with price := new.price, size := new.size }
          ∧ (putItem env items itemId body).1 = assign items itemId new)
    ∧ List.Forall₂ (SameBut itemId) items (putItem env items itemId body).1
    ∧ (putItem env items itemId body).1.length = items.length
    ∧ (putItem env items itemId body).1.map (fun i => (i.id, i.name))
        = items.map (fun i => (i.id, i.name)) := by
  have hfor : List.Forall₂ (SameBut itemId) items (putItem env items itemId body).1 := by
    rcases putItem_cases env items itemId body with e | ⟨existing, new, hfind, hnew, e⟩
    · rw [e]; exact List.forall₂_same.2 (fun _ _ => Or.inl rfl)
    · rw [e]
      refine assign_sameBut itemId new items existing hfind ?_ ?_ ?_
      · rw [hnew]
      · rw [hnew]
      · rw [hnew]
  refine ⟨?_, putItem_cases env items itemId body, hfor, hfor.length_eq.symm, ?_⟩
  · intro updatedFields hb hn
    rw [hb]
    unfold putItem
    by_cases hid : itemId = ""
    · rw [if_pos hid]
      exact ⟨rfl, rfl, fun h => absurd hid h⟩
    · rw [if_neg hid]
      dsimp only
      rw [if_pos hn]
      exact ⟨rfl, rfl, fun _ => rfl⟩
  · have : List.Forall₂ (fun i j : Item => (j.id, j.name) = (i.id, i.name)) items
        (putItem env items itemId body).1 := by
      refine hfor.imp ?_
      intro i j h
      rcases h with h | ⟨_, h1, h2, _⟩
      · rw [h]
      · rw [h1, h2]
    exact forall₂_map_eq _ this

/-- C25 at a stored shirt: a body with a `name` member is rejected and nothing is
written; a body with a price and a size changes the price and size of the item. -/
theorem putItem_changes_price_and_size_only_witness :
    ((⟨some "\"Coat\"", .number 5, .undefined⟩ : UpdatedFields).name.isSome = true
      ∧ "i1" ≠ "")
    ∧ putItem demoLater [demoItem] "i1" (.fields ⟨some "\"Coat\"", .number 5, .undefined⟩)
        = ([demoItem], ⟨400, msgNameFixed, none⟩)
    ∧ (putItem demoLater [demoItem] "i1"
        (.fields ⟨none, .number 5, .array [.string "S", .string " l"]⟩)).1
        = [{ demoItem with price := 5, size := some ["l", "s"] }] :=
  ⟨⟨rfl, by decide⟩,
   ((putItem_changes_price_and_size_only demoLater [demoItem] "i1"
      (.fields ⟨some "\"Coat\"", .number 5, .undefined⟩)).1 _ rfl rfl).2.2 (by decide),
   by decide⟩

end Sizes

/-! ## Where the guard of the administrator deletion suffices -/

section LastAdminKept

theorem NoSQL.findAccountAndDelete_length_doc (id : String) :
    ∀ (accounts rest : List NoSQL.Account),
      NoSQL.findAccountAndDelete accounts id = some rest →
      rest.length + 1 = accounts.length ∧ ∃ a ∈ accounts, a._id = id := by
  intro accounts
  induction accounts with
  | nil => intro rest h; simp [NoSQL.findAccountAndDelete] at h
  | cons a tl ih =>
    intro rest h
    unfold NoSQL.findAccountAndDelete at h
    split at h
    · rename_i e
      injection h with h
      rw [← h]
      exact ⟨rfl, a, List.mem_cons_self _ _, e⟩
    · cases hr : NoSQL.findAccountAndDelete tl id with
      | none => rw [hr] at h; simp at h
      | some r =>
        rw [hr] at h
        simp only [Option.map_some', Option.some.injEq] at h
        obtain ⟨hl, b, hb, e⟩ := ih r hr
        rw [← h]
        exact ⟨by simp [hl], b, List.mem_cons_of_mem _ hb, e⟩

/-- When the caller's own account is among the admin accounts, the deletion of an
administrator in the document store leaves an admin account. -/
theorem NoSQL.deleteAdmin_keeps_one_doc (env : Env) (site : NoSQL.Site) (user : Caller)
    (adminId : String) (hself : ∃ a ∈ site.admins, a._id = user.id) :
    (NoSQL.deleteAdmin env site user adminId).1.admins ≠ [] := by
  have hne : site.admins ≠ [] := by
    obtain ⟨a, ha, _⟩ := hself
    exact List.ne_nil_of_mem ha
  unfold NoSQL.deleteAdmin
  split
  · exact hne
  split
  · exact hne
  rename_i hguard
  split
  · exact hne
  dsimp only
  split
  · exact hne
  split
  · exact hne
  split
  · exact hne
  · rename_i admins hdel
    obtain ⟨hl, b, hb, hbid⟩ := NoSQL.findAccountAndDelete_length_doc adminId _ _ hdel
    intro e
    have e1 : admins = [] := e
    rw [e1] at hl
    have hlen : site.admins.length = 1 := by simpa using hl.symm
    obtain ⟨a, ha, haid⟩ := hself
    have hab : a = b := by
      match hs : site.admins, hlen with
      | [x], _ =>
        rw [hs] at ha
        have hb1 : b ∈ [x] := by
          have : b ∈ site.admins := hb
          rwa [hs] at this
        rw [List.mem_singleton] at ha hb1
        rw [ha, hb1]
    exact hguard ⟨hlen, by rw [← haid, hab, hbid]⟩

/-- When the caller's own account is among the admin accounts and `admin_id` is a
key of `Admins`, the deletion of an administrator in the relational store leaves
an admin account. -/
theorem SQL.deleteAdmin_keeps_one_rel (env : Env) (site : SQL.Site) (user : Caller)
    (adminId : String) (hself : ∃ a ∈ site.Admins, a.id = user.id)
    (hk : (site.Admins.map (fun a => a.id)).Nodup) :
    (SQL.deleteAdmin env site user adminId).1.Admins ≠ [] := by
  have hne : site.Admins ≠ [] := by
    obtain ⟨a, ha, _⟩ := hself
    exact List.ne_nil_of_mem ha
  unfold SQL.deleteAdmin
  split
  · exact hne
  split
  · exact hne
  split
  · exact hne
  split
  · exact hne
  rename_i hguard
  split
  · exact hne
  dsimp only
  split
  · exact hne
  split
  · exact hne
  split
  · exact hne
  rename_i hfound
  have hkeep : site.Admins.filter (fun a => decide (a.id ≠ adminId)) ≠ [] := by
    intro e
    rw [List.filter_eq_nil_iff] at e
    have hall : ∀ a ∈ site.Admins, a.id = adminId := by
      intro a ha
      simpa using e a ha
    obtain ⟨a, ha, haid⟩ := hself
    have hlen : site.Admins.length = 1 := by
      match hs : site.Admins with
      | [] => rw [hs] at ha; exact absurd ha (List.not_mem_nil _)
      | [x] => rfl
      | x :: y :: rest =>
        rw [hs] at hk hall
        have hx := hall x (by simp)
        have hy := hall y (by simp)
        simp only [List.map_cons, List.nodup_cons, List.mem_cons] at hk
        exact absurd (Or.inl (hx.trans hy.symm)) hk.1
    exact hguard ⟨hlen, by rw [← haid]; exact hall a ha⟩
  split
  · exact hne
  · exact hkeep

end LastAdminKept

end Inventory
